/-
Verification of the AD-Census stereo matching pipeline (repository
`AD-Census`, files under `src/AD-Census/`) against its natural-language
specification.

The C++ sources are shallowly embedded as pure Lean definitions:

* 32-bit floats (`float32`) are modelled as exact rationals `ℚ`.  The
  sentinels `Invalid_Float` (infinity in the C++ source) and `Large_Float`
  are modelled as distinguished large rationals; every comparison the
  pipeline performs on reachable values behaves exactly as the C++ one.
* flat row-major arrays are modelled as total functions from integer
  indices; the image loops of the source only ever access indices proved
  (or assumed) to be in range.
* machine integers (`sint32`, `uint8`) are modelled as `ℤ` / `ℕ`;
  no arithmetic in the modelled code paths overflows 32 bits.

Code of the repository that is not under `src/` (the headers, the cost
computer `cost_computer.cpp` and the utility `adcensus_util.cpp`) is
modelled from the specification; every such definition carries a doc
comment starting `Modelled from the spec:`.
-/
import Mathlib

namespace ADCensus

/-- Modelled from the spec: sentinel for holes in the disparity maps
(`Invalid_Float`, defined in the absent header `adcensus_types.h`;
infinity in IEEE-754, modelled as a rational dominating every value the
pipeline can produce). -/
def Invalid_Float : ℚ := 1000000000

/-- Modelled from the spec: the large finite cost used as padding
(`Large_Float`, defined in the absent header `adcensus_types.h`). -/
def Large_Float : ℚ := 99999

/-- Modelled from the spec: maximal cross arm length (`MAX_ARM_LENGTH = 255`,
stored as a byte). -/
def MAX_ARM_LENGTH : ℤ := 255

/-- `lround`: round to nearest integer, halfway cases away from zero. -/
def qround (q : ℚ) : ℤ := if 0 ≤ q then ⌊q + 1/2⌋ else ⌈q - 1/2⌉

/-- A 3-channel colour sample (`ADColor`); channels modelled as `ℤ`
(the C++ fields are bytes, promoted to `int` in every computation). -/
structure ADColor where
  b : ℤ
  g : ℤ
  r : ℤ
deriving DecidableEq

/-- Modelled from the spec: `ColorDist(a,b) = max(|aB−bB|, |aG−bG|, |aR−bR|)`
(defined in the absent header, used by the aggregator, the scanline
optimizer and the refiner). -/
def ColorDist (c1 c2 : ADColor) : ℤ :=
  max (|c1.b - c2.b|) (max (|c1.g - c2.g|) (|c1.r - c2.r|))

/-- An input image: colour at row `y`, column `x`. -/
abbrev Img := ℤ → ℤ → ADColor

/-- A cost volume: cost at row `y`, column `x`, disparity index `d`. -/
abbrev Vol := ℤ → ℤ → ℤ → ℚ

/-- A disparity map: disparity at row `y`, column `x`. -/
abbrev DispMap := ℤ → ℤ → ℚ

/-- The algorithm options (`ADCensusOption`). -/
structure ADCensusOption where
  min_disparity : ℤ
  max_disparity : ℤ
  lambda_ad : ℚ
  lambda_census : ℚ
  cross_L1 : ℤ
  cross_L2 : ℤ
  cross_t1 : ℤ
  cross_t2 : ℤ
  so_p1 : ℚ
  so_p2 : ℚ
  so_tso : ℤ
  irv_ts : ℤ
  irv_th : ℚ
  lrcheck_thres : ℚ
  do_lr_check : Bool
  do_filling : Bool
  do_discontinuity_adjustment : Bool

/-! ### Winner-take-all disparity selection (`ADCensusStereo.cpp:190-312`) -/

/-- The inner WTA loop of `ADCensusStereo::ComputeDisparity`
(`ADCensusStereo.cpp:213-224`): scan all `disp_range` candidate costs,
keeping the running minimum cost and its (absolute) disparity.
`min_cost` starts at `Large_Float` and `best_disparity` at `0`. -/
def wtaFold (cost : ℤ → ℚ) (minD : ℤ) (n : ℕ) : ℚ × ℤ :=
  (List.range n).foldl
    (fun st (dIdx : ℕ) =>
      let c := cost (dIdx : ℤ)
      if st.1 > c then (c, minD + (dIdx : ℤ)) else st)
    (Large_Float, 0)

/-- `ADCensusStereo::ComputeDisparity` for one pixel
(`ADCensusStereo.cpp:211-244`): WTA over the pixel's cost slice, then
invalidation at the window border and parabolic sub-pixel refinement. -/
def computeDispPixel (minD maxD : ℤ) (costRow : ℤ → ℚ) : ℚ :=
  let n := (maxD - minD).toNat
  let st := wtaFold costRow minD n
  let min_cost := st.1
  let best_disparity := st.2
  if best_disparity = minD ∨ best_disparity = maxD - 1 then Invalid_Float
  else
    let cost_1 := costRow (best_disparity - 1 - minD)
    let cost_2 := costRow (best_disparity + 1 - minD)
    let denom := cost_1 + cost_2 - 2 * min_cost
    if denom ≠ 0 then (best_disparity : ℚ) + (cost_1 - cost_2) / (denom * 2)
    else (best_disparity : ℚ)

/-- `ADCensusStereo::ComputeDisparity` (`ADCensusStereo.cpp:190-245`):
left-view disparity map from the final cost volume. -/
def computeDisparity (minD maxD : ℤ) (cost : Vol) : DispMap :=
  fun y x => computeDispPixel minD maxD (fun dIdx => cost y x dIdx)

/-- The inner WTA loop of `ADCensusStereo::ComputeDisparityRight`
(`ADCensusStereo.cpp:276-289`): candidates address the left column
`j + d` (with `d` the absolute disparity); out-of-range candidates are
stored as `Large_Float` and never compared. -/
def wtaFoldRight (w : ℤ) (j minD : ℤ) (costAt : ℤ → ℤ → ℚ) (n : ℕ) : ℚ × ℤ :=
  (List.range n).foldl
    (fun st (dIdx : ℕ) =>
      let d := minD + (dIdx : ℤ)
      let col_left := j + d
      if 0 ≤ col_left ∧ col_left < w then
        let c := costAt col_left (dIdx : ℤ)
        if st.1 > c then (c, d) else st
      else st)
    (Large_Float, 0)

/-- The local candidate-cost array built by `ComputeDisparityRight`
(`cost_local`): the cost at left column `j+d`, or `Large_Float` when that
column is out of range. -/
def rightCostLocal (w : ℤ) (j minD : ℤ) (costAt : ℤ → ℤ → ℚ) : ℤ → ℚ :=
  fun dIdx =>
    let col_left := j + minD + dIdx
    if 0 ≤ col_left ∧ col_left < w then costAt col_left dIdx else Large_Float

/-- `ADCensusStereo::ComputeDisparityRight` for one pixel
(`ADCensusStereo.cpp:270-311`): WTA over mirrored costs; at the window
border the raw integer disparity is recorded (no invalidation). -/
def computeDispRightPixel (w : ℤ) (minD maxD : ℤ) (j : ℤ) (costAt : ℤ → ℤ → ℚ) : ℚ :=
  let n := (maxD - minD).toNat
  let st := wtaFoldRight w j minD costAt n
  let min_cost := st.1
  let best_disparity := st.2
  if best_disparity = minD ∨ best_disparity = maxD - 1 then (best_disparity : ℚ)
  else
    let cost_1 := rightCostLocal w j minD costAt (best_disparity - 1 - minD)
    let cost_2 := rightCostLocal w j minD costAt (best_disparity + 1 - minD)
    let denom := cost_1 + cost_2 - 2 * min_cost
    if denom ≠ 0 then (best_disparity : ℚ) + (cost_1 - cost_2) / (denom * 2)
    else (best_disparity : ℚ)

/-- `ADCensusStereo::ComputeDisparityRight` (`ADCensusStereo.cpp:247-312`). -/
def computeDisparityRight (w : ℤ) (minD maxD : ℤ) (cost : Vol) : DispMap :=
  fun y j => computeDispRightPixel w minD maxD j (fun col dIdx => cost y col dIdx)

/-! ### The claim-side WTA characterisation -/

/-- The least arg-min index of `f` over `[0, n)`: the first index whose
value is a global minimum of the range. -/
def argminSpec (f : ℤ → ℚ) (n : ℕ) : ℕ :=
  (List.range n).findIdx (fun i : ℕ => decide (∀ j : ℕ, j < n → f (i : ℤ) ≤ f (j : ℤ)))

section ArgminLemmas

/-- A minimiser over an initial segment of `ℕ` always exists. -/
lemma exists_ball_min (f : ℤ → ℚ) :
    ∀ n : ℕ, 0 < n → ∃ i : ℕ, i < n ∧ ∀ j : ℕ, j < n → f i ≤ f j := by
  intro n
  induction n with
  | zero => intro h; omega
  | succ n ih =>
    intro _
    rcases Nat.eq_zero_or_pos n with h0 | hpos
    · subst h0
      exact ⟨0, Nat.zero_lt_one, fun j hj => by interval_cases j; exact le_refl _⟩
    · obtain ⟨i, hi, hmin⟩ := ih hpos
      by_cases hle : f i ≤ f n
      · refine ⟨i, Nat.lt_succ_of_lt hi, fun j hj => ?_⟩
        rcases Nat.lt_succ_iff_lt_or_eq.mp hj with hj' | hj'
        · exact hmin j hj'
        · subst hj'; exact hle
      · push_neg at hle
        refine ⟨n, Nat.lt_succ_self n, fun j hj => ?_⟩
        rcases Nat.lt_succ_iff_lt_or_eq.mp hj with hj' | hj'
        · exact le_of_lt (lt_of_lt_of_le hle (hmin j hj'))
        · subst hj'; exact le_refl _

/-- `findIdx` on `List.range n` returns `k` when `k` is the first index
satisfying the predicate. -/
lemma findIdx_range_eq {p : ℕ → Bool} {n k : ℕ} (hk : k < n)
    (hpk : p k = true) (hprev : ∀ i, i < k → p i = false) :
    (List.range n).findIdx p = k := by
  have hex : ∃ x ∈ List.range n, p x = true :=
    ⟨k, List.mem_range.mpr hk, hpk⟩
  have hlt : (List.range n).findIdx p < (List.range n).length :=
    List.findIdx_lt_length_of_exists hex
  have hlen : (List.range n).length = n := List.length_range n
  have hj : p ((List.range n).findIdx p) = true := by
    have := @List.findIdx_getElem _ _ _ hlt
    rwa [List.getElem_range] at this
  rcases lt_trichotomy ((List.range n).findIdx p) k with h | h | h
  · exact absurd hj (by simp [hprev _ h])
  · exact h
  · have hfk := List.not_of_lt_findIdx h
    rw [List.getElem_range] at hfk
    exact absurd hfk (by simp [hpk])

lemma argminSpec_lt (f : ℤ → ℚ) (n : ℕ) (hn : 0 < n) : argminSpec f n < n := by
  obtain ⟨i, hi, hmin⟩ := exists_ball_min f n hn
  have h : (List.range n).findIdx
      (fun i : ℕ => decide (∀ j : ℕ, j < n → f (i : ℤ) ≤ f (j : ℤ))) <
      (List.range n).length := by
    apply List.findIdx_lt_length_of_exists
    exact ⟨i, List.mem_range.mpr hi, by simpa using hmin⟩
  simpa [argminSpec] using h

lemma argminSpec_ball (f : ℤ → ℚ) (n : ℕ) (hn : 0 < n) :
    ∀ j : ℕ, j < n → f (argminSpec f n) ≤ f j := by
  have hlt := argminSpec_lt f n hn
  have hlt' : (List.range n).findIdx
      (fun i : ℕ => decide (∀ j : ℕ, j < n → f (i : ℤ) ≤ f (j : ℤ))) <
      (List.range n).length := by
    simpa [argminSpec] using hlt
  have h := @List.findIdx_getElem _ _ _ hlt'
  rw [List.getElem_range] at h
  simpa [argminSpec] using h

lemma argminSpec_first (f : ℤ → ℚ) (n : ℕ) :
    ∀ i : ℕ, i < argminSpec f n → ¬ (∀ j : ℕ, j < n → f i ≤ f j) := by
  intro i hi
  have hi' : i < (List.range n).findIdx
      (fun i : ℕ => decide (∀ j : ℕ, j < n → f (i : ℤ) ≤ f (j : ℤ))) := by
    simpa [argminSpec] using hi
  have h := List.not_of_lt_findIdx hi'
  rw [List.getElem_range] at h
  simpa using h

/-- Eliminator for `argminSpec` at `n + 1` in terms of `argminSpec` at `n`. -/
lemma argminSpec_succ (f : ℤ → ℚ) (n : ℕ) (hn : 0 < n) :
    argminSpec f (n + 1) =
      if f (argminSpec f n) > f n then n else argminSpec f n := by
  set a := argminSpec f n with ha
  have halt := argminSpec_lt f n hn
  have haball := argminSpec_ball f n hn
  have hafirst := argminSpec_first f n
  by_cases hgt : f a > f n
  · rw [if_pos hgt]
    apply findIdx_range_eq (Nat.lt_succ_self n)
    · simp only [decide_eq_true_eq]
      intro j hj
      rcases Nat.lt_succ_iff_lt_or_eq.mp hj with hj' | hj'
      · exact le_of_lt (lt_of_lt_of_le hgt (haball j hj'))
      · subst hj'; exact le_refl _
    · intro i hi
      simp only [decide_eq_false_iff_not]
      intro hball
      exact absurd (lt_of_lt_of_le hgt (haball i hi)) (not_lt.mpr (hball n (Nat.lt_succ_self n)))
  · rw [if_neg hgt]
    push_neg at hgt
    apply findIdx_range_eq (Nat.lt_succ_of_lt halt)
    · simp only [decide_eq_true_eq]
      intro j hj
      rcases Nat.lt_succ_iff_lt_or_eq.mp hj with hj' | hj'
      · exact haball j hj'
      · subst hj'; exact hgt
    · intro i hi
      simp only [decide_eq_false_iff_not]
      intro hball
      exact hafirst i hi (fun j hj => hball j (Nat.lt_succ_of_lt hj))

lemma argminSpec_one (f : ℤ → ℚ) : argminSpec f 1 = 0 := by
  apply findIdx_range_eq Nat.zero_lt_one
  · simp only [decide_eq_true_eq]
    intro j hj
    interval_cases j
    exact le_refl _
  · intro i hi; omega

/-- The WTA loop of `ComputeDisparity` computes the value and (absolute)
disparity of the least arg-min index, provided every candidate cost is
below `Large_Float`. -/
lemma wtaFold_eq (f : ℤ → ℚ) (minD : ℤ) :
    ∀ n : ℕ, 0 < n → (∀ i : ℕ, i < n → f i < Large_Float) →
      wtaFold f minD n = (f (argminSpec f n), minD + argminSpec f n) := by
  intro n
  induction n with
  | zero => intro h; omega
  | succ n ih =>
    intro _ hc
    rcases Nat.eq_zero_or_pos n with h0 | hpos
    · subst h0
      have h0c := hc 0 Nat.zero_lt_one
      simp only [wtaFold, List.range_succ, List.range_zero, List.nil_append,
        List.foldl_cons, List.foldl_nil]
      rw [if_pos (by simpa using h0c)]
      rw [argminSpec_one f]
    · have hstep : wtaFold f minD (n + 1) =
          (fun st (dIdx : ℕ) =>
            let c := f (dIdx : ℤ)
            if st.1 > c then (c, minD + (dIdx : ℤ)) else st)
            (wtaFold f minD n) n := by
        simp [wtaFold, List.range_succ]
      rw [hstep, ih hpos (fun i hi => hc i (Nat.lt_succ_of_lt hi)),
        argminSpec_succ f n hpos]
      by_cases hgt : f (argminSpec f n) > f n
      · rw [if_pos hgt]
        simp only []
        rw [if_pos hgt]
      · rw [if_neg hgt]
        simp only []
        rw [if_neg hgt]

end ArgminLemmas

/-- C3: for every pixel of the left view, the picker records `Invalid_Float`
at a WTA boundary and otherwise the parabolic sub-pixel value
`(d* + min_disparity) + (c[d*−1] − c[d*+1]) / (2·denom)` with
`denom = c[d*−1] + c[d*+1] − 2·c_min` (the disparity `d* + min_disparity`
itself when `denom = 0`), where `d*` is the least arg-min index of the
pixel's cost slice. -/
theorem claim_C3_left_wta_subpixel (minD maxD : ℤ) (costRow : ℤ → ℚ)
    (hn : 0 < maxD - minD)
    (hc : ∀ i : ℕ, i < (maxD - minD).toNat → costRow i < Large_Float) :
    computeDispPixel minD maxD costRow =
      (let n := (maxD - minD).toNat
       let ds := argminSpec costRow n
       let c_min := costRow ds
       if (ds : ℤ) = 0 ∨ (ds : ℤ) = (maxD - minD) - 1 then Invalid_Float
       else
         let c1 := costRow ((ds : ℤ) - 1)
         let c2 := costRow ((ds : ℤ) + 1)
         let denom := c1 + c2 - 2 * c_min
         if denom ≠ 0 then ((ds : ℤ) + minD : ℚ) + (c1 - c2) / (2 * denom)
         else ((ds : ℤ) + minD : ℚ)) := by
  have hn' : 0 < (maxD - minD).toNat := by omega
  simp only [computeDispPixel]
  rw [wtaFold_eq costRow minD ((maxD - minD).toNat) hn' hc]
  set ds := argminSpec costRow ((maxD - minD).toNat) with hds
  have hdslt : ds < (maxD - minD).toNat := argminSpec_lt _ _ hn'
  simp only
  have hcond : (minD + (ds : ℤ) = minD ∨ minD + (ds : ℤ) = maxD - 1) ↔
      ((ds : ℤ) = 0 ∨ (ds : ℤ) = (maxD - minD) - 1) := by
    constructor <;> (intro h; rcases h with h | h) <;> [left; right; left; right] <;> omega
  by_cases hb : (ds : ℤ) = 0 ∨ (ds : ℤ) = (maxD - minD) - 1
  · rw [if_pos (hcond.mpr hb), if_pos hb]
  · rw [if_neg (fun h => hb (hcond.mp h)), if_neg hb]
    have h1 : minD + (ds : ℤ) - 1 - minD = (ds : ℤ) - 1 := by ring
    have h2 : minD + (ds : ℤ) + 1 - minD = (ds : ℤ) + 1 := by ring
    rw [h1, h2]
    have hmul : (costRow ((ds : ℤ) - 1) + costRow ((ds : ℤ) + 1) - 2 * costRow ds) * 2 =
        2 * (costRow ((ds : ℤ) - 1) + costRow ((ds : ℤ) + 1) - 2 * costRow ds) := by ring
    rw [hmul]
    have hcast : ((minD + (ds : ℤ) : ℤ) : ℚ) = ((ds : ℤ) + minD : ℚ) := by
      push_cast; ring
    rw [hcast]

/-- A concrete cost slice for the WTA witnesses: costs `[3, 1, 2, 3]`. -/
def wtaExampleCosts : ℤ → ℚ :=
  fun i => if i = 0 then 3 else if i = 1 then 1 else if i = 2 then 2 else 3

/-- Witness for C3 at a concrete input: `minD = 0`, `maxD = 4`, costs
`[3, 1, 2, 3]`; the arg-min index is `1` and the recorded disparity is
`1 + (3 − 2) / (2·(3 + 2 − 2)) = 7/6`. -/
theorem claim_C3_witness :
    computeDispPixel 0 4 wtaExampleCosts = (7 : ℚ) / 6 := by
  rw [claim_C3_left_wta_subpixel 0 4 wtaExampleCosts (by norm_num) (by decide)]
  have hds : argminSpec wtaExampleCosts ((4 - 0 : ℤ)).toNat = 1 := by decide
  simp only [hds]
  norm_num [wtaExampleCosts, Invalid_Float]

section RightWta

/-- The WTA loop of `ComputeDisparityRight` against the padded candidate
array: when some candidate column is in range it computes the least
arg-min of the padded costs, otherwise the state keeps its initial value
`(Large_Float, 0)`. -/
lemma wtaFoldRight_inv (w j minD : ℤ) (costAt : ℤ → ℤ → ℚ)
    (hc : ∀ col dIdx : ℤ, costAt col dIdx < Large_Float) :
    ∀ n : ℕ, wtaFoldRight w j minD costAt n =
      if ∃ i : ℕ, i < n ∧ rightCostLocal w j minD costAt i < Large_Float then
        (rightCostLocal w j minD costAt (argminSpec (rightCostLocal w j minD costAt) n),
         minD + argminSpec (rightCostLocal w j minD costAt) n)
      else (Large_Float, 0) := by
  set cl := rightCostLocal w j minD costAt with hcl
  have hclin : ∀ i : ℤ, (0 ≤ j + minD + i ∧ j + minD + i < w) →
      cl i = costAt (j + minD + i) i := by
    intro i hi
    simp [hcl, rightCostLocal, hi]
  have hclout : ∀ i : ℤ, ¬ (0 ≤ j + minD + i ∧ j + minD + i < w) →
      cl i = Large_Float := by
    intro i hi
    simp only [hcl, rightCostLocal]
    rw [if_neg hi]
  have hiff : ∀ i : ℤ, cl i < Large_Float ↔ (0 ≤ j + minD + i ∧ j + minD + i < w) := by
    intro i
    constructor
    · intro h
      by_contra hout
      rw [hclout i hout] at h
      exact lt_irrefl _ h
    · intro h
      rw [hclin i h]
      exact hc _ _
  intro n
  induction n with
  | zero =>
    simp [wtaFoldRight]
  | succ n ih =>
    have hstep : wtaFoldRight w j minD costAt (n + 1) =
        (fun st (dIdx : ℕ) =>
          let d := minD + (dIdx : ℤ)
          let col_left := j + d
          if 0 ≤ col_left ∧ col_left < w then
            let c := costAt col_left (dIdx : ℤ)
            if st.1 > c then (c, d) else st
          else st)
          (wtaFoldRight w j minD costAt n) n := by
      simp [wtaFoldRight, List.range_succ]
    rw [hstep, ih]
    have hassoc : j + minD + (n : ℤ) = j + (minD + (n : ℤ)) := by ring
    by_cases hin : 0 ≤ j + (minD + (n : ℤ)) ∧ j + (minD + (n : ℤ)) < w
    · have hin' : 0 ≤ j + minD + (n : ℤ) ∧ j + minD + (n : ℤ) < w := by
        rw [hassoc]; exact hin
      have hcln : cl n = costAt (j + (minD + (n : ℤ))) n := by
        rw [hclin n hin', hassoc]
      have hclnlt : cl n < Large_Float := (hiff n).mpr hin'
      have hexnew : ∃ i : ℕ, i < n + 1 ∧ cl i < Large_Float :=
        ⟨n, Nat.lt_succ_self n, hclnlt⟩
      rw [if_pos hexnew]
      by_cases hex : ∃ i : ℕ, i < n ∧ cl i < Large_Float
      · rw [if_pos hex]
        obtain ⟨i0, hi0, hi0lt⟩ := hex
        have hpos : 0 < n := by omega
        rw [argminSpec_succ cl n hpos]
        simp only
        rw [if_pos hin, ← hcln]
        by_cases hgt : cl (argminSpec cl n) > cl n
        · rw [if_pos hgt, if_pos hgt]
        · rw [if_neg hgt, if_neg hgt]
      · rw [if_neg hex]
        have hallLarge : ∀ i : ℕ, i < n → cl i = Large_Float := by
          intro i hi
          by_contra hne
          apply hex
          refine ⟨i, hi, ?_⟩
          rcases (lt_or_le (cl i) Large_Float) with h | h
          · exact h
          · exfalso
            apply hne
            by_cases hini : 0 ≤ j + minD + (i : ℤ) ∧ j + minD + (i : ℤ) < w
            · exact absurd ((hiff i).mpr hini) (not_lt.mpr h)
            · exact hclout i hini
        simp only
        rw [if_pos hin, ← hcln, if_pos (by simpa [Large_Float] using hclnlt)]
        rcases Nat.eq_zero_or_pos n with h0 | hpos
        · subst h0
          rw [argminSpec_one cl]
        · rw [argminSpec_succ cl n hpos]
          have : cl (argminSpec cl n) = Large_Float :=
            hallLarge _ (argminSpec_lt cl n hpos)
          rw [if_pos (by rw [this]; exact hclnlt)]
    · have hin' : ¬ (0 ≤ j + minD + (n : ℤ) ∧ j + minD + (n : ℤ) < w) := by
        rw [hassoc]; exact hin
      have hcln : cl n = Large_Float := hclout n hin'
      have hexeq : (∃ i : ℕ, i < n + 1 ∧ cl i < Large_Float) ↔
          (∃ i : ℕ, i < n ∧ cl i < Large_Float) := by
        constructor
        · rintro ⟨i, hi, hlt⟩
          rcases Nat.lt_succ_iff_lt_or_eq.mp hi with hi' | hi'
          · exact ⟨i, hi', hlt⟩
          · subst hi'
            rw [hcln] at hlt
            exact absurd hlt (lt_irrefl _)
        · rintro ⟨i, hi, hlt⟩
          exact ⟨i, Nat.lt_succ_of_lt hi, hlt⟩
      by_cases hex : ∃ i : ℕ, i < n ∧ cl i < Large_Float
      · rw [if_pos (hexeq.mpr hex), if_pos hex]
        obtain ⟨i0, hi0, hi0lt⟩ := hex
        have hpos : 0 < n := by omega
        rw [argminSpec_succ cl n hpos]
        have hle : cl (argminSpec cl n) ≤ cl i0 := argminSpec_ball cl n hpos i0 hi0
        have hngt : ¬ cl (argminSpec cl n) > cl n := by
          rw [hcln]
          exact not_lt.mpr (le_of_lt (lt_of_le_of_lt hle hi0lt))
        rw [if_neg hngt]
        simp only
        rw [if_neg hin]
      · rw [if_neg (fun h => hex (hexeq.mp h)), if_neg hex]
        simp only
        rw [if_neg hin]

end RightWta

/-- The right-view picker exactly as claim C4 states it: the candidate at
index `d ∈ [0, disp_range)` addresses column `j + d` (no `min_disparity`
offset), out-of-range candidates count as `Large_Float`, and at a WTA
boundary the raw index `d*` is recorded. -/
def rightPickClaimC4 (w minD maxD j : ℤ) (costAt : ℤ → ℤ → ℚ) : ℚ :=
  let n := (maxD - minD).toNat
  let cl : ℤ → ℚ := fun dIdx =>
    if 0 ≤ j + dIdx ∧ j + dIdx < w then costAt (j + dIdx) dIdx else Large_Float
  let ds := argminSpec cl n
  if (ds : ℤ) = 0 ∨ (ds : ℤ) = (maxD - minD) - 1 then ((ds : ℤ) : ℚ)
  else
    let c1 := cl ((ds : ℤ) - 1)
    let c2 := cl ((ds : ℤ) + 1)
    let c_min := cl (ds : ℤ)
    let denom := c1 + c2 - 2 * c_min
    if denom ≠ 0 then ((ds : ℤ) + minD : ℚ) + (c1 - c2) / (2 * denom)
    else ((ds : ℤ) + minD : ℚ)

/-- C4 (amended): the right-view picker minimizes the padded candidate
costs whose candidate at index `d` addresses left column
`j + d + min_disparity`, out-of-range columns padded with `Large_Float`;
at a WTA boundary it records the integer disparity `d* + min_disparity`
(no sub-pixel refinement, no invalidation), and otherwise the parabolic
sub-pixel value over the padded costs. -/
theorem claim_C4_right_wta_amended (w minD maxD j : ℤ) (costAt : ℤ → ℤ → ℚ)
    (hn : 0 < maxD - minD)
    (hc : ∀ col dIdx : ℤ, costAt col dIdx < Large_Float)
    (hex : ∃ i : ℕ, i < (maxD - minD).toNat ∧
      0 ≤ j + minD + (i : ℤ) ∧ j + minD + (i : ℤ) < w) :
    computeDispRightPixel w minD maxD j costAt =
      (let n := (maxD - minD).toNat
       let cl := rightCostLocal w j minD costAt
       let ds := argminSpec cl n
       if (ds : ℤ) = 0 ∨ (ds : ℤ) = (maxD - minD) - 1 then ((ds : ℤ) + minD : ℚ)
       else
         let c1 := cl ((ds : ℤ) - 1)
         let c2 := cl ((ds : ℤ) + 1)
         let c_min := cl (ds : ℤ)
         let denom := c1 + c2 - 2 * c_min
         if denom ≠ 0 then ((ds : ℤ) + minD : ℚ) + (c1 - c2) / (2 * denom)
         else ((ds : ℤ) + minD : ℚ)) := by
  have hn' : 0 < (maxD - minD).toNat := by omega
  simp only [computeDispRightPixel]
  rw [wtaFoldRight_inv w j minD costAt hc ((maxD - minD).toNat)]
  have hexcl : ∃ i : ℕ, i < (maxD - minD).toNat ∧
      rightCostLocal w j minD costAt i < Large_Float := by
    obtain ⟨i, hi, hini⟩ := hex
    refine ⟨i, hi, ?_⟩
    simp only [rightCostLocal]
    rw [if_pos hini]
    exact hc _ _
  rw [if_pos hexcl]
  set cl := rightCostLocal w j minD costAt with hcl
  set ds := argminSpec cl ((maxD - minD).toNat) with hds
  simp only
  have hcond : (minD + (ds : ℤ) = minD ∨ minD + (ds : ℤ) = maxD - 1) ↔
      ((ds : ℤ) = 0 ∨ (ds : ℤ) = (maxD - minD) - 1) := by
    constructor <;> (intro h; rcases h with h | h) <;> [left; right; left; right] <;> omega
  by_cases hb : (ds : ℤ) = 0 ∨ (ds : ℤ) = (maxD - minD) - 1
  · rw [if_pos (hcond.mpr hb), if_pos hb]
    push_cast
    ring
  · rw [if_neg (fun h => hb (hcond.mp h)), if_neg hb]
    have h1 : minD + (ds : ℤ) - 1 - minD = (ds : ℤ) - 1 := by ring
    have h2 : minD + (ds : ℤ) + 1 - minD = (ds : ℤ) + 1 := by ring
    rw [h1, h2]
    have hmul : (cl ((ds : ℤ) - 1) + cl ((ds : ℤ) + 1) - 2 * cl ds) * 2 =
        2 * (cl ((ds : ℤ) - 1) + cl ((ds : ℤ) + 1) - 2 * cl ds) := by ring
    rw [hmul]
    have hcast : ((minD + (ds : ℤ) : ℤ) : ℚ) = ((ds : ℤ) + minD : ℚ) := by
      push_cast; ring
    rw [hcast]

/-- Witness for the amended C4 at a concrete input: `w = 10`, `minD = 0`,
`maxD = 4`, `j = 2`, candidate costs `[3, 1, 2, 3]`; every candidate
column is in range, the arg-min index is `1`, and the recorded disparity
is `1 + (3 − 2) / (2·(3 + 2 − 2)) = 7/6`. -/
theorem claim_C4_witness :
    computeDispRightPixel 10 0 4 2 (fun _ dIdx => wtaExampleCosts dIdx) =
      (7 : ℚ) / 6 := by
  rw [claim_C4_right_wta_amended 10 0 4 2 _ (by norm_num)
    (fun col dIdx => by
      simp only [wtaExampleCosts, Large_Float]
      split_ifs <;> norm_num)
    ⟨0, by norm_num⟩]
  have hcleq : argminSpec (rightCostLocal 10 2 0 (fun _ dIdx => wtaExampleCosts dIdx))
      ((4 - 0 : ℤ)).toNat = 1 := by decide
  simp only [hcleq]
  norm_num [rightCostLocal, wtaExampleCosts, Invalid_Float]

/-- Counterexample to C4 as stated: `w = 2`, `min_disparity = 1`,
`max_disparity = 3`, pixel `j = 0`, all stored costs `5`.  The code
addresses columns `j + d + min_disparity ∈ {1, 2}` (so index `1` is out
of range) and records the absolute disparity `1`; the claim's candidate
columns are `j + d ∈ {0, 1}` (both in range) and it records the raw
index `0`. -/
theorem claim_C4_counterexample :
    computeDispRightPixel 2 1 3 0 (fun _ _ => (5 : ℚ)) = 1 ∧
    rightPickClaimC4 2 1 3 0 (fun _ _ => (5 : ℚ)) = 0 ∧
    computeDispRightPixel 2 1 3 0 (fun _ _ => (5 : ℚ)) ≠
      rightPickClaimC4 2 1 3 0 (fun _ _ => (5 : ℚ)) := by
  refine ⟨?_, ?_, ?_⟩ <;> decide

/-! ### Cross arm construction (`cross_aggregator.cpp:136-270`, claim C8) -/

/-- A per-pixel cross arm record (`CrossArm`); the four lengths are
naturals (stored as bytes in the source, never exceeding
`MAX_ARM_LENGTH`). -/
structure CrossArm where
  left : ℕ
  right : ℕ
  top : ℕ
  bottom : ℕ
deriving DecidableEq

/-- The `for`-loop with `break` shared by the four arm searches: state is
the number of accepted steps and a stopped flag; a rejected step sets the
flag and every later iteration is a no-op. -/
def armLoopSt (accept : ℕ → Bool) (bound : ℕ) : ℕ × Bool :=
  (List.range bound).foldl
    (fun st n =>
      if st.2 then st
      else if accept n then (st.1 + 1, false) else (st.1, true))
    (0, false)

/-- The arm length computed by the loop. -/
def armLoop (accept : ℕ → Bool) (bound : ℕ) : ℕ := (armLoopSt accept bound).1

lemma armLoopSt_spec (accept : ℕ → Bool) :
    ∀ bound : ℕ,
      (armLoopSt accept bound).1 ≤ bound ∧
      (∀ k, k < (armLoopSt accept bound).1 → accept k = true) ∧
      ((armLoopSt accept bound).2 = false ↔ (armLoopSt accept bound).1 = bound) ∧
      ((armLoopSt accept bound).1 < bound → accept ((armLoopSt accept bound).1) = false) := by
  intro bound
  induction bound with
  | zero => simp [armLoopSt]
  | succ b ih =>
    obtain ⟨hle, hacc, hiff, hstop⟩ := ih
    have hstep : armLoopSt accept (b + 1) =
        (if (armLoopSt accept b).2 then armLoopSt accept b
         else if accept b then ((armLoopSt accept b).1 + 1, false)
         else ((armLoopSt accept b).1, true)) := by
      simp [armLoopSt, List.range_succ]
    cases hb : (armLoopSt accept b).2 with
    | false =>
      have h1 : (armLoopSt accept b).1 = b := hiff.mp hb
      cases ha : accept b with
      | false =>
        rw [hstep, hb, ha]
        simp only [Bool.false_eq_true, if_false]
        refine ⟨by omega, fun k hk => hacc k (by omega), ?_, ?_⟩
        · constructor
          · intro h; exact absurd h (by decide)
          · intro h; omega
        · intro _
          simpa [h1] using ha
      | true =>
        rw [hstep, hb, ha]
        simp only [Bool.false_eq_true, if_false, if_true]
        refine ⟨by omega, fun k hk => ?_, by simp [h1], by omega⟩
        simp only at hk
        rcases Nat.lt_succ_iff_lt_or_eq.mp (by omega : k < b + 1) with hk' | hk'
        · exact hacc k (by omega)
        · subst hk'; exact ha
    | true =>
      have h1 : (armLoopSt accept b).1 < b := by
        rcases Nat.lt_or_ge (armLoopSt accept b).1 b with h | h
        · exact h
        · exfalso
          have heq1 : (armLoopSt accept b).1 = b := by omega
          have := hiff.mpr heq1
          rw [hb] at this
          exact absurd this (by decide)
      rw [hstep, hb]
      simp only [if_true]
      refine ⟨by omega, hacc, ?_, fun _ => hstop h1⟩
      rw [hb]
      constructor
      · intro h; exact absurd h (by decide)
      · intro h; omega

lemma armLoop_le (accept : ℕ → Bool) (bound : ℕ) : armLoop accept bound ≤ bound :=
  (armLoopSt_spec accept bound).1

lemma armLoop_accepts (accept : ℕ → Bool) (bound : ℕ) :
    ∀ k, k < armLoop accept bound → accept k = true :=
  (armLoopSt_spec accept bound).2.1

lemma armLoop_stop (accept : ℕ → Bool) (bound : ℕ)
    (h : armLoop accept bound < bound) : accept (armLoop accept bound) = false :=
  (armLoopSt_spec accept bound).2.2.2 h

/-- The step-acceptance test shared by the four arm directions
(`cross_aggregator.cpp:152-199` and `220-267`): candidate pixel at signed
offset `n+1` along `(dx, dy)`, boundary test `boundOk`, colour-distance
tests against the centre and the previous pixel, and the tightened
threshold beyond `cross_L2`. -/
def armAccept (img : Img) (t1 t2 L2 : ℤ) (x y dx dy : ℤ)
    (boundOk : ℤ → ℤ → Bool) (n : ℕ) : Bool :=
  let xn := x + dx * ((n : ℤ) + 1)
  let yn := y + dy * ((n : ℤ) + 1)
  boundOk xn yn &&
  decide (ColorDist (img yn xn) (img y x) < t1) &&
  (decide (n = 0) ||
    decide (ColorDist (img yn xn) (img (y + dy * (n : ℤ)) (x + dx * (n : ℤ))) < t1)) &&
  (!decide ((n : ℤ) + 1 > L2) || decide (ColorDist (img yn xn) (img y x) < t2))

/-- `CrossAggregator::FindHorizontalArm` (`cross_aggregator.cpp:136-202`):
the left arm breaks when `xn < 0`, the right arm when `xn == width`;
both run at most `min(cross_L1, MAX_ARM_LENGTH)` steps.  Only the left
image is read. -/
def findHorizontalArm (img : Img) (w : ℤ) (L1 L2 t1 t2 : ℤ) (x y : ℤ) : ℕ × ℕ :=
  let bound := (min L1 MAX_ARM_LENGTH).toNat
  (armLoop (armAccept img t1 t2 L2 x y (-1) 0 (fun xn _ => !decide (xn < 0))) bound,
   armLoop (armAccept img t1 t2 L2 x y 1 0 (fun xn _ => !decide (xn = w))) bound)

/-- `CrossAggregator::FindVerticalArm` (`cross_aggregator.cpp:204-270`):
the top arm breaks when `yn < 0`, the bottom arm when `yn == height`. -/
def findVerticalArm (img : Img) (h : ℤ) (L1 L2 t1 t2 : ℤ) (x y : ℤ) : ℕ × ℕ :=
  let bound := (min L1 MAX_ARM_LENGTH).toNat
  (armLoop (armAccept img t1 t2 L2 x y 0 (-1) (fun _ yn => !decide (yn < 0))) bound,
   armLoop (armAccept img t1 t2 L2 x y 0 1 (fun _ yn => !decide (yn = h))) bound)

/-- `CrossAggregator::BuildArms` (`cross_aggregator.cpp:77-87`). -/
def buildArms (img : Img) (w h : ℤ) (L1 L2 t1 t2 : ℤ) : ℤ → ℤ → CrossArm :=
  fun y x =>
    { left := (findHorizontalArm img w L1 L2 t1 t2 x y).1
      right := (findHorizontalArm img w L1 L2 t1 t2 x y).2
      top := (findVerticalArm img h L1 L2 t1 t2 x y).1
      bottom := (findVerticalArm img h L1 L2 t1 t2 x y).2 }

/-- The claim-side acceptance condition for the step at index `k` along
direction `(dx, dy)`: index below `min(cross_L1, MAX_ARM_LENGTH)`, pixel
inside the image, colour distance to the centre below `cross_t1`, (for
steps after the first) colour distance to the previous step's pixel below
`cross_t1`, and (once the step count `+ 1` exceeds `cross_L2`) colour
distance to the centre below `cross_t2`. -/
def armStepSpec (img : Img) (w h L1 L2 t1 t2 : ℤ) (x y dx dy : ℤ) (k : ℕ) : Prop :=
  (k : ℤ) < min L1 MAX_ARM_LENGTH ∧
  (0 ≤ x + dx * ((k : ℤ) + 1) ∧ x + dx * ((k : ℤ) + 1) < w ∧
   0 ≤ y + dy * ((k : ℤ) + 1) ∧ y + dy * ((k : ℤ) + 1) < h) ∧
  ColorDist (img (y + dy * ((k : ℤ) + 1)) (x + dx * ((k : ℤ) + 1))) (img y x) < t1 ∧
  (k = 0 ∨ ColorDist (img (y + dy * ((k : ℤ) + 1)) (x + dx * ((k : ℤ) + 1)))
    (img (y + dy * (k : ℤ)) (x + dx * (k : ℤ))) < t1) ∧
  ((k : ℤ) + 1 ≤ L2 ∨
    ColorDist (img (y + dy * ((k : ℤ) + 1)) (x + dx * ((k : ℤ) + 1))) (img y x) < t2)

/-- `len` is the largest initial run of steps all satisfying `P`. -/
def IsMaxArm (P : ℕ → Prop) (len : ℕ) : Prop :=
  (∀ k, k < len → P k) ∧ ∀ m : ℕ, (∀ k, k < m → P k) → m ≤ len

/-- Generic bridge between the loop with breaks and the largest-run
characterisation: the acceptance test may be replaced by any predicate
that agrees with it on indices below the bound, conditionally on all
earlier steps having been accepted. -/
lemma armLoop_isMaxArm (accept : ℕ → Bool) (minL : ℤ) (rest : ℕ → Prop)
    (heq : ∀ k : ℕ, (∀ j, j < k → accept j = true) → (k : ℤ) < minL →
      (accept k = true ↔ rest k)) :
    IsMaxArm (fun k => (k : ℤ) < minL ∧ rest k) (armLoop accept minL.toNat) := by
  set ℓ := armLoop accept minL.toNat with hℓ
  have hle := armLoop_le accept minL.toNat
  have hacc := armLoop_accepts accept minL.toNat
  constructor
  · intro k hk
    have hkb : (k : ℤ) < minL := by
      have : k < minL.toNat := by omega
      omega
    exact ⟨hkb, (heq k (fun j hj => hacc j (by omega)) hkb).mp (hacc k hk)⟩
  · intro m hm
    by_contra hgt
    push_neg at hgt
    obtain ⟨hℓb, hrest⟩ := hm ℓ hgt
    have hℓlt : ℓ < minL.toNat := by omega
    have haccℓ : accept ℓ = true :=
      (heq ℓ (fun j hj => hacc j hj) hℓb).mpr hrest
    rw [armLoop_stop accept minL.toNat hℓlt] at haccℓ
    exact Bool.false_ne_true haccℓ

section ArmSpecs

lemma arm_left_spec (img : Img) (w h L1 L2 t1 t2 x y : ℤ)
    (hx : 0 ≤ x ∧ x < w) (hy : 0 ≤ y ∧ y < h) :
    IsMaxArm (armStepSpec img w h L1 L2 t1 t2 x y (-1) 0)
      (findHorizontalArm img w L1 L2 t1 t2 x y).1 := by
  have h := armLoop_isMaxArm
    (armAccept img t1 t2 L2 x y (-1) 0 (fun xn _ => !decide (xn < 0)))
    (min L1 MAX_ARM_LENGTH)
    (fun k => (0 ≤ x + (-1) * ((k : ℤ) + 1) ∧ x + (-1) * ((k : ℤ) + 1) < w ∧
        0 ≤ y + 0 * ((k : ℤ) + 1) ∧ y + 0 * ((k : ℤ) + 1) < h) ∧
      ColorDist (img (y + 0 * ((k : ℤ) + 1)) (x + (-1) * ((k : ℤ) + 1))) (img y x) < t1 ∧
      (k = 0 ∨ ColorDist (img (y + 0 * ((k : ℤ) + 1)) (x + (-1) * ((k : ℤ) + 1)))
        (img (y + 0 * (k : ℤ)) (x + (-1) * (k : ℤ))) < t1) ∧
      ((k : ℤ) + 1 ≤ L2 ∨
        ColorDist (img (y + 0 * ((k : ℤ) + 1)) (x + (-1) * ((k : ℤ) + 1))) (img y x) < t2))
    ?_
  · exact h
  · intro k _ _
    simp only [armAccept, Bool.and_eq_true, Bool.or_eq_true, Bool.not_eq_true',
      decide_eq_true_eq, decide_eq_false_iff_not]
    constructor
    · rintro ⟨⟨⟨hb, h1⟩, h2⟩, h3⟩
      push_neg at hb
      refine ⟨⟨hb, by omega, by omega, by omega⟩, h1, ?_, ?_⟩
      · rcases h2 with h2 | h2
        · exact Or.inl h2
        · exact Or.inr h2
      · rcases h3 with h3 | h3
        · exact Or.inl (by omega)
        · exact Or.inr h3
    · rintro ⟨⟨hb, _, _, _⟩, h1, h2, h3⟩
      refine ⟨⟨⟨?_, h1⟩, ?_⟩, ?_⟩
      · omega
      · rcases h2 with h2 | h2
        · exact Or.inl h2
        · exact Or.inr h2
      · rcases h3 with h3 | h3
        · exact Or.inl (by omega)
        · exact Or.inr h3

lemma arm_right_spec (img : Img) (w h L1 L2 t1 t2 x y : ℤ)
    (hx : 0 ≤ x ∧ x < w) (hy : 0 ≤ y ∧ y < h) :
    IsMaxArm (armStepSpec img w h L1 L2 t1 t2 x y 1 0)
      (findHorizontalArm img w L1 L2 t1 t2 x y).2 := by
  set accept := armAccept img t1 t2 L2 x y 1 0 (fun xn _ => !decide (xn = w)) with haccdef
  have hbnd : ∀ k : ℕ, (∀ j, j < k → accept j = true) → x + (k : ℤ) + 1 ≤ w := by
    intro k
    induction k with
    | zero => intro _; omega
    | succ m ihm =>
      intro hprev
      have hm := ihm (fun j hj => hprev j (by omega))
      have haccm := hprev m (by omega)
      have hne : ¬ (x + 1 * ((m : ℤ) + 1) = w) := by
        simp only [haccdef, armAccept, Bool.and_eq_true, Bool.or_eq_true,
          Bool.not_eq_true', decide_eq_true_eq, decide_eq_false_iff_not] at haccm
        exact haccm.1.1.1
      push_cast
      omega
  have h := armLoop_isMaxArm accept (min L1 MAX_ARM_LENGTH)
    (fun k => (0 ≤ x + 1 * ((k : ℤ) + 1) ∧ x + 1 * ((k : ℤ) + 1) < w ∧
        0 ≤ y + 0 * ((k : ℤ) + 1) ∧ y + 0 * ((k : ℤ) + 1) < h) ∧
      ColorDist (img (y + 0 * ((k : ℤ) + 1)) (x + 1 * ((k : ℤ) + 1))) (img y x) < t1 ∧
      (k = 0 ∨ ColorDist (img (y + 0 * ((k : ℤ) + 1)) (x + 1 * ((k : ℤ) + 1)))
        (img (y + 0 * (k : ℤ)) (x + 1 * (k : ℤ))) < t1) ∧
      ((k : ℤ) + 1 ≤ L2 ∨
        ColorDist (img (y + 0 * ((k : ℤ) + 1)) (x + 1 * ((k : ℤ) + 1))) (img y x) < t2))
    ?_
  · exact h
  · intro k hprev _
    have hkb := hbnd k hprev
    simp only [haccdef, armAccept, Bool.and_eq_true, Bool.or_eq_true, Bool.not_eq_true',
      decide_eq_true_eq, decide_eq_false_iff_not]
    constructor
    · rintro ⟨⟨⟨hb, h1⟩, h2⟩, h3⟩
      refine ⟨⟨by omega, by omega, by omega, by omega⟩, h1, ?_, ?_⟩
      · rcases h2 with h2 | h2
        · exact Or.inl h2
        · exact Or.inr h2
      · rcases h3 with h3 | h3
        · exact Or.inl (by omega)
        · exact Or.inr h3
    · rintro ⟨⟨_, hb, _, _⟩, h1, h2, h3⟩
      refine ⟨⟨⟨?_, h1⟩, ?_⟩, ?_⟩
      · omega
      · rcases h2 with h2 | h2
        · exact Or.inl h2
        · exact Or.inr h2
      · rcases h3 with h3 | h3
        · exact Or.inl (by omega)
        · exact Or.inr h3

lemma arm_top_spec (img : Img) (w h L1 L2 t1 t2 x y : ℤ)
    (hx : 0 ≤ x ∧ x < w) (hy : 0 ≤ y ∧ y < h) :
    IsMaxArm (armStepSpec img w h L1 L2 t1 t2 x y 0 (-1))
      (findVerticalArm img h L1 L2 t1 t2 x y).1 := by
  have hthm := armLoop_isMaxArm
    (armAccept img t1 t2 L2 x y 0 (-1) (fun _ yn => !decide (yn < 0)))
    (min L1 MAX_ARM_LENGTH)
    (fun k => (0 ≤ x + 0 * ((k : ℤ) + 1) ∧ x + 0 * ((k : ℤ) + 1) < w ∧
        0 ≤ y + (-1) * ((k : ℤ) + 1) ∧ y + (-1) * ((k : ℤ) + 1) < h) ∧
      ColorDist (img (y + (-1) * ((k : ℤ) + 1)) (x + 0 * ((k : ℤ) + 1))) (img y x) < t1 ∧
      (k = 0 ∨ ColorDist (img (y + (-1) * ((k : ℤ) + 1)) (x + 0 * ((k : ℤ) + 1)))
        (img (y + (-1) * (k : ℤ)) (x + 0 * (k : ℤ))) < t1) ∧
      ((k : ℤ) + 1 ≤ L2 ∨
        ColorDist (img (y + (-1) * ((k : ℤ) + 1)) (x + 0 * ((k : ℤ) + 1))) (img y x) < t2))
    ?_
  · exact hthm
  · intro k _ _
    simp only [armAccept, Bool.and_eq_true, Bool.or_eq_true, Bool.not_eq_true',
      decide_eq_true_eq, decide_eq_false_iff_not]
    constructor
    · rintro ⟨⟨⟨hb, h1⟩, h2⟩, h3⟩
      push_neg at hb
      refine ⟨⟨by omega, by omega, hb, by omega⟩, h1, ?_, ?_⟩
      · rcases h2 with h2 | h2
        · exact Or.inl h2
        · exact Or.inr h2
      · rcases h3 with h3 | h3
        · exact Or.inl (by omega)
        · exact Or.inr h3
    · rintro ⟨⟨_, _, hb, _⟩, h1, h2, h3⟩
      refine ⟨⟨⟨?_, h1⟩, ?_⟩, ?_⟩
      · omega
      · rcases h2 with h2 | h2
        · exact Or.inl h2
        · exact Or.inr h2
      · rcases h3 with h3 | h3
        · exact Or.inl (by omega)
        · exact Or.inr h3

lemma arm_bottom_spec (img : Img) (w h L1 L2 t1 t2 x y : ℤ)
    (hx : 0 ≤ x ∧ x < w) (hy : 0 ≤ y ∧ y < h) :
    IsMaxArm (armStepSpec img w h L1 L2 t1 t2 x y 0 1)
      (findVerticalArm img h L1 L2 t1 t2 x y).2 := by
  set accept := armAccept img t1 t2 L2 x y 0 1 (fun _ yn => !decide (yn = h)) with haccdef
  have hbnd : ∀ k : ℕ, (∀ j, j < k → accept j = true) → y + (k : ℤ) + 1 ≤ h := by
    intro k
    induction k with
    | zero => intro _; omega
    | succ m ihm =>
      intro hprev
      have hm := ihm (fun j hj => hprev j (by omega))
      have haccm := hprev m (by omega)
      have hne : ¬ (y + 1 * ((m : ℤ) + 1) = h) := by
        simp only [haccdef, armAccept, Bool.and_eq_true, Bool.or_eq_true,
          Bool.not_eq_true', decide_eq_true_eq, decide_eq_false_iff_not] at haccm
        have := haccm.1.1.1
        omega
      push_cast
      omega
  have hthm := armLoop_isMaxArm accept (min L1 MAX_ARM_LENGTH)
    (fun k => (0 ≤ x + 0 * ((k : ℤ) + 1) ∧ x + 0 * ((k : ℤ) + 1) < w ∧
        0 ≤ y + 1 * ((k : ℤ) + 1) ∧ y + 1 * ((k : ℤ) + 1) < h) ∧
      ColorDist (img (y + 1 * ((k : ℤ) + 1)) (x + 0 * ((k : ℤ) + 1))) (img y x) < t1 ∧
      (k = 0 ∨ ColorDist (img (y + 1 * ((k : ℤ) + 1)) (x + 0 * ((k : ℤ) + 1)))
        (img (y + 1 * (k : ℤ)) (x + 0 * (k : ℤ))) < t1) ∧
      ((k : ℤ) + 1 ≤ L2 ∨
        ColorDist (img (y + 1 * ((k : ℤ) + 1)) (x + 0 * ((k : ℤ) + 1))) (img y x) < t2))
    ?_
  · exact hthm
  · intro k hprev _
    have hkb := hbnd k hprev
    simp only [haccdef, armAccept, Bool.and_eq_true, Bool.or_eq_true, Bool.not_eq_true',
      decide_eq_true_eq, decide_eq_false_iff_not]
    constructor
    · rintro ⟨⟨⟨hb, h1⟩, h2⟩, h3⟩
      refine ⟨⟨by omega, by omega, by omega, by omega⟩, h1, ?_, ?_⟩
      · rcases h2 with h2 | h2
        · exact Or.inl h2
        · exact Or.inr h2
      · rcases h3 with h3 | h3
        · exact Or.inl (by omega)
        · exact Or.inr h3
    · rintro ⟨⟨_, _, _, hb⟩, h1, h2, h3⟩
      refine ⟨⟨⟨?_, h1⟩, ?_⟩, ?_⟩
      · omega
      · rcases h2 with h2 | h2
        · exact Or.inl h2
        · exact Or.inr h2
      · rcases h3 with h3 | h3
        · exact Or.inl (by omega)
        · exact Or.inr h3

end ArmSpecs

/-- C8: for every pixel inside the image, each of the four arm lengths is
the largest initial run of steps whose every step has index below
`min(cross_L1, MAX_ARM_LENGTH)`, stays inside the image, and satisfies
the colour-distance conditions; consequently `x − left ≥ 0`,
`x + right < width`, `y − top ≥ 0` and `y + bottom < height`, so no
arm-based access leaves the image.  The arms are computed from the left
image only (no other image is an argument of `buildArms`). -/
theorem claim_C8_cross_arms (img : Img) (w h L1 L2 t1 t2 x y : ℤ)
    (hx : 0 ≤ x ∧ x < w) (hy : 0 ≤ y ∧ y < h) :
    IsMaxArm (armStepSpec img w h L1 L2 t1 t2 x y (-1) 0)
      (buildArms img w h L1 L2 t1 t2 y x).left ∧
    IsMaxArm (armStepSpec img w h L1 L2 t1 t2 x y 1 0)
      (buildArms img w h L1 L2 t1 t2 y x).right ∧
    IsMaxArm (armStepSpec img w h L1 L2 t1 t2 x y 0 (-1))
      (buildArms img w h L1 L2 t1 t2 y x).top ∧
    IsMaxArm (armStepSpec img w h L1 L2 t1 t2 x y 0 1)
      (buildArms img w h L1 L2 t1 t2 y x).bottom ∧
    0 ≤ x - (buildArms img w h L1 L2 t1 t2 y x).left ∧
    x + (buildArms img w h L1 L2 t1 t2 y x).right < w ∧
    0 ≤ y - (buildArms img w h L1 L2 t1 t2 y x).top ∧
    y + (buildArms img w h L1 L2 t1 t2 y x).bottom < h := by
  have hL := arm_left_spec img w h L1 L2 t1 t2 x y hx hy
  have hR := arm_right_spec img w h L1 L2 t1 t2 x y hx hy
  have hT := arm_top_spec img w h L1 L2 t1 t2 x y hx hy
  have hB := arm_bottom_spec img w h L1 L2 t1 t2 x y hx hy
  refine ⟨hL, hR, hT, hB, ?_, ?_, ?_, ?_⟩
  · simp only [buildArms]
    rcases Nat.eq_zero_or_pos (findHorizontalArm img w L1 L2 t1 t2 x y).1 with h0 | hpos
    · rw [h0]; push_cast; omega
    · have hstep := (hL.1 _ (Nat.sub_lt hpos Nat.zero_lt_one)).2.1
      omega
  · simp only [buildArms]
    rcases Nat.eq_zero_or_pos (findHorizontalArm img w L1 L2 t1 t2 x y).2 with h0 | hpos
    · rw [h0]; push_cast; omega
    · have hstep := (hR.1 _ (Nat.sub_lt hpos Nat.zero_lt_one)).2.1
      omega
  · simp only [buildArms]
    rcases Nat.eq_zero_or_pos (findVerticalArm img h L1 L2 t1 t2 x y).1 with h0 | hpos
    · rw [h0]; push_cast; omega
    · have hstep := (hT.1 _ (Nat.sub_lt hpos Nat.zero_lt_one)).2.1
      omega
  · simp only [buildArms]
    rcases Nat.eq_zero_or_pos (findVerticalArm img h L1 L2 t1 t2 x y).2 with h0 | hpos
    · rw [h0]; push_cast; omega
    · have hstep := (hB.1 _ (Nat.sub_lt hpos Nat.zero_lt_one)).2.1
      omega

/-- A flat grey test image. -/
def flatGrey : Img := fun _ _ => ⟨128, 128, 128⟩

/-- Witness for C8 on a flat `3 × 3` image at the centre pixel with the
default thresholds: all four arms have length `1` (they stop at the image
border) and the access-bound consequences hold. -/
theorem claim_C8_witness :
    buildArms flatGrey 3 3 34 17 20 6 1 1 = ⟨1, 1, 1, 1⟩ ∧
    (IsMaxArm (armStepSpec flatGrey 3 3 34 17 20 6 1 1 (-1) 0)
      (buildArms flatGrey 3 3 34 17 20 6 1 1).left ∧
     IsMaxArm (armStepSpec flatGrey 3 3 34 17 20 6 1 1 1 0)
      (buildArms flatGrey 3 3 34 17 20 6 1 1).right ∧
     IsMaxArm (armStepSpec flatGrey 3 3 34 17 20 6 1 1 0 (-1))
      (buildArms flatGrey 3 3 34 17 20 6 1 1).top ∧
     IsMaxArm (armStepSpec flatGrey 3 3 34 17 20 6 1 1 0 1)
      (buildArms flatGrey 3 3 34 17 20 6 1 1).bottom ∧
     0 ≤ (1 : ℤ) - (buildArms flatGrey 3 3 34 17 20 6 1 1).left ∧
     (1 : ℤ) + (buildArms flatGrey 3 3 34 17 20 6 1 1).right < 3 ∧
     0 ≤ (1 : ℤ) - (buildArms flatGrey 3 3 34 17 20 6 1 1).top ∧
     (1 : ℤ) + (buildArms flatGrey 3 3 34 17 20 6 1 1).bottom < 3) :=
  ⟨by decide,
   claim_C8_cross_arms flatGrey 3 3 34 17 20 6 1 1
     ⟨by norm_num, by norm_num⟩ ⟨by norm_num, by norm_num⟩⟩

/-! ### Cross-based aggregation (`cross_aggregator.cpp:272-395`, claim C9) -/

/-- Sum of `f t` for `t` ranging over the inclusive arm span `[-a, b]`
(the `for (t = -arm.xxx; t <= arm.yyy; t++)` loops of the source). -/
def armSum {α : Type} [AddCommMonoid α] (a b : ℕ) (f : ℤ → α) : α :=
  ((List.range (a + b + 1)).map (fun i : ℕ => f ((i : ℤ) - (a : ℤ)))).sum

/-- Pass 1 of `CrossAggregator::ComputeSupPixelCount`
(`cross_aggregator.cpp:287-299` and `301-313`, `k = 0`): the length of the
first-direction arm, counted one step at a time. -/
def supCountPass1 (arms : ℤ → ℤ → CrossArm) (hf : Bool) : ℤ → ℤ → ℤ :=
  fun y x =>
    let arm := arms y x
    if hf then armSum arm.left arm.right (fun _ => (1 : ℤ))
    else armSum arm.top arm.bottom (fun _ => (1 : ℤ))

/-- Pass 2 of `CrossAggregator::ComputeSupPixelCount` (`k = 1`): the
per-pixel support count, accumulated over the orthogonal arm. -/
def supCount (arms : ℤ → ℤ → CrossArm) (hf : Bool) : ℤ → ℤ → ℤ :=
  fun y x =>
    let arm := arms y x
    if hf then armSum arm.top arm.bottom (fun t => supCountPass1 arms hf (y + t) x)
    else armSum arm.left arm.right (fun t => supCountPass1 arms hf y (x + t))

/-- Pass 1 of `CrossAggregator::AggregateInArms`
(`cross_aggregator.cpp:360-385`, `k = 0`): sum the slice along the
first-direction arm. -/
def aggPass1 (arms : ℤ → ℤ → CrossArm) (hf : Bool) (S : ℤ → ℤ → ℚ) : ℤ → ℤ → ℚ :=
  fun y x =>
    let arm := arms y x
    if hf then armSum arm.left arm.right (fun t => S y (x + t))
    else armSum arm.top arm.bottom (fun t => S (y + t) x)

/-- Pass 2 of `CrossAggregator::AggregateInArms` (`k = 1`): sum the pass-1
plane along the orthogonal arm. -/
def aggPass2 (arms : ℤ → ℤ → CrossArm) (hf : Bool) (T : ℤ → ℤ → ℚ) : ℤ → ℤ → ℚ :=
  fun y x =>
    let arm := arms y x
    if hf then armSum arm.top arm.bottom (fun t => T (y + t) x)
    else armSum arm.left arm.right (fun t => T y (x + t))

/-- `CrossAggregator::AggregateInArms` for one disparity slice
(`cross_aggregator.cpp:328-395`): two-pass sum divided by the matching
support count, written back into the volume at that disparity index. -/
def aggregateInArms (arms : ℤ → ℤ → CrossArm) (minD maxD : ℤ)
    (d : ℤ) (hf : Bool) (vol : Vol) : Vol :=
  if d < minD ∨ maxD ≤ d ∨ maxD - minD ≤ 0 then vol
  else
    let dIdx := d - minD
    let S : ℤ → ℤ → ℚ := fun y x => vol y x dIdx
    let T := aggPass1 arms hf S
    fun y x dd =>
      if dd = dIdx then
        aggPass2 arms hf T y x / ((supCount arms hf y x : ℤ) : ℚ)
      else vol y x dd

/-- `CrossAggregator::Aggregate` (`cross_aggregator.cpp:90-119`): build
the arms, start from the initial volume, and run `num_iters` iterations,
each visiting every disparity and flipping the orientation afterwards. -/
def aggregate (arms : ℤ → ℤ → CrossArm) (minD maxD : ℤ) (numIters : ℕ)
    (costInit : Vol) : Vol :=
  ((List.range numIters).foldl
    (fun (st : Vol × Bool) _ =>
      (((List.range (maxD - minD).toNat).foldl
        (fun v (dIdx : ℕ) =>
          aggregateInArms arms minD maxD (minD + (dIdx : ℤ)) st.2 v) st.1),
       !st.2))
    (costInit, true)).1

lemma armSum_cast (a b : ℕ) (f : ℤ → ℤ) :
    ((armSum a b f : ℤ) : ℚ) = armSum a b (fun t => ((f t : ℤ) : ℚ)) := by
  simp only [armSum]
  rw [Int.cast_list_sum, List.map_map]
  rfl

/-- C9: for every pixel and both orientations, the precomputed support
count equals the number of cost terms summed for that pixel by the
corresponding two-pass aggregation — formalised as the two-pass sum of
the all-ones slice, which adds exactly one for every cost term fetched.
Hence the value written by an aggregation iteration is the arithmetic
average of the pixel's two-pass cross region. -/
theorem claim_C9_support_count (arms : ℤ → ℤ → CrossArm) (hf : Bool) (y x : ℤ) :
    ((supCount arms hf y x : ℤ) : ℚ) =
      aggPass2 arms hf (aggPass1 arms hf (fun _ _ => (1 : ℚ))) y x := by
  cases hf with
  | false =>
    simp only [supCount, supCountPass1, aggPass2, aggPass1, if_false, Bool.false_eq_true]
    rw [armSum_cast]
    simp only [armSum, List.map_map]
    congr 1
    apply List.map_congr_left
    intro i _
    rw [Int.cast_list_sum, List.map_map]
    simp [Function.comp_def]
  | true =>
    simp only [supCount, supCountPass1, aggPass2, aggPass1, if_true]
    rw [armSum_cast]
    simp only [armSum, List.map_map]
    congr 1
    apply List.map_congr_left
    intro i _
    rw [Int.cast_list_sum, List.map_map]
    simp [Function.comp_def]

/-! ### Multi-step refinement (`multistep_refiner.cpp`, claims C5, C6, C2) -/

/-- The mutable refiner state threaded through the refinement steps: the
left disparity map and the two outlier lists of `(x, y)` pairs. -/
structure RefinerState where
  dispLeft : DispMap
  occlusions : List (ℤ × ℤ)
  mismatches : List (ℤ × ℤ)

/-- Point update of a disparity map. -/
def setDL (DL : DispMap) (y x : ℤ) (v : ℚ) : DispMap :=
  fun yy xx => if yy = y ∧ xx = x then v else DL yy xx

/-- All pixels `(x, y)` of the image in row-major scanline order (the
`for (y) for (x)` loops). -/
def rowMajorPixels (w h : ℤ) : List (ℤ × ℤ) :=
  (List.range h.toNat).flatMap
    (fun y : ℕ => (List.range w.toNat).map (fun x : ℕ => ((x : ℤ), (y : ℤ))))

/-- One pixel of `MultiStepRefiner::OutlierDetection`
(`multistep_refiner.cpp:106-151`), mirroring the source's control flow:
invalid disparity → mismatch; reprojected column out of range →
invalidate and mismatch; disparity agreement within `lrcheck_thres` →
keep; otherwise classify via the round-tripped column `col_rl` and
invalidate. -/
def outlierStep (w : ℤ) (dispRight : DispMap) (thres : ℚ)
    (st : RefinerState) (p : ℤ × ℤ) : RefinerState :=
  let x := p.1
  let y := p.2
  let disp := st.dispLeft y x
  if disp = Invalid_Float then
    { st with mismatches := st.mismatches ++ [(x, y)] }
  else
    let col_right := qround ((x : ℚ) - disp)
    if 0 ≤ col_right ∧ col_right < w then
      let disp_r := dispRight y col_right
      if |disp - disp_r| > thres then
        let col_rl := qround ((col_right : ℚ) + disp_r)
        let st1 :=
          if 0 < col_rl ∧ col_rl < w then
            if st.dispLeft y col_rl > disp then
              { st with occlusions := st.occlusions ++ [(x, y)] }
            else
              { st with mismatches := st.mismatches ++ [(x, y)] }
          else
            { st with mismatches := st.mismatches ++ [(x, y)] }
        { st1 with dispLeft := setDL st1.dispLeft y x Invalid_Float }
      else st
    else
      { st with dispLeft := setDL st.dispLeft y x Invalid_Float,
                mismatches := st.mismatches ++ [(x, y)] }

/-- `MultiStepRefiner::OutlierDetection` (`multistep_refiner.cpp:92-153`):
clear both lists, then scan all pixels in row-major order. -/
def outlierDetection (w h : ℤ) (dispRight : DispMap) (thres : ℚ)
    (st : RefinerState) : RefinerState :=
  (rowMajorPixels w h).foldl (outlierStep w dispRight thres)
    { st with occlusions := [], mismatches := [] }

/-- The per-pixel classification exactly as claim C5 states it: if `d` is
`Invalid_Float` append to mismatches; else with `xr = round(x − d)`, if
`xr` is outside `[0, width)` invalidate and append to mismatches; else if
`|d − DR[y,xr]| ≤ lrcheck_thres` keep unchanged; else with
`xrl = round(xr + DR[y,xr])`, append to occlusions when `xrl ∈ (0, width)`
and `DL[y,xrl] > d`, otherwise to mismatches, and in either case
invalidate `DL[y,x]`. -/
def outlierStepSpec (w : ℤ) (dispRight : DispMap) (thres : ℚ)
    (st : RefinerState) (p : ℤ × ℤ) : RefinerState :=
  let x := p.1
  let y := p.2
  let d := st.dispLeft y x
  if d = Invalid_Float then
    { st with mismatches := st.mismatches ++ [(x, y)] }
  else
    let xr := qround ((x : ℚ) - d)
    if 0 ≤ xr ∧ xr < w then
      if |d - dispRight y xr| > thres then
        let xrl := qround ((xr : ℚ) + dispRight y xr)
        if 0 < xrl ∧ xrl < w ∧ st.dispLeft y xrl > d then
          { st with dispLeft := setDL st.dispLeft y x Invalid_Float,
                    occlusions := st.occlusions ++ [(x, y)] }
        else
          { st with dispLeft := setDL st.dispLeft y x Invalid_Float,
                    mismatches := st.mismatches ++ [(x, y)] }
      else st
    else
      { st with dispLeft := setDL st.dispLeft y x Invalid_Float,
                mismatches := st.mismatches ++ [(x, y)] }

/-- C5: the LR consistency check performs, pixel by pixel in row-major
scanline order, exactly the classification stated by the claim: `d`
invalid → mismatch; `xr = round(x − d)` outside `[0, width)` → invalidate
and mismatch; `|d − DR[y,xr]| ≤ lrcheck_thres` → keep unchanged;
otherwise occlusion iff `xrl = round(xr + DR[y,xr])` lies in the open
interval `(0, width)` and `DL[y,xrl] > d`, else mismatch, invalidating
`DL[y,x]` in either case. -/
theorem claim_C5_outlier_detection (w h : ℤ) (dispRight : DispMap) (thres : ℚ)
    (st : RefinerState) :
    outlierDetection w h dispRight thres st =
      (rowMajorPixels w h).foldl (outlierStepSpec w dispRight thres)
        { st with occlusions := [], mismatches := [] } := by
  unfold outlierDetection
  have hstep : outlierStep w dispRight thres = outlierStepSpec w dispRight thres := by
    funext s p
    unfold outlierStep outlierStepSpec
    dsimp only
    split_ifs <;> first | rfl | tauto
  rw [hstep]

/-- The disparity histogram of `MultiStepRefiner::IterativeRegionVoting`
(`multistep_refiner.cpp:183-199`): walk the vertical arm of `(x, y)`,
then the horizontal arm of each visited pixel, counting the valid
disparities that round into each bin. -/
def voteHist (minD : ℤ) (arms : ℤ → ℤ → CrossArm) (DL : DispMap)
    (x y : ℤ) : ℤ → ℤ :=
  fun dbin =>
    let arm := arms y x
    armSum arm.top arm.bottom (fun t =>
      let arm2 := arms (y + t) x
      armSum arm2.left arm2.right (fun s =>
        let d := DL (y + t) (x + s)
        if d ≠ Invalid_Float ∧ qround d - minD = dbin then 1 else 0))

/-- The histogram scan of `IterativeRegionVoting`
(`multistep_refiner.cpp:200-210`): running `(best_disp, max_ht, count)`,
taking the first peak bin. -/
def voteScan (hist : ℤ → ℤ) (n : ℕ) : ℤ × ℤ × ℤ :=
  (List.range n).foldl
    (fun st (d : ℕ) =>
      let hval := hist (d : ℤ)
      if st.2.1 < hval then ((d : ℤ), hval, st.2.2 + hval)
      else (st.1, st.2.1, st.2.2 + hval))
    (0, 0, 0)

/-- One pixel of `IterativeRegionVoting` (`multistep_refiner.cpp:174-217`):
skip still-valid pixels; otherwise build the histogram and assign
`best_disp + min_disparity` when the guard `max_ht > 0` and the two
voting thresholds pass. -/
def votePixel (minD maxD : ℤ) (irv_ts : ℤ) (irv_th : ℚ)
    (arms : ℤ → ℤ → CrossArm) (DL : DispMap) (p : ℤ × ℤ) : DispMap :=
  let x := p.1
  let y := p.2
  let disp := DL y x
  if disp ≠ Invalid_Float then DL
  else
    let res := voteScan (voteHist minD arms DL x y) (maxD - minD).toNat
    if 0 < res.2.1 then
      if irv_ts < res.2.2 ∧ irv_th < (res.2.1 : ℚ) / (res.2.2 : ℚ) then
        setDL DL y x ((res.1 + minD : ℤ) : ℚ)
      else DL
    else DL

/-- An inner pass of `IterativeRegionVoting` over one outlier list. -/
def votePass (minD maxD : ℤ) (irv_ts : ℤ) (irv_th : ℚ)
    (arms : ℤ → ℤ → CrossArm) (trg : List (ℤ × ℤ)) (DL : DispMap) : DispMap :=
  trg.foldl (fun D p => votePixel minD maxD irv_ts irv_th arms D p) DL

/-- The list cleanup after an inner pass (`multistep_refiner.cpp:219-226`):
keep exactly the pixels that are still invalid. -/
def removeFilled (DL : DispMap) (trg : List (ℤ × ℤ)) : List (ℤ × ℤ) :=
  trg.filter (fun p => decide (DL p.2 p.1 = Invalid_Float))

/-- One iteration of `IterativeRegionVoting`: the mismatch pass (with its
cleanup) followed by the occlusion pass (with its cleanup). -/
def regionVotingIter (minD maxD : ℤ) (irv_ts : ℤ) (irv_th : ℚ)
    (arms : ℤ → ℤ → CrossArm) (st : RefinerState) : RefinerState :=
  let DL1 := votePass minD maxD irv_ts irv_th arms st.mismatches st.dispLeft
  let mism1 := removeFilled DL1 st.mismatches
  let DL2 := votePass minD maxD irv_ts irv_th arms st.occlusions DL1
  let occl2 := removeFilled DL2 st.occlusions
  { dispLeft := DL2, occlusions := occl2, mismatches := mism1 }

/-- `MultiStepRefiner::IterativeRegionVoting`
(`multistep_refiner.cpp:155-229`): an early return on an empty disparity
range, then exactly 5 iterations. -/
def iterativeRegionVoting (minD maxD : ℤ) (irv_ts : ℤ) (irv_th : ℚ)
    (arms : ℤ → ℤ → CrossArm) (st : RefinerState) : RefinerState :=
  if maxD - minD ≤ 0 then st
  else (List.range 5).foldl
    (fun s _ => regionVotingIter minD maxD irv_ts irv_th arms s) st

/-- The per-pixel voting rule exactly as claim C6 states it: a
still-invalid pixel receives `DL = best_d + min_disparity` if and only if
`count > irv_ts` and `max_h / count > irv_th` (no separate `max_ht > 0`
guard). -/
def votePixelSpec (minD maxD : ℤ) (irv_ts : ℤ) (irv_th : ℚ)
    (arms : ℤ → ℤ → CrossArm) (DL : DispMap) (p : ℤ × ℤ) : DispMap :=
  let x := p.1
  let y := p.2
  let disp := DL y x
  if disp ≠ Invalid_Float then DL
  else
    let res := voteScan (voteHist minD arms DL x y) (maxD - minD).toNat
    if irv_ts < res.2.2 ∧ irv_th < (res.2.1 : ℚ) / (res.2.2 : ℚ) then
      setDL DL y x ((res.1 + minD : ℤ) : ℚ)
    else DL

/-- The claim-side pass, iteration and 5-fold loop built from
`votePixelSpec`. -/
def votePassSpec (minD maxD : ℤ) (irv_ts : ℤ) (irv_th : ℚ)
    (arms : ℤ → ℤ → CrossArm) (trg : List (ℤ × ℤ)) (DL : DispMap) : DispMap :=
  trg.foldl (fun D p => votePixelSpec minD maxD irv_ts irv_th arms D p) DL

def regionVotingIterSpec (minD maxD : ℤ) (irv_ts : ℤ) (irv_th : ℚ)
    (arms : ℤ → ℤ → CrossArm) (st : RefinerState) : RefinerState :=
  let DL1 := votePassSpec minD maxD irv_ts irv_th arms st.mismatches st.dispLeft
  let mism1 := removeFilled DL1 st.mismatches
  let DL2 := votePassSpec minD maxD irv_ts irv_th arms st.occlusions DL1
  let occl2 := removeFilled DL2 st.occlusions
  { dispLeft := DL2, occlusions := occl2, mismatches := mism1 }

def iterativeRegionVotingSpec (minD maxD : ℤ) (irv_ts : ℤ) (irv_th : ℚ)
    (arms : ℤ → ℤ → CrossArm) (st : RefinerState) : RefinerState :=
  if maxD - minD ≤ 0 then st
  else (List.range 5).foldl
    (fun s _ => regionVotingIterSpec minD maxD irv_ts irv_th arms s) st

lemma voteScan_maxht_nonneg (hist : ℤ → ℤ) (n : ℕ) : 0 ≤ (voteScan hist n).2.1 := by
  induction n with
  | zero => simp [voteScan]
  | succ m ih =>
    have hstep : voteScan hist (m + 1) =
        (fun st (d : ℕ) =>
          let hval := hist (d : ℤ)
          if st.2.1 < hval then ((d : ℤ), hval, st.2.2 + hval)
          else (st.1, st.2.1, st.2.2 + hval)) (voteScan hist m) m := by
      simp [voteScan, List.range_succ]
    rw [hstep]
    dsimp only
    by_cases hlt : (voteScan hist m).2.1 < hist (m : ℤ)
    · rw [if_pos hlt]
      exact le_of_lt (lt_of_le_of_lt ih hlt)
    · rw [if_neg hlt]
      exact ih

lemma votePixel_eq_spec (minD maxD : ℤ) (irv_ts : ℤ) (irv_th : ℚ)
    (arms : ℤ → ℤ → CrossArm) (hth : 0 ≤ irv_th) :
    votePixel minD maxD irv_ts irv_th arms =
      votePixelSpec minD maxD irv_ts irv_th arms := by
  funext DL p
  unfold votePixel votePixelSpec
  dsimp only
  by_cases hd : DL p.2 p.1 ≠ Invalid_Float
  · rw [if_pos hd, if_pos hd]
  · rw [if_neg hd, if_neg hd]
    by_cases hg : 0 < (voteScan (voteHist minD arms DL p.1 p.2) (maxD - minD).toNat).2.1
    · rw [if_pos hg]
    · rw [if_neg hg]
      have h0 : (voteScan (voteHist minD arms DL p.1 p.2) (maxD - minD).toNat).2.1 = 0 :=
        le_antisymm (not_lt.mp hg) (voteScan_maxht_nonneg _ _)
      rw [if_neg ?_]
      rintro ⟨_, hratio⟩
      rw [h0] at hratio
      norm_num at hratio
      exact absurd hratio (not_lt.mpr hth)

/-- C6: iterative region voting runs exactly 5 iterations, each visiting
the mismatch list and then the occlusion list, filling each still-invalid
pixel from the peak of its cross-region disparity histogram if and only
if `count > irv_ts` and `max_h / count > irv_th`, and removing the filled
pixels from their list after each inner pass — provided the voting-ratio
floor `irv_th` is nonnegative (as its specification `irv_th ∈ [0,1]`
requires; the source additionally guards `max_ht > 0`, which is
equivalent under that proviso). -/
theorem claim_C6_region_voting (minD maxD : ℤ) (irv_ts : ℤ) (irv_th : ℚ)
    (arms : ℤ → ℤ → CrossArm) (st : RefinerState) (hth : 0 ≤ irv_th) :
    iterativeRegionVoting minD maxD irv_ts irv_th arms st =
      iterativeRegionVotingSpec minD maxD irv_ts irv_th arms st := by
  have hpx := votePixel_eq_spec minD maxD irv_ts irv_th arms hth
  unfold iterativeRegionVoting iterativeRegionVotingSpec
  unfold regionVotingIter regionVotingIterSpec
  unfold votePass votePassSpec
  rw [hpx]

/-- Witness for C6 at a concrete configuration (`irv_th = 2/5 ≥ 0`). -/
theorem claim_C6_witness :
    (0 : ℚ) ≤ 2/5 ∧
    iterativeRegionVoting 0 2 20 (2/5) (fun _ _ => ⟨0, 0, 0, 0⟩)
        ⟨fun _ _ => 0, [], []⟩ =
      iterativeRegionVotingSpec 0 2 20 (2/5) (fun _ _ => ⟨0, 0, 0, 0⟩)
        ⟨fun _ _ => 0, [], []⟩ :=
  ⟨by norm_num,
   claim_C6_region_voting 0 2 20 (2/5) (fun _ _ => ⟨0, 0, 0, 0⟩)
     ⟨fun _ _ => 0, [], []⟩ (by norm_num)⟩

/-! ### Proper interpolation (`multistep_refiner.cpp:231-307`, claim C2) -/

/-- The search range of `MultiStepRefiner::ProperInterpolation`
(`multistep_refiner.cpp:238`): `max(|max_disparity|, |min_disparity|)`. -/
def maxSearchLength (minD maxD : ℤ) : ℕ := (max |maxD| |minD|).toNat

/-- One ray walk (`multistep_refiner.cpp:260-269`): step along the listed
offsets, stop at the first pixel outside the image (no candidate), and
otherwise return the first valid disparity together with its pixel. -/
def rayScan (w h : ℤ) (DL : DispMap) (pos : ℕ → ℤ × ℤ) :
    List ℕ → Option ((ℤ × ℤ) × ℚ)
  | [] => none
  | m :: ms =>
    let xy := pos m
    let xx := xy.1
    let yy := xy.2
    if yy < 0 ∨ h ≤ yy ∨ xx < 0 ∨ w ≤ xx then none
    else
      let d := DL yy xx
      if d ≠ Invalid_Float then some ((xx, yy), d)
      else rayScan w h DL pos ms

/-- The 16-ray candidate collection (`multistep_refiner.cpp:254-271`).
The integer pixel `(lround(x + m·cos(s·π/16)), lround(y + m·sin(s·π/16)))`
is computed in floating point by the source; that geometry enters the
model only through the parameter `rayPos s m x y`. -/
def collectCands (rayPos : ℕ → ℕ → ℤ → ℤ → ℤ × ℤ) (w h : ℤ) (DL : DispMap)
    (msl : ℕ) (x y : ℤ) : List ((ℤ × ℤ) × ℚ) :=
  (List.range 16).filterMap
    (fun s => rayScan w h DL (fun m => rayPos s m x y) (List.range' 1 (msl - 1)))

/-- Candidate selection for a mismatch pixel
(`multistep_refiner.cpp:278-291`): the candidate whose colour is L1-closest
to the hole pixel's colour (`min_dist` starts at `9999`, `d` at `0`). -/
def chooseMismatch (imgL : Img) (x y : ℤ) (cands : List ((ℤ × ℤ) × ℚ)) : ℚ :=
  let color := imgL y x
  (cands.foldl
    (fun (st : ℤ × ℚ) dc =>
      let color2 := imgL dc.1.2 dc.1.1
      let dist := |color.r - color2.r| + |color.g - color2.g| + |color.b - color2.b|
      if st.1 > dist then (dist, dc.2) else st)
    (9999, 0)).2

/-- Candidate selection for an occlusion pixel
(`multistep_refiner.cpp:292-298`): the minimum candidate disparity,
starting from `Large_Float`. -/
def chooseOcclusion (cands : List ((ℤ × ℤ) × ℚ)) : ℚ :=
  cands.foldl (fun m dc => min m dc.2) Large_Float

/-- The fill value stored into `fill_disps[n]` for one pixel: `0`
(the value-initialised entry) when the candidate list is empty and the
loop body is skipped by `continue`, otherwise the selected candidate. -/
def interpFill (imgL : Img) (rayPos : ℕ → ℕ → ℤ → ℤ → ℤ × ℤ) (w h : ℤ)
    (msl : ℕ) (isMismatchList : Bool) (DL : DispMap) (p : ℤ × ℤ) : ℚ :=
  let cands := collectCands rayPos w h DL msl p.1 p.2
  if cands.isEmpty then 0
  else if isMismatchList then chooseMismatch imgL p.1 p.2 cands
  else chooseOcclusion cands

/-- One list phase of `ProperInterpolation` (`multistep_refiner.cpp:243-306`):
skip an empty list; otherwise compute every fill value from the current
map, then write them all. -/
def interpPass (imgL : Img) (rayPos : ℕ → ℕ → ℤ → ℤ → ℤ × ℤ) (w h : ℤ)
    (msl : ℕ) (isMismatchList : Bool) (trg : List (ℤ × ℤ)) (DL : DispMap) : DispMap :=
  if trg.isEmpty then DL
  else
    let fills := trg.map (fun p => interpFill imgL rayPos w h msl isMismatchList DL p)
    (trg.zip fills).foldl (fun D pf => setDL D pf.1.2 pf.1.1 pf.2) DL

/-- `MultiStepRefiner::ProperInterpolation` (`multistep_refiner.cpp:231-307`):
the mismatch phase, then the occlusion phase. -/
def properInterpolation (imgL : Img) (rayPos : ℕ → ℕ → ℤ → ℤ → ℤ × ℤ)
    (w h : ℤ) (minD maxD : ℤ) (st : RefinerState) : RefinerState :=
  let msl := maxSearchLength minD maxD
  let DL1 := interpPass imgL rayPos w h msl true st.mismatches st.dispLeft
  let DL2 := interpPass imgL rayPos w h msl false st.occlusions DL1
  { st with dispLeft := DL2 }

lemma writeZip_eval (F : ℤ × ℤ → ℚ) :
    ∀ (trg : List (ℤ × ℤ)) (DL : DispMap) (yy xx : ℤ),
      ((trg.zip (trg.map F)).foldl (fun D pf => setDL D pf.1.2 pf.1.1 pf.2) DL) yy xx =
        if (xx, yy) ∈ trg then F (xx, yy) else DL yy xx := by
  intro trg
  induction trg with
  | nil => intro DL yy xx; simp
  | cons p rest ih =>
    intro DL yy xx
    rw [List.map_cons, List.zip_cons_cons, List.foldl_cons]
    rw [ih]
    by_cases hmem : (xx, yy) ∈ rest
    · rw [if_pos hmem, if_pos (List.mem_cons.mpr (Or.inr hmem))]
    · rw [if_neg hmem]
      by_cases hp : (xx, yy) = p
      · rw [if_pos (List.mem_cons.mpr (Or.inl hp))]
        have h1 : yy = p.2 ∧ xx = p.1 := by
          constructor
          · exact congrArg Prod.snd hp
          · exact congrArg Prod.fst hp
        simp only [setDL, if_pos h1]
        rw [← hp]
      · rw [if_neg (fun hmem2 => by
          rcases List.mem_cons.mp hmem2 with h | h
          · exact hp h
          · exact hmem h)]
        simp only [setDL]
        rw [if_neg (fun hcon => hp (by
          have : p = (p.1, p.2) := rfl
          rw [this, ← hcon.1, ← hcon.2]))]

lemma interpPass_eval (imgL : Img) (rayPos : ℕ → ℕ → ℤ → ℤ → ℤ × ℤ) (w h : ℤ)
    (msl : ℕ) (k0 : Bool) (trg : List (ℤ × ℤ)) (DL : DispMap) (yy xx : ℤ) :
    interpPass imgL rayPos w h msl k0 trg DL yy xx =
      if (xx, yy) ∈ trg then interpFill imgL rayPos w h msl k0 DL (xx, yy)
      else DL yy xx := by
  unfold interpPass
  by_cases hempty : trg.isEmpty
  · rw [if_pos hempty]
    rw [List.isEmpty_iff] at hempty
    subst hempty
    simp
  · rw [if_neg hempty]
    exact writeZip_eval (fun p => interpFill imgL rayPos w h msl k0 DL p) trg DL yy xx

/-- C2 (amended): proper interpolation is two-phase per list — every fill
value of a list phase is computed from the disparity map as it stood
before any write of that phase (mismatches first, occlusions second on
the mismatch-filled map) — and the fill value of a listed pixel for which
none of the 16 rays yields a valid-disparity candidate is the
value-initialised `0.0`, which IS written to `DL` (the entry does not
stay `Invalid_Float`); pixels on neither list are unchanged. -/
theorem claim_C2_interpolation_amended (imgL : Img)
    (rayPos : ℕ → ℕ → ℤ → ℤ → ℤ × ℤ) (w h minD maxD : ℤ) (st : RefinerState) :
    ∀ yy xx : ℤ,
      (properInterpolation imgL rayPos w h minD maxD st).dispLeft yy xx =
        (let msl := maxSearchLength minD maxD
         let DL1 : DispMap := fun y2 x2 =>
           if (x2, y2) ∈ st.mismatches then
             interpFill imgL rayPos w h msl true st.dispLeft (x2, y2)
           else st.dispLeft y2 x2
         if (xx, yy) ∈ st.occlusions then
           interpFill imgL rayPos w h msl false DL1 (xx, yy)
         else DL1 yy xx) := by
  intro yy xx
  have hDL1 : interpPass imgL rayPos w h (maxSearchLength minD maxD) true
      st.mismatches st.dispLeft =
      (fun y2 x2 =>
        if (x2, y2) ∈ st.mismatches then
          interpFill imgL rayPos w h (maxSearchLength minD maxD) true
            st.dispLeft (x2, y2)
        else st.dispLeft y2 x2) := by
    funext y2 x2
    exact interpPass_eval imgL rayPos w h (maxSearchLength minD maxD) true
      st.mismatches st.dispLeft y2 x2
  show interpPass imgL rayPos w h (maxSearchLength minD maxD) false st.occlusions
      (interpPass imgL rayPos w h (maxSearchLength minD maxD) true
        st.mismatches st.dispLeft) yy xx = _
  rw [interpPass_eval, hDL1]

/-- A trivial concrete ray geometry for the counterexample (`rayPos`
never leaves the hole pixel; on a `1 × 1` image every geometry collects
no candidate, since the only pixel is invalid). -/
def rayPosTriv : ℕ → ℕ → ℤ → ℤ → ℤ × ℤ := fun _ _ x y => (x, y)

/-- Counterexample to C2 as stated: a `1 × 1` image whose only pixel is an
invalid mismatch with no ray candidates.  The claim says its `DL` entry is
left unchanged (stays `Invalid_Float`); the code writes the
value-initialised fill `0.0`. -/
theorem claim_C2_counterexample :
    collectCands rayPosTriv 1 1 (fun _ _ => Invalid_Float)
      (maxSearchLength 0 1) 0 0 = [] ∧
    (properInterpolation flatGrey rayPosTriv 1 1 0 1
      ⟨fun _ _ => Invalid_Float, [], [((0 : ℤ), (0 : ℤ))]⟩).dispLeft 0 0 = 0 ∧
    (properInterpolation flatGrey rayPosTriv 1 1 0 1
      ⟨fun _ _ => Invalid_Float, [], [((0 : ℤ), (0 : ℤ))]⟩).dispLeft 0 0 ≠
      Invalid_Float := by
  refine ⟨?_, ?_, ?_⟩ <;> decide

/-! ### Scanline optimization (`scanline_optimizer.cpp`, claim C7) -/

/-- The `P1`/`P2` threshold table (`scanline_optimizer.cpp:130-142`). -/
def soPenalty (p : ℚ) (tso d1 d2 : ℤ) : ℚ :=
  if d1 < tso ∧ d2 < tso then p
  else if d1 < tso ∧ ¬ d2 < tso then p / 4
  else if ¬ d1 < tso ∧ d2 < tso then p / 4
  else p / 10

/-- The initial `mincost_last_path` (`scanline_optimizer.cpp:97-111`): the
minimum over the `disp_range + 2` entries of `cost_last_path`, whose two
outer entries are the `Large_Float` pads, starting from `Large_Float`. -/
def pathMinInit (L0 : ℤ → ℚ) (dr : ℕ) : ℚ :=
  (List.range (dr + 2)).foldl
    (fun m (i : ℕ) =>
      min m (if i = 0 ∨ i = dr + 1 then Large_Float else L0 ((i : ℤ) - 1)))
    Large_Float

/-- The minimum of a row of `disp_range` costs (`min_k L[p0,k]`). -/
def minRow (L : ℤ → ℚ) (dr : ℕ) : ℚ :=
  (List.range dr).foldl (fun m (k : ℕ) => min m (L (k : ℤ))) (L 0)

/-- The `Large_Float`-padded read of the previous path costs
(`cost_last_path` with its two pad entries). -/
def soPad (dr : ℕ) (prev : ℤ → ℚ) : ℤ → ℚ :=
  fun k => if k < 0 ∨ (dr : ℤ) ≤ k then Large_Float else prev k

/-- The loop body of the inner disparity loop: one candidate `dn`. -/
def soStepGo (w minD : ℤ) (p1 p2 : ℚ) (tso : ℤ) (x : ℤ) (d1 : ℤ) (d2At : ℤ → ℤ)
    (dr : ℕ) (srcAt prev : ℤ → ℚ) (mprev : ℚ)
    (st : ℤ × ℚ × (ℤ → ℚ)) (dn : ℕ) : ℤ × ℚ × (ℤ → ℚ) :=
  let d := (dn : ℤ)
  let xr := x - d - minD
  let d2 := if 0 < xr ∧ xr < w - 1 then d2At xr else st.1
  let P1 := soPenalty p1 tso d1 d2
  let P2 := soPenalty p2 tso d1 d2
  let cost_s := (srcAt d +
    min (min (prev d) (soPad dr prev (d - 1) + P1))
      (min (soPad dr prev (d + 1) + P1) (mprev + P2))) / 2
  (d2, min st.2.1 cost_s, fun k => if k = d then cost_s else st.2.2 k)

/-- The inner disparity loop of a scanline step
(`scanline_optimizer.cpp:114-156` and `223-264`): state
`(d2, min_cost, new row)`. `d2` starts at `d1` and is overwritten only
when the right-image column `xr = x − d − min_disparity` lies in
`(0, width−1)` — otherwise it keeps its previous value (it is **not**
reset to `d1`).  Each candidate gets
`cost_s = (C_src[p,d] + min(L[p0,d], L[p0,d−1]+P1, L[p0,d+1]+P1, mprev+P2)) / 2`
with the out-of-range neighbour entries read as the `Large_Float` pads. -/
def soStep (w minD : ℤ) (p1 p2 : ℚ) (tso : ℤ) (x : ℤ) (d1 : ℤ) (d2At : ℤ → ℤ)
    (dr : ℕ) (srcAt prev : ℤ → ℚ) (mprev : ℚ) : (ℤ → ℚ) × ℚ :=
  let res := (List.range dr).foldl
    (soStepGo w minD p1 p2 tso x d1 d2At dr srcAt prev mprev)
    (d1, Large_Float, fun _ => (0 : ℚ))
  (res.2.2, res.2.1)

/-- A generic scanline path: position `0` is the seeded head, and each
later position applies the inner disparity loop with the
position-dependent current coordinate `X`, left-image distance `D1`,
right-image distance sampler `D2At` and source slice `SRC`. -/
def soPathGen (w minD : ℤ) (p1 p2 : ℚ) (tso : ℤ) (dr : ℕ) (seed : ℤ → ℚ)
    (X D1 : ℕ → ℤ) (D2At : ℕ → ℤ → ℤ) (SRC : ℕ → ℤ → ℚ) : ℕ → (ℤ → ℚ) × ℚ
  | 0 => (seed, pathMinInit seed dr)
  | j + 1 =>
    let prevSt := soPathGen w minD p1 p2 tso dr seed X D1 D2At SRC j
    soStep w minD p1 p2 tso (X (j + 1)) (D1 (j + 1)) (D2At (j + 1)) dr (SRC (j + 1))
      prevSt.1 prevSt.2

/-- The path state of `ScanlineOptimizeLeftRight`
(`scanline_optimizer.cpp:84-171`) after `j` steps along row `y`: position
`x0 + direction·j`, current/previous left colours at that row, the
right-image distance at columns `xr` and `xr − direction`, and the source
row slice. -/
def lrPath (imgL imgR : Img) (w minD maxD : ℤ) (p1 p2 : ℚ) (tso : ℤ)
    (isForward : Bool) (y : ℤ) (src : Vol) : ℕ → (ℤ → ℚ) × ℚ :=
  let dir : ℤ := if isForward then 1 else -1
  let x0 : ℤ := if isForward then 0 else w - 1
  soPathGen w minD p1 p2 tso (maxD - minD).toNat (fun d => src y x0 d)
    (fun j => x0 + dir * (j : ℤ))
    (fun j => ColorDist (imgL y (x0 + dir * (j : ℤ)))
      (imgL y (x0 + dir * ((j : ℤ) - 1))))
    (fun _ xr => ColorDist (imgR y xr) (imgR y (xr - dir)))
    (fun j d => src y (x0 + dir * (j : ℤ)) d)

/-- `ScanlineOptimizer::ScanlineOptimizeLeftRight`
(`scanline_optimizer.cpp:64-172`) as a volume transformer (the sweep
fully overwrites its destination buffer). -/
def sweepLR (imgL imgR : Img) (w minD maxD : ℤ) (p1 p2 : ℚ) (tso : ℤ)
    (isForward : Bool) (src : Vol) : Vol :=
  fun y x d =>
    let dir : ℤ := if isForward then 1 else -1
    let x0 : ℤ := if isForward then 0 else w - 1
    (lrPath imgL imgR w minD maxD p1 p2 tso isForward y src
      (dir * (x - x0)).toNat).1 d

/-- The path state of `ScanlineOptimizer::ScanlineOptimizeUpDown`
(`scanline_optimizer.cpp:174-280`) along column `x`; the right-image
distance compares rows `y` and `y − direction` at the same column `xr`. -/
def udPath (imgL imgR : Img) (w h minD maxD : ℤ) (p1 p2 : ℚ) (tso : ℤ)
    (isForward : Bool) (x : ℤ) (src : Vol) : ℕ → (ℤ → ℚ) × ℚ :=
  let dir : ℤ := if isForward then 1 else -1
  let y0 : ℤ := if isForward then 0 else h - 1
  soPathGen w minD p1 p2 tso (maxD - minD).toNat (fun d => src y0 x d)
    (fun _ => x)
    (fun i => ColorDist (imgL (y0 + dir * (i : ℤ)) x)
      (imgL (y0 + dir * ((i : ℤ) - 1)) x))
    (fun i xr => ColorDist (imgR (y0 + dir * (i : ℤ)) xr)
      (imgR (y0 + dir * (i : ℤ) - dir) xr))
    (fun i d => src (y0 + dir * (i : ℤ)) x d)

/-- `ScanlineOptimizer::ScanlineOptimizeUpDown` as a volume transformer. -/
def sweepUD (imgL imgR : Img) (w h minD maxD : ℤ) (p1 p2 : ℚ) (tso : ℤ)
    (isForward : Bool) (src : Vol) : Vol :=
  fun y x d =>
    let dir : ℤ := if isForward then 1 else -1
    let y0 : ℤ := if isForward then 0 else h - 1
    (udPath imgL imgR w h minD maxD p1 p2 tso isForward x src
      (dir * (y - y0)).toNat).1 d

/-- `ScanlineOptimizer::Optimize` (`scanline_optimizer.cpp:41-62`): the
four sweeps in order L→R (C1→C0), R→L (C0→C1), U→D (C1→C0), D→U (C0→C1);
since every sweep fully overwrites its destination, the optimized volume
that ends in `C1` (the aggregator's buffer) is the four-fold
composition applied to the aggregated cost `C1`. -/
def scanlineOptimize (imgL imgR : Img) (w h minD maxD : ℤ) (p1 p2 : ℚ)
    (tso : ℤ) (cost_aggr : Vol) : Vol :=
  sweepUD imgL imgR w h minD maxD p1 p2 tso false
    (sweepUD imgL imgR w h minD maxD p1 p2 tso true
      (sweepLR imgL imgR w minD maxD p1 p2 tso false
        (sweepLR imgL imgR w minD maxD p1 p2 tso true cost_aggr)))

/-! #### The claim-side sweep recurrence -/

/-- The value `d2` holds when the inner loop reaches index `d`: the
right-image colour distance at the most recent in-range column
`xr = x − d' − min_disparity` with `d' ≤ d`, and `d1` when no index up to
`d` has been in range.  (The claim as stated instead resets `d2` to `d1`
at every out-of-range index; see `d2ClaimAt`.) -/
def d2SpecSeq (w minD : ℤ) (x : ℤ) (d1 : ℤ) (d2At : ℤ → ℤ) : ℕ → ℤ
  | 0 =>
    let xr := x - 0 - minD
    if 0 < xr ∧ xr < w - 1 then d2At xr else d1
  | d + 1 =>
    let xr := x - ((d : ℤ) + 1) - minD
    if 0 < xr ∧ xr < w - 1 then d2At xr else d2SpecSeq w minD x d1 d2At d

/-- The per-candidate `d2` exactly as claim C7 states it: the right-image
distance at `xr` when `xr ∈ (0, width−1)`, and `d1` otherwise. -/
def d2ClaimAt (w minD : ℤ) (x : ℤ) (d1 : ℤ) (d2At : ℤ → ℤ) (d : ℤ) : ℤ :=
  let xr := x - d - minD
  if 0 < xr ∧ xr < w - 1 then d2At xr else d1

/-- One claim-side scanline step: the recurrence
`L[p,d] = (C_src[p,d] + min(L[p0,d], L[p0,d−1]+P1, L[p0,d+1]+P1, min_k L[p0,k]+P2))/2`
with `Large_Float` pads, parameterised by the rule that selects `d2`. -/
def soStepSpec (w minD : ℤ) (p1 p2 : ℚ) (tso : ℤ) (x : ℤ) (d1 : ℤ)
    (d2Rule : ℤ → ℤ) (dr : ℕ) (srcAt prev : ℤ → ℚ) : ℤ → ℚ :=
  fun d =>
    let d2 := d2Rule d
    let P1 := soPenalty p1 tso d1 d2
    let P2 := soPenalty p2 tso d1 d2
    (srcAt d +
      min (min (prev d) (soPad dr prev (d - 1) + P1))
        (min (soPad dr prev (d + 1) + P1) (minRow prev dr + P2))) / 2

/-- The generic claim-side path: the recurrence with `min_k L[p0,k]`
recomputed from the previous row, parameterised by the `d2` selection
rule builder. -/
def soPathSpecGen (w minD : ℤ) (p1 p2 : ℚ) (tso : ℤ) (dr : ℕ) (seed : ℤ → ℚ)
    (X D1 : ℕ → ℤ) (d2Rule : ℕ → ℤ → ℤ) (SRC : ℕ → ℤ → ℚ) : ℕ → (ℤ → ℚ)
  | 0 => seed
  | j + 1 =>
    let prevL := soPathSpecGen w minD p1 p2 tso dr seed X D1 d2Rule SRC j
    soStepSpec w minD p1 p2 tso (X (j + 1)) (D1 (j + 1)) (d2Rule (j + 1))
      dr (SRC (j + 1)) prevL

/-- The claim-side L→R path: seed, then the recurrence with the amended
(stale) `d2` rule. -/
def lrPathSpec (imgL imgR : Img) (w minD maxD : ℤ) (p1 p2 : ℚ) (tso : ℤ)
    (isForward : Bool) (y : ℤ) (src : Vol) : ℕ → (ℤ → ℚ) :=
  let dir : ℤ := if isForward then 1 else -1
  let x0 : ℤ := if isForward then 0 else w - 1
  soPathSpecGen w minD p1 p2 tso (maxD - minD).toNat (fun d => src y x0 d)
    (fun j => x0 + dir * (j : ℤ))
    (fun j => ColorDist (imgL y (x0 + dir * (j : ℤ)))
      (imgL y (x0 + dir * ((j : ℤ) - 1))))
    (fun j d => d2SpecSeq w minD (x0 + dir * (j : ℤ))
      (ColorDist (imgL y (x0 + dir * (j : ℤ))) (imgL y (x0 + dir * ((j : ℤ) - 1))))
      (fun xr => ColorDist (imgR y xr) (imgR y (xr - dir))) d.toNat)
    (fun j d => src y (x0 + dir * (j : ℤ)) d)

/-- The claim-side L→R sweep with the amended `d2` rule. -/
def sweepLRSpec (imgL imgR : Img) (w minD maxD : ℤ) (p1 p2 : ℚ) (tso : ℤ)
    (isForward : Bool) (src : Vol) : Vol :=
  fun y x d =>
    let dir : ℤ := if isForward then 1 else -1
    let x0 : ℤ := if isForward then 0 else w - 1
    lrPathSpec imgL imgR w minD maxD p1 p2 tso isForward y src
      (dir * (x - x0)).toNat d

/-- The claim-side U→D path with the amended `d2` rule. -/
def udPathSpec (imgL imgR : Img) (w h minD maxD : ℤ) (p1 p2 : ℚ) (tso : ℤ)
    (isForward : Bool) (x : ℤ) (src : Vol) : ℕ → (ℤ → ℚ) :=
  let dir : ℤ := if isForward then 1 else -1
  let y0 : ℤ := if isForward then 0 else h - 1
  soPathSpecGen w minD p1 p2 tso (maxD - minD).toNat (fun d => src y0 x d)
    (fun _ => x)
    (fun i => ColorDist (imgL (y0 + dir * (i : ℤ)) x)
      (imgL (y0 + dir * ((i : ℤ) - 1)) x))
    (fun i d => d2SpecSeq w minD x
      (ColorDist (imgL (y0 + dir * (i : ℤ)) x) (imgL (y0 + dir * ((i : ℤ) - 1)) x))
      (fun xr => ColorDist (imgR (y0 + dir * (i : ℤ)) xr)
        (imgR (y0 + dir * (i : ℤ) - dir) xr)) d.toNat)
    (fun i d => src (y0 + dir * (i : ℤ)) x d)

/-- The claim-side U→D sweep with the amended `d2` rule. -/
def sweepUDSpec (imgL imgR : Img) (w h minD maxD : ℤ) (p1 p2 : ℚ) (tso : ℤ)
    (isForward : Bool) (src : Vol) : Vol :=
  fun y x d =>
    let dir : ℤ := if isForward then 1 else -1
    let y0 : ℤ := if isForward then 0 else h - 1
    udPathSpec imgL imgR w h minD maxD p1 p2 tso isForward x src
      (dir * (y - y0)).toNat d

/-- The claim-side L→R path exactly as claim C7 states it: the
per-candidate `d2` falls back to `d1` at every out-of-range index. -/
def lrPathClaim (imgL imgR : Img) (w minD maxD : ℤ) (p1 p2 : ℚ) (tso : ℤ)
    (isForward : Bool) (y : ℤ) (src : Vol) : ℕ → (ℤ → ℚ) :=
  let dir : ℤ := if isForward then 1 else -1
  let x0 : ℤ := if isForward then 0 else w - 1
  soPathSpecGen w minD p1 p2 tso (maxD - minD).toNat (fun d => src y x0 d)
    (fun j => x0 + dir * (j : ℤ))
    (fun j => ColorDist (imgL y (x0 + dir * (j : ℤ)))
      (imgL y (x0 + dir * ((j : ℤ) - 1))))
    (fun j => d2ClaimAt w minD (x0 + dir * (j : ℤ))
      (ColorDist (imgL y (x0 + dir * (j : ℤ))) (imgL y (x0 + dir * ((j : ℤ) - 1))))
      (fun xr => ColorDist (imgR y xr) (imgR y (xr - dir))))
    (fun j d => src y (x0 + dir * (j : ℤ)) d)

/-- The claim-side L→R sweep exactly as stated (`d2` defaulting to `d1`). -/
def sweepLRClaim (imgL imgR : Img) (w minD maxD : ℤ) (p1 p2 : ℚ) (tso : ℤ)
    (isForward : Bool) (src : Vol) : Vol :=
  fun y x d =>
    let dir : ℤ := if isForward then 1 else -1
    let x0 : ℤ := if isForward then 0 else w - 1
    lrPathClaim imgL imgR w minD maxD p1 p2 tso isForward y src
      (dir * (x - x0)).toNat d

section ScanlineLemmas

/-- The candidate cost produced by the source's inner loop at index `d`,
expressed with the explicit stale-`d2` sequence. -/
def soCostF (w minD : ℤ) (p1 p2 : ℚ) (tso : ℤ) (x : ℤ) (d1 : ℤ) (d2At : ℤ → ℤ)
    (dr : ℕ) (srcAt prev : ℤ → ℚ) (mprev : ℚ) (d : ℤ) : ℚ :=
  let d2 := d2SpecSeq w minD x d1 d2At d.toNat
  let P1 := soPenalty p1 tso d1 d2
  let P2 := soPenalty p2 tso d1 d2
  (srcAt d +
    min (min (prev d) (soPad dr prev (d - 1) + P1))
      (min (soPad dr prev (d + 1) + P1) (mprev + P2))) / 2

lemma foldlMin_le_init (g : ℕ → ℚ) :
    ∀ (l : List ℕ) (a : ℚ), l.foldl (fun m i => min m (g i)) a ≤ a := by
  intro l
  induction l with
  | nil => intro a; simp
  | cons c t ih =>
    intro a
    calc t.foldl (fun m i => min m (g i)) (min a (g c)) ≤ min a (g c) := ih _
      _ ≤ a := min_le_left _ _

lemma foldlMin_eq_minRow (G : ℤ → ℚ) (dr : ℕ) (hdr : 0 < dr)
    (hb : G 0 ≤ Large_Float) :
    (List.range dr).foldl (fun q (k : ℕ) => min q (G (k : ℤ))) Large_Float =
      minRow G dr := by
  obtain ⟨m, rfl⟩ : ∃ m, dr = m + 1 := ⟨dr - 1, by omega⟩
  rw [minRow, List.range_succ_eq_map, List.foldl_cons, List.foldl_cons]
  have h1 : min Large_Float (G ((0 : ℕ) : ℤ)) = G 0 := by
    rw [Nat.cast_zero]
    exact min_eq_right hb
  have h2 : min (G 0) (G ((0 : ℕ) : ℤ)) = G 0 := by
    rw [Nat.cast_zero]; exact min_self _
  rw [h1, h2]

lemma minRow_congr (L L' : ℤ → ℚ) (dr : ℕ) (hdr : 0 < dr)
    (h : ∀ d : ℤ, 0 ≤ d → d < dr → L d = L' d) : minRow L dr = minRow L' dr := by
  unfold minRow
  have h0 : L 0 = L' 0 := h 0 le_rfl (by exact_mod_cast hdr)
  rw [h0]
  apply List.foldl_ext
  intro m k hk
  rw [h k (Int.natCast_nonneg k) (by
    have := List.mem_range.mp hk
    exact_mod_cast this)]

lemma pathMinInit_eq_minRow (L0 : ℤ → ℚ) (dr : ℕ) (hdr : 0 < dr)
    (hb : L0 0 ≤ Large_Float) : pathMinInit L0 dr = minRow L0 dr := by
  unfold pathMinInit
  have hsplit : List.range (dr + 2) = List.range (dr + 1) ++ [dr + 1] :=
    List.range_succ (dr + 1)
  have hhead : List.range (dr + 1) = (0 : ℕ) :: (List.range dr).map Nat.succ :=
    List.range_succ_eq_map dr
  rw [hsplit, hhead]
  simp only [List.foldl_append, List.foldl_cons, List.foldl_nil, List.foldl_map,
    eq_self_iff_true, true_or, or_true, if_true, min_self]
  have hmid : (List.range dr).foldl
      (fun m (i : ℕ) =>
        min m (if i.succ = 0 ∨ i.succ = dr + 1 then Large_Float
          else L0 ((i.succ : ℤ) - 1)))
      Large_Float =
      (List.range dr).foldl (fun m (i : ℕ) => min m (L0 (i : ℤ))) Large_Float := by
    apply List.foldl_ext
    intro m i hi
    have hilt := List.mem_range.mp hi
    have hcond : ¬ (i.succ = 0 ∨ i.succ = dr + 1) := by omega
    rw [if_neg hcond]
    have hc2 : ((i.succ : ℕ) : ℤ) - 1 = (i : ℤ) := by push_cast; ring
    rw [hc2]
  rw [hmid, foldlMin_eq_minRow L0 dr hdr hb]
  apply min_eq_left
  calc minRow L0 dr ≤ L0 0 := by
        rw [minRow]
        exact foldlMin_le_init _ _ _
    _ ≤ Large_Float := hb

/-- The full characterisation of the source's inner disparity loop: the
`d2` state, the written row and the running minimum after `m`
candidates. -/
lemma soStepGo_fold (w minD : ℤ) (p1 p2 : ℚ) (tso : ℤ) (x : ℤ) (d1 : ℤ)
    (d2At : ℤ → ℤ) (dr : ℕ) (srcAt prev : ℤ → ℚ) (mprev : ℚ) :
    ∀ m : ℕ,
      (((List.range m).foldl (soStepGo w minD p1 p2 tso x d1 d2At dr srcAt prev mprev)
        (d1, Large_Float, fun _ => (0 : ℚ))).1 =
        if m = 0 then d1 else d2SpecSeq w minD x d1 d2At (m - 1)) ∧
      (∀ k : ℤ, 0 ≤ k → k < (m : ℤ) →
        ((List.range m).foldl (soStepGo w minD p1 p2 tso x d1 d2At dr srcAt prev mprev)
          (d1, Large_Float, fun _ => (0 : ℚ))).2.2 k =
          soCostF w minD p1 p2 tso x d1 d2At dr srcAt prev mprev k) ∧
      (((List.range m).foldl (soStepGo w minD p1 p2 tso x d1 d2At dr srcAt prev mprev)
        (d1, Large_Float, fun _ => (0 : ℚ))).2.1 =
        (List.range m).foldl
          (fun q (k : ℕ) =>
            min q (soCostF w minD p1 p2 tso x d1 d2At dr srcAt prev mprev (k : ℤ)))
          Large_Float) := by
  intro m
  induction m with
  | zero => refine ⟨rfl, ?_, rfl⟩; intro k hk0 hk; omega
  | succ m ih =>
    obtain ⟨ihd2, ihrow, ihmin⟩ := ih
    have hstep : (List.range (m + 1)).foldl
        (soStepGo w minD p1 p2 tso x d1 d2At dr srcAt prev mprev)
        (d1, Large_Float, fun _ => (0 : ℚ)) =
        soStepGo w minD p1 p2 tso x d1 d2At dr srcAt prev mprev
          ((List.range m).foldl
            (soStepGo w minD p1 p2 tso x d1 d2At dr srcAt prev mprev)
            (d1, Large_Float, fun _ => (0 : ℚ))) m := by
      rw [List.range_succ, List.foldl_append, List.foldl_cons, List.foldl_nil]
    set stm := (List.range m).foldl
      (soStepGo w minD p1 p2 tso x d1 d2At dr srcAt prev mprev)
      (d1, Large_Float, fun _ => (0 : ℚ)) with hstm
    have hd2new : (if 0 < x - (m : ℤ) - minD ∧ x - (m : ℤ) - minD < w - 1
        then d2At (x - (m : ℤ) - minD) else stm.1) =
        d2SpecSeq w minD x d1 d2At m := by
      rcases Nat.eq_zero_or_pos m with h0 | hpos
      · subst h0
        rw [ihd2, if_pos rfl]
        simp only [d2SpecSeq]
        norm_num
      · obtain ⟨m', rfl⟩ : ∃ m', m = m' + 1 := ⟨m - 1, by omega⟩
        rw [ihd2, if_neg (by omega : ¬ (m' + 1 = 0))]
        simp only [d2SpecSeq, Nat.add_sub_cancel]
        push_cast
        rfl
    have hcost : soStepGo w minD p1 p2 tso x d1 d2At dr srcAt prev mprev stm m =
        (d2SpecSeq w minD x d1 d2At m,
         min stm.2.1 (soCostF w minD p1 p2 tso x d1 d2At dr srcAt prev mprev (m : ℤ)),
         fun k => if k = (m : ℤ) then
           soCostF w minD p1 p2 tso x d1 d2At dr srcAt prev mprev (m : ℤ)
         else stm.2.2 k) := by
      unfold soStepGo soCostF
      simp only [Int.toNat_natCast]
      rw [hd2new]
    rw [hstep, hcost]
    refine ⟨?_, ?_, ?_⟩
    · simp
    · intro k hk0 hklt
      simp only
      by_cases hkm : k = (m : ℤ)
      · rw [if_pos hkm, hkm]
      · rw [if_neg hkm]
        exact ihrow k hk0 (by omega)
    · simp only
      rw [ihmin, List.range_succ, List.foldl_append, List.foldl_cons, List.foldl_nil]

lemma soStep_row (w minD : ℤ) (p1 p2 : ℚ) (tso : ℤ) (x : ℤ) (d1 : ℤ)
    (d2At : ℤ → ℤ) (dr : ℕ) (srcAt prev : ℤ → ℚ) (mprev : ℚ)
    (d : ℤ) (h0 : 0 ≤ d) (hd : d < (dr : ℤ)) :
    (soStep w minD p1 p2 tso x d1 d2At dr srcAt prev mprev).1 d =
      soCostF w minD p1 p2 tso x d1 d2At dr srcAt prev mprev d := by
  unfold soStep
  exact (soStepGo_fold w minD p1 p2 tso x d1 d2At dr srcAt prev mprev dr).2.1 d h0 hd

lemma soStep_minval (w minD : ℤ) (p1 p2 : ℚ) (tso : ℤ) (x : ℤ) (d1 : ℤ)
    (d2At : ℤ → ℤ) (dr : ℕ) (srcAt prev : ℤ → ℚ) (mprev : ℚ) :
    (soStep w minD p1 p2 tso x d1 d2At dr srcAt prev mprev).2 =
      (List.range dr).foldl
        (fun q (k : ℕ) =>
          min q (soCostF w minD p1 p2 tso x d1 d2At dr srcAt prev mprev (k : ℤ)))
        Large_Float := by
  unfold soStep
  exact (soStepGo_fold w minD p1 p2 tso x d1 d2At dr srcAt prev mprev dr).2.2

lemma soCostF_le (w minD : ℤ) (p1 p2 : ℚ) (tso : ℤ) (x : ℤ) (d1 : ℤ)
    (d2At : ℤ → ℤ) (dr : ℕ) (srcAt prev : ℤ → ℚ) (mprev : ℚ) (d : ℤ)
    (hsrcd : srcAt d ≤ Large_Float) (hprevd : prev d ≤ Large_Float) :
    soCostF w minD p1 p2 tso x d1 d2At dr srcAt prev mprev d ≤ Large_Float := by
  unfold soCostF
  dsimp only
  have hmin : min (min (prev d)
      (soPad dr prev (d - 1) + soPenalty p1 tso d1
        (d2SpecSeq w minD x d1 d2At d.toNat)))
      (min (soPad dr prev (d + 1) + soPenalty p1 tso d1
        (d2SpecSeq w minD x d1 d2At d.toNat))
        (mprev + soPenalty p2 tso d1 (d2SpecSeq w minD x d1 d2At d.toNat))) ≤
      prev d :=
    le_trans (min_le_left _ _) (min_le_left _ _)
  have h2 : prev d ≤ Large_Float := hprevd
  linarith

lemma soCostF_eq_spec (w minD : ℤ) (p1 p2 : ℚ) (tso : ℤ) (x : ℤ) (d1 : ℤ)
    (d2At : ℤ → ℤ) (dr : ℕ) (srcAt srcAt' prev prevL : ℤ → ℚ) (mprev : ℚ)
    (hdr : 0 < dr)
    (hagree : ∀ k : ℤ, 0 ≤ k → k < (dr : ℤ) → prev k = prevL k)
    (hsrcAt : srcAt = srcAt' ∨ ∀ k : ℤ, 0 ≤ k → k < (dr : ℤ) → srcAt k = srcAt' k)
    (hm : mprev = minRow prevL dr)
    (d : ℤ) (h0 : 0 ≤ d) (hd : d < (dr : ℤ)) :
    soCostF w minD p1 p2 tso x d1 d2At dr srcAt prev mprev d =
      soStepSpec w minD p1 p2 tso x d1
        (fun dd => d2SpecSeq w minD x d1 d2At dd.toNat) dr srcAt' prevL d := by
  have hpad : ∀ k : ℤ, soPad dr prev k = soPad dr prevL k := by
    intro k
    unfold soPad
    by_cases hk : k < 0 ∨ (dr : ℤ) ≤ k
    · rw [if_pos hk, if_pos hk]
    · push_neg at hk
      rw [if_neg (by omega), if_neg (by omega)]
      exact hagree k hk.1 hk.2
  have hsrcd : srcAt d = srcAt' d := by
    rcases hsrcAt with h | h
    · rw [h]
    · exact h d h0 hd
  unfold soCostF soStepSpec
  dsimp only
  rw [hagree d h0 hd, hpad (d - 1), hpad (d + 1), hm, hsrcd]

/-- The source path computes, at every reachable disparity index, exactly
the claim-side recurrence with the stale-`d2` rule, its entries stay
below `Large_Float`, and its running minimum is the row minimum. -/
lemma soPathGen_spec (w minD : ℤ) (p1 p2 : ℚ) (tso : ℤ) (dr : ℕ)
    (seed seed' : ℤ → ℚ) (X D1 : ℕ → ℤ) (D2At : ℕ → ℤ → ℤ) (SRC SRC' : ℕ → ℤ → ℚ)
    (hdr : 0 < dr)
    (hseed : ∀ d : ℤ, 0 ≤ d → d < (dr : ℤ) → seed d ≤ Large_Float)
    (hseedag : ∀ d : ℤ, 0 ≤ d → d < (dr : ℤ) → seed d = seed' d)
    (hsrc : ∀ (j : ℕ) (d : ℤ), 0 ≤ d → d < (dr : ℤ) → SRC j d ≤ Large_Float)
    (hsrcag : ∀ (j : ℕ) (d : ℤ), 0 ≤ d → d < (dr : ℤ) → SRC j d = SRC' j d) :
    ∀ j : ℕ,
      (∀ d : ℤ, 0 ≤ d → d < (dr : ℤ) →
        (soPathGen w minD p1 p2 tso dr seed X D1 D2At SRC j).1 d =
          soPathSpecGen w minD p1 p2 tso dr seed' X D1
            (fun i dd => d2SpecSeq w minD (X i) (D1 i) (D2At i) dd.toNat) SRC' j d ∧
        (soPathGen w minD p1 p2 tso dr seed X D1 D2At SRC j).1 d ≤ Large_Float) ∧
      (soPathGen w minD p1 p2 tso dr seed X D1 D2At SRC j).2 =
        minRow (soPathGen w minD p1 p2 tso dr seed X D1 D2At SRC j).1 dr := by
  intro j
  induction j with
  | zero =>
    refine ⟨fun d h0 hd => ⟨?_, hseed d h0 hd⟩, ?_⟩
    · simp only [soPathGen, soPathSpecGen]
      exact hseedag d h0 hd
    · simp only [soPathGen]
      exact pathMinInit_eq_minRow seed dr hdr (hseed 0 le_rfl (by exact_mod_cast hdr))
  | succ j ih =>
    obtain ⟨ihrow, ihmin⟩ := ih
    have hstep : soPathGen w minD p1 p2 tso dr seed X D1 D2At SRC (j + 1) =
        soStep w minD p1 p2 tso (X (j + 1)) (D1 (j + 1)) (D2At (j + 1)) dr
          (SRC (j + 1))
          (soPathGen w minD p1 p2 tso dr seed X D1 D2At SRC j).1
          (soPathGen w minD p1 p2 tso dr seed X D1 D2At SRC j).2 := by
      simp only [soPathGen]
    have hspecstep : soPathSpecGen w minD p1 p2 tso dr seed' X D1
        (fun i dd => d2SpecSeq w minD (X i) (D1 i) (D2At i) dd.toNat) SRC' (j + 1) =
        soStepSpec w minD p1 p2 tso (X (j + 1)) (D1 (j + 1))
          (fun dd => d2SpecSeq w minD (X (j + 1)) (D1 (j + 1)) (D2At (j + 1)) dd.toNat)
          dr (SRC' (j + 1))
          (soPathSpecGen w minD p1 p2 tso dr seed' X D1
            (fun i dd => d2SpecSeq w minD (X i) (D1 i) (D2At i) dd.toNat) SRC' j) := by
      simp only [soPathSpecGen]
    have hrowF : ∀ d : ℤ, 0 ≤ d → d < (dr : ℤ) →
        (soPathGen w minD p1 p2 tso dr seed X D1 D2At SRC (j + 1)).1 d =
          soCostF w minD p1 p2 tso (X (j + 1)) (D1 (j + 1)) (D2At (j + 1)) dr
            (SRC (j + 1))
            (soPathGen w minD p1 p2 tso dr seed X D1 D2At SRC j).1
            (soPathGen w minD p1 p2 tso dr seed X D1 D2At SRC j).2 d := by
      intro d h0 hd
      rw [hstep]
      exact soStep_row _ _ _ _ _ _ _ _ _ _ _ _ d h0 hd
    have hminprev : (soPathGen w minD p1 p2 tso dr seed X D1 D2At SRC j).2 =
        minRow (soPathSpecGen w minD p1 p2 tso dr seed' X D1
          (fun i dd => d2SpecSeq w minD (X i) (D1 i) (D2At i) dd.toNat) SRC' j) dr := by
      rw [ihmin]
      exact minRow_congr _ _ dr hdr (fun d h0 hd => (ihrow d h0 hd).1)
    refine ⟨fun d h0 hd => ⟨?_, ?_⟩, ?_⟩
    · rw [hrowF d h0 hd, hspecstep]
      exact soCostF_eq_spec _ _ _ _ _ _ _ _ _ _ _ _ _ _ hdr
        (fun k hk0 hklt => (ihrow k hk0 hklt).1)
        (Or.inr (fun k hk0 hklt => hsrcag (j + 1) k hk0 hklt))
        hminprev d h0 hd
    · rw [hrowF d h0 hd]
      exact soCostF_le _ _ _ _ _ _ _ _ _ _ _ _ d (hsrc (j + 1) d h0 hd)
        (ihrow d h0 hd).2
    · rw [hstep, soStep_minval]
      have hb0 : soCostF w minD p1 p2 tso (X (j + 1)) (D1 (j + 1)) (D2At (j + 1)) dr
          (SRC (j + 1))
          (soPathGen w minD p1 p2 tso dr seed X D1 D2At SRC j).1
          (soPathGen w minD p1 p2 tso dr seed X D1 D2At SRC j).2 0 ≤ Large_Float :=
        soCostF_le _ _ _ _ _ _ _ _ _ _ _ _ 0
          (hsrc (j + 1) 0 le_rfl (by exact_mod_cast hdr))
          (ihrow 0 le_rfl (by exact_mod_cast hdr)).2
      rw [foldlMin_eq_minRow _ dr hdr hb0]
      apply minRow_congr _ _ dr hdr
      intro k hk0 hklt
      exact (hrowF k hk0 hklt).symm

lemma sweepLR_eq_spec (imgL imgR : Img) (w minD maxD : ℤ) (p1 p2 : ℚ) (tso : ℤ)
    (isForward : Bool) (src src' : Vol)
    (hdr : 0 < (maxD - minD).toNat)
    (hsrc : ∀ y x d : ℤ, 0 ≤ d → d < (((maxD - minD).toNat : ℕ) : ℤ) →
      src y x d ≤ Large_Float)
    (hag : ∀ y x d : ℤ, 0 ≤ d → d < (((maxD - minD).toNat : ℕ) : ℤ) →
      src y x d = src' y x d) :
    ∀ y x d : ℤ, 0 ≤ d → d < (((maxD - minD).toNat : ℕ) : ℤ) →
      sweepLR imgL imgR w minD maxD p1 p2 tso isForward src y x d =
        sweepLRSpec imgL imgR w minD maxD p1 p2 tso isForward src' y x d ∧
      sweepLR imgL imgR w minD maxD p1 p2 tso isForward src y x d ≤ Large_Float := by
  intro y x d h0 hd
  have h := soPathGen_spec w minD p1 p2 tso (maxD - minD).toNat
    (fun dd => src y (if isForward then (0 : ℤ) else w - 1) dd)
    (fun dd => src' y (if isForward then (0 : ℤ) else w - 1) dd)
    (fun j => (if isForward then (0 : ℤ) else w - 1) +
      (if isForward then (1 : ℤ) else -1) * (j : ℤ))
    (fun j => ColorDist
      (imgL y ((if isForward then (0 : ℤ) else w - 1) +
        (if isForward then (1 : ℤ) else -1) * (j : ℤ)))
      (imgL y ((if isForward then (0 : ℤ) else w - 1) +
        (if isForward then (1 : ℤ) else -1) * ((j : ℤ) - 1))))
    (fun _ xr => ColorDist (imgR y xr)
      (imgR y (xr - (if isForward then (1 : ℤ) else -1))))
    (fun j dd => src y ((if isForward then (0 : ℤ) else w - 1) +
      (if isForward then (1 : ℤ) else -1) * (j : ℤ)) dd)
    (fun j dd => src' y ((if isForward then (0 : ℤ) else w - 1) +
      (if isForward then (1 : ℤ) else -1) * (j : ℤ)) dd)
    hdr
    (fun dd h0' hd' => hsrc _ _ dd h0' hd')
    (fun dd h0' hd' => hag _ _ dd h0' hd')
    (fun _ dd h0' hd' => hsrc _ _ dd h0' hd')
    (fun _ dd h0' hd' => hag _ _ dd h0' hd')
    (((if isForward then (1 : ℤ) else -1) *
      (x - (if isForward then (0 : ℤ) else w - 1))).toNat)
  exact ⟨(h.1 d h0 hd).1, (h.1 d h0 hd).2⟩

lemma sweepUD_eq_spec (imgL imgR : Img) (w h minD maxD : ℤ) (p1 p2 : ℚ) (tso : ℤ)
    (isForward : Bool) (src src' : Vol)
    (hdr : 0 < (maxD - minD).toNat)
    (hsrc : ∀ y x d : ℤ, 0 ≤ d → d < (((maxD - minD).toNat : ℕ) : ℤ) →
      src y x d ≤ Large_Float)
    (hag : ∀ y x d : ℤ, 0 ≤ d → d < (((maxD - minD).toNat : ℕ) : ℤ) →
      src y x d = src' y x d) :
    ∀ y x d : ℤ, 0 ≤ d → d < (((maxD - minD).toNat : ℕ) : ℤ) →
      sweepUD imgL imgR w h minD maxD p1 p2 tso isForward src y x d =
        sweepUDSpec imgL imgR w h minD maxD p1 p2 tso isForward src' y x d ∧
      sweepUD imgL imgR w h minD maxD p1 p2 tso isForward src y x d ≤ Large_Float := by
  intro y x d h0 hd
  have hh := soPathGen_spec w minD p1 p2 tso (maxD - minD).toNat
    (fun dd => src (if isForward then (0 : ℤ) else h - 1) x dd)
    (fun dd => src' (if isForward then (0 : ℤ) else h - 1) x dd)
    (fun _ => x)
    (fun i => ColorDist
      (imgL ((if isForward then (0 : ℤ) else h - 1) +
        (if isForward then (1 : ℤ) else -1) * (i : ℤ)) x)
      (imgL ((if isForward then (0 : ℤ) else h - 1) +
        (if isForward then (1 : ℤ) else -1) * ((i : ℤ) - 1)) x))
    (fun i xr => ColorDist
      (imgR ((if isForward then (0 : ℤ) else h - 1) +
        (if isForward then (1 : ℤ) else -1) * (i : ℤ)) xr)
      (imgR ((if isForward then (0 : ℤ) else h - 1) +
        (if isForward then (1 : ℤ) else -1) * (i : ℤ) -
        (if isForward then (1 : ℤ) else -1)) xr))
    (fun i dd => src ((if isForward then (0 : ℤ) else h - 1) +
      (if isForward then (1 : ℤ) else -1) * (i : ℤ)) x dd)
    (fun i dd => src' ((if isForward then (0 : ℤ) else h - 1) +
      (if isForward then (1 : ℤ) else -1) * (i : ℤ)) x dd)
    hdr
    (fun dd h0' hd' => hsrc _ _ dd h0' hd')
    (fun dd h0' hd' => hag _ _ dd h0' hd')
    (fun _ dd h0' hd' => hsrc _ _ dd h0' hd')
    (fun _ dd h0' hd' => hag _ _ dd h0' hd')
    (((if isForward then (1 : ℤ) else -1) *
      (y - (if isForward then (0 : ℤ) else h - 1))).toNat)
  exact ⟨(hh.1 d h0 hd).1, (hh.1 d h0 hd).2⟩

end ScanlineLemmas

/-- C7 (amended): each scanline sweep seeds its first row/column as a copy
of the source costs and then computes
`L[p,d] = (C_src[p,d] + min(L[p0,d], L[p0,d−1]+P1, L[p0,d+1]+P1, min_k L[p0,k]+P2))/2`
with `Large_Float` pads, `P1`/`P2` selected by the `so_tso` table on `d1`
and `d2`, where `d2` is the right-image distance at the most recent
in-range candidate column (initialised to `d1`), **not** re-defaulted to
`d1` at each out-of-range candidate; the four sweeps run in the order
L→R (C1→C0), R→L (C0→C1), U→D (C1→C0), D→U (C0→C1), so the optimized
volume ends in `C1`.  Stated for source volumes bounded by `Large_Float`
(true of every reachable cost volume). -/
theorem claim_C7_scanline_amended (imgL imgR : Img) (w h minD maxD : ℤ)
    (p1 p2 : ℚ) (tso : ℤ) (src : Vol)
    (hn : 0 < maxD - minD)
    (hsrc : ∀ y x d : ℤ, 0 ≤ d → d < maxD - minD → src y x d ≤ Large_Float) :
    ∀ y x d : ℤ, 0 ≤ d → d < maxD - minD →
      scanlineOptimize imgL imgR w h minD maxD p1 p2 tso src y x d =
        sweepUDSpec imgL imgR w h minD maxD p1 p2 tso false
          (sweepUDSpec imgL imgR w h minD maxD p1 p2 tso true
            (sweepLRSpec imgL imgR w minD maxD p1 p2 tso false
              (sweepLRSpec imgL imgR w minD maxD p1 p2 tso true src))) y x d := by
  have hdr : 0 < (maxD - minD).toNat := by omega
  have hcast : (((maxD - minD).toNat : ℕ) : ℤ) = maxD - minD := by omega
  have hsrc' : ∀ y x d : ℤ, 0 ≤ d → d < (((maxD - minD).toNat : ℕ) : ℤ) →
      src y x d ≤ Large_Float := by
    intro y x d h0 hd
    exact hsrc y x d h0 (by omega)
  have h1 := sweepLR_eq_spec imgL imgR w minD maxD p1 p2 tso true src src hdr hsrc'
    (fun _ _ _ _ _ => rfl)
  have h2 := sweepLR_eq_spec imgL imgR w minD maxD p1 p2 tso false
    (sweepLR imgL imgR w minD maxD p1 p2 tso true src)
    (sweepLRSpec imgL imgR w minD maxD p1 p2 tso true src) hdr
    (fun y x d h0 hd => (h1 y x d h0 hd).2)
    (fun y x d h0 hd => (h1 y x d h0 hd).1)
  have h3 := sweepUD_eq_spec imgL imgR w h minD maxD p1 p2 tso true
    (sweepLR imgL imgR w minD maxD p1 p2 tso false
      (sweepLR imgL imgR w minD maxD p1 p2 tso true src))
    (sweepLRSpec imgL imgR w minD maxD p1 p2 tso false
      (sweepLRSpec imgL imgR w minD maxD p1 p2 tso true src)) hdr
    (fun y x d h0 hd => (h2 y x d h0 hd).2)
    (fun y x d h0 hd => (h2 y x d h0 hd).1)
  have h4 := sweepUD_eq_spec imgL imgR w h minD maxD p1 p2 tso false
    (sweepUD imgL imgR w h minD maxD p1 p2 tso true
      (sweepLR imgL imgR w minD maxD p1 p2 tso false
        (sweepLR imgL imgR w minD maxD p1 p2 tso true src)))
    (sweepUDSpec imgL imgR w h minD maxD p1 p2 tso true
      (sweepLRSpec imgL imgR w minD maxD p1 p2 tso false
        (sweepLRSpec imgL imgR w minD maxD p1 p2 tso true src))) hdr
    (fun y x d h0 hd => (h3 y x d h0 hd).2)
    (fun y x d h0 hd => (h3 y x d h0 hd).1)
  intro y x d h0 hd
  exact (h4 y x d h0 (by omega)).1

/-- Witness for the amended C7 at a concrete configuration and pixel. -/
theorem claim_C7_witness :
    scanlineOptimize flatGrey flatGrey 1 1 0 1 1 3 15 (fun _ _ _ => 1) 0 0 0 =
      sweepUDSpec flatGrey flatGrey 1 1 0 1 1 3 15 false
        (sweepUDSpec flatGrey flatGrey 1 1 0 1 1 3 15 true
          (sweepLRSpec flatGrey flatGrey 1 0 1 1 3 15 false
            (sweepLRSpec flatGrey flatGrey 1 0 1 1 3 15 true
              (fun _ _ _ => 1)))) 0 0 0 :=
  claim_C7_scanline_amended flatGrey flatGrey 1 1 0 1 1 3 15 (fun _ _ _ => 1)
    (by norm_num)
    (fun _ _ _ _ _ => by norm_num [Large_Float])
    0 0 0 (by norm_num) (by norm_num)

/-- The right image of the C7 counterexample: column `0` black, the rest
a colour at distance `20` from it. -/
def ceImgR : Img := fun _ x => if x = 0 then ⟨0, 0, 0⟩ else ⟨20, 20, 20⟩

/-- The source volume of the C7 counterexample. -/
def ceSrc : Vol := fun _ x d => if x = 0 ∧ d = 0 then 0 else 8

/-- Counterexample to C7 as stated: in the forward L→R sweep on a `4 × 1`
image with `disp_range = 3`, at the second path position and candidate
`d = 1` the column `xr = 0` is out of range; the code keeps the stale
right-image distance `20 ≥ tso` (quartered penalties, giving `33/8`),
while the claim's rule resets `d2` to `d1 = 0 < tso` (full penalties,
giving `9/2`). -/
theorem claim_C7_counterexample :
    sweepLR flatGrey ceImgR 4 0 3 1 3 15 true ceSrc 0 1 1 = 33/8 ∧
    sweepLRClaim flatGrey ceImgR 4 0 3 1 3 15 true ceSrc 0 1 1 = 9/2 ∧
    sweepLR flatGrey ceImgR 4 0 3 1 3 15 true ceSrc 0 1 1 ≠
      sweepLRClaim flatGrey ceImgR 4 0 3 1 3 15 true ceSrc 0 1 1 := by
  have hA : sweepLR flatGrey ceImgR 4 0 3 1 3 15 true ceSrc 0 1 1 = 33/8 := by
    norm_num [sweepLR, lrPath, soPathGen, soStep, soStepGo, soPad, soPenalty,
      pathMinInit, ceImgR, ceSrc, flatGrey, ColorDist, Large_Float,
      show Int.toNat 3 = 3 from rfl, List.range_succ, List.foldl_append,
      List.foldl_cons, List.foldl_nil, min_def]
  have hB : sweepLRClaim flatGrey ceImgR 4 0 3 1 3 15 true ceSrc 0 1 1 = 9/2 := by
    norm_num [sweepLRClaim, lrPathClaim, soPathSpecGen, soStepSpec, d2ClaimAt,
      minRow, soPad, soPenalty, ceImgR, ceSrc, flatGrey, ColorDist, Large_Float,
      show Int.toNat 3 = 3 from rfl, List.range_succ, List.foldl_append,
      List.foldl_cons, List.foldl_nil, min_def]
  refine ⟨hA, hB, ?_⟩
  rw [hA, hB]
  norm_num

/-! ### Lifecycle (`ADCensusStereo.cpp:23-78`, claim C10) -/

/-- The stateful fields of `ADCensusStereo` that the lifecycle claims
mention. -/
structure ADStereoState where
  width : ℤ
  height : ℤ
  option : ADCensusOption
  is_initialized : Bool

/-- Modelled from the spec: `CostComputer::Initialize` (file
`cost_computer.cpp` is absent from the sources); per the spec it fails
only on allocation failure, and allocation is modelled as succeeding. -/
def costComputerInitOk (w h minD maxD : ℤ) : Bool := true

/-- `CrossAggregator::Initialize` (`cross_aggregator.cpp:20-59`) with the
allocations modelled as succeeding. -/
def aggregatorInitOk (w h minD maxD : ℤ) : Bool :=
  decide (0 < w * h) && decide (0 < maxD - minD)

/-- `MultiStepRefiner::Initialize` (`multistep_refiner.cpp:24-37`). -/
def refinerInitOk (w h : ℤ) : Bool := decide (0 < w) && decide (0 < h)

/-- `ADCensusStereo::Initialize` (`ADCensusStereo.cpp:23-69`).  `width_`,
`height_` and `option_` are overwritten before any validation; the two
early validation failures return without touching `is_initialized_`. -/
def adInitialize (s : ADStereoState) (w h : ℤ) (opt : ADCensusOption) :
    Bool × ADStereoState :=
  let s1 : ADStereoState :=
    { s with width := w, height := h, option := opt }
  if w ≤ 0 ∨ h ≤ 0 then (false, s1)
  else if opt.max_disparity - opt.min_disparity ≤ 0 then (false, s1)
  else if ¬ costComputerInitOk w h opt.min_disparity opt.max_disparity then
    (false, { s1 with is_initialized := false })
  else if ¬ aggregatorInitOk w h opt.min_disparity opt.max_disparity then
    (false, { s1 with is_initialized := false })
  else if ¬ refinerInitOk w h then
    (false, { s1 with is_initialized := false })
  else (true, { s1 with is_initialized := true })

/-- The guard of `ADCensusStereo::Match` (`ADCensusStereo.cpp:71-78`):
`Match` returns `false` iff the instance is uninitialised or one of the
three buffer pointers is null; otherwise it runs the pipeline and
returns `true`. -/
def adMatchGuard (s : ADStereoState)
    (img_left_null img_right_null disp_left_null : Bool) : Bool :=
  s.is_initialized && !img_left_null && !img_right_null && !disp_left_null

/-- The shipped configuration defaults. -/
def defaultOption : ADCensusOption :=
  { min_disparity := 0, max_disparity := 64, lambda_ad := 10, lambda_census := 30,
    cross_L1 := 34, cross_L2 := 17, cross_t1 := 20, cross_t2 := 6,
    so_p1 := 1, so_p2 := 3, so_tso := 15, irv_ts := 20, irv_th := 2/5,
    lrcheck_thres := 1, do_lr_check := true, do_filling := true,
    do_discontinuity_adjustment := false }

lemma adInitialize_true_state (s : ADStereoState) (w h : ℤ) (opt : ADCensusOption)
    (hok : (adInitialize s w h opt).1 = true) :
    (adInitialize s w h opt).2.is_initialized = true := by
  unfold adInitialize at *
  split_ifs at * <;> simp_all

/-- C10: `Initialize` is not atomic on failure.  It overwrites `width_`,
`height_` and `option_` before validating them, and the early validation
failures do not clear `is_initialized_`; so after a successful
initialization, re-initializing with invalid dimensions or an empty
disparity range returns `false` yet leaves `is_initialized_` set, and a
subsequent `Match` call passes the initialization guard while the instance
carries the newly stored invalid dimensions. -/
theorem claim_C10_initialize_not_atomic
    (s : ADStereoState) (w h : ℤ) (opt : ADCensusOption)
    (w' h' : ℤ) (opt' : ADCensusOption)
    (hfirst : (adInitialize s w h opt).1 = true)
    (hbad : w' ≤ 0 ∨ h' ≤ 0 ∨ opt'.max_disparity - opt'.min_disparity ≤ 0) :
    (adInitialize (adInitialize s w h opt).2 w' h' opt').1 = false ∧
    (adInitialize (adInitialize s w h opt).2 w' h' opt').2.is_initialized = true ∧
    (adInitialize (adInitialize s w h opt).2 w' h' opt').2.width = w' ∧
    (adInitialize (adInitialize s w h opt).2 w' h' opt').2.height = h' ∧
    (adInitialize (adInitialize s w h opt).2 w' h' opt').2.option = opt' ∧
    adMatchGuard (adInitialize (adInitialize s w h opt).2 w' h' opt').2
      false false false = true := by
  have hinit := adInitialize_true_state s w h opt hfirst
  set s1 := (adInitialize s w h opt).2 with hs1
  by_cases hdim : w' ≤ 0 ∨ h' ≤ 0
  · simp [adInitialize, hdim, adMatchGuard, hinit]
  · have hrange : opt'.max_disparity - opt'.min_disparity ≤ 0 := by tauto
    simp [adInitialize, hdim, hrange, adMatchGuard, hinit]

/-- Witness for C10: initialize successfully at `3 × 3` with the default
options, then re-initialize with `width = 0`; the call fails but the guard
of `Match` still passes. -/
theorem claim_C10_witness :
    (adInitialize ⟨0, 0, defaultOption, false⟩ 3 3 defaultOption).1 = true ∧
    ((0:ℤ) ≤ 0 ∨ (3:ℤ) ≤ 0 ∨
      defaultOption.max_disparity - defaultOption.min_disparity ≤ 0) ∧
    ((adInitialize (adInitialize ⟨0, 0, defaultOption, false⟩ 3 3 defaultOption).2
        0 3 defaultOption).1 = false ∧
     (adInitialize (adInitialize ⟨0, 0, defaultOption, false⟩ 3 3 defaultOption).2
        0 3 defaultOption).2.is_initialized = true ∧
     (adInitialize (adInitialize ⟨0, 0, defaultOption, false⟩ 3 3 defaultOption).2
        0 3 defaultOption).2.width = 0 ∧
     (adInitialize (adInitialize ⟨0, 0, defaultOption, false⟩ 3 3 defaultOption).2
        0 3 defaultOption).2.height = 3 ∧
     (adInitialize (adInitialize ⟨0, 0, defaultOption, false⟩ 3 3 defaultOption).2
        0 3 defaultOption).2.option = defaultOption ∧
     adMatchGuard (adInitialize (adInitialize ⟨0, 0, defaultOption, false⟩ 3 3
        defaultOption).2 0 3 defaultOption).2 false false false = true) :=
  ⟨by decide, Or.inl (by norm_num),
   claim_C10_initialize_not_atomic ⟨0, 0, defaultOption, false⟩ 3 3 defaultOption
     0 3 defaultOption (by decide) (Or.inl (by norm_num))⟩

/-! ### The remaining refinement steps and the full pipeline (claim C1) -/

/-- `MultiStepRefiner::EdgeDetect` (`multistep_refiner.cpp:355-374`): a
Sobel edge mask over the disparity map; the buffer is zeroed first, and
only the interior `1 ≤ y < h−1`, `1 ≤ x < w−1` is written. -/
def edgeDetect (disp : DispMap) (w h : ℤ) (thres : ℚ) : ℤ → ℤ → Bool :=
  fun y x =>
    if 1 ≤ y ∧ y < h - 1 ∧ 1 ≤ x ∧ x < w - 1 then
      let gx := (-(disp (y-1) (x-1)) + disp (y-1) (x+1)) +
        (-(2 * disp y (x-1)) + 2 * disp y (x+1)) +
        (-(disp (y+1) (x-1)) + disp (y+1) (x+1))
      let gy := (-(disp (y-1) (x-1)) - 2 * disp (y-1) x - disp (y-1) (x+1)) +
        (disp (y+1) (x-1) + 2 * disp (y+1) x + disp (y+1) (x+1))
      decide (|gx| + |gy| > thres)
    else false

/-- The interior pixels visited by `DepthDiscontinuityAdjustment`
(`for (y = 0..h) for (x = 1..w-1)`), in scan order. -/
def ddaPixels (w h : ℤ) : List (ℤ × ℤ) :=
  (List.range h.toNat).flatMap
    (fun y : ℕ => (List.range (w - 2).toNat).map
      (fun i : ℕ => ((i : ℤ) + 1, (y : ℤ))))

/-- One pixel of `MultiStepRefiner::DepthDiscontinuityAdjustment`
(`multistep_refiner.cpp:324-351`): at an edge pixel with a valid
disparity, compare the pixel's cost at its own rounded disparity (the
source indexes the slice by `lround(d)` itself, not `lround(d) −
min_disparity`) with each horizontal neighbour's cost at that
neighbour's rounded disparity, and adopt the disparity of the cheaper
neighbour.  The map is mutated in place, so later pixels see earlier
writes. -/
def ddaStep (cost : Vol) (edge : ℤ → ℤ → Bool)
    (D : DispMap) (p : ℤ × ℤ) : DispMap :=
  let x := p.1
  let y := p.2
  if edge y x then
    let d := D y x
    if d ≠ Invalid_Float then
      let c0 := cost y x (qround d)
      let dl := D y (x - 1)
      let st1 : ℚ × ℚ :=
        if dl ≠ Invalid_Float ∧ cost y (x - 1) (qround dl) < c0
        then (dl, cost y (x - 1) (qround dl)) else (d, c0)
      let dr := D y (x + 1)
      let st2 : ℚ × ℚ :=
        if dr ≠ Invalid_Float ∧ cost y (x + 1) (qround dr) < st1.2
        then (dr, cost y (x + 1) (qround dr)) else st1
      setDL D y x st2.1
    else D
  else D

/-- `MultiStepRefiner::DepthDiscontinuityAdjustment`
(`multistep_refiner.cpp:309-353`): early return on an empty disparity
range, then the Sobel mask (threshold `5`) computed from the map as it
stands, then the in-place per-pixel adjustment. -/
def depthDiscontinuityAdjustment (cost : Vol) (minD maxD w h : ℤ)
    (D : DispMap) : DispMap :=
  if maxD - minD ≤ 0 then D
  else
    let edge := edgeDetect D w h 5
    (ddaPixels w h).foldl (ddaStep cost edge) D

/-- Insert into a `≤`-sorted list of rationals. -/
def insertSorted (a : ℚ) : List ℚ → List ℚ
  | [] => [a]
  | b :: t => if a ≤ b then a :: b :: t else b :: insertSorted a t

/-- Insertion sort on rationals. -/
def sortQ : List ℚ → List ℚ
  | [] => []
  | a :: t => insertSorted a (sortQ t)

/-- The 3×3 window of map values around `(y, x)`, clipped to the image. -/
def window3 (m : DispMap) (w h : ℤ) (y x : ℤ) : List ℚ :=
  ((List.range 3).flatMap (fun dy : ℕ =>
    (List.range 3).map (fun dx : ℕ => ((dy : ℤ) - 1, (dx : ℤ) - 1)))).filterMap
    (fun rc =>
      if 0 ≤ y + rc.1 ∧ y + rc.1 < h ∧ 0 ≤ x + rc.2 ∧ x + rc.2 < w
      then some (m (y + rc.1) (x + rc.2)) else none)

/-- Modelled from the spec: `adcensus_util::MedianFilter` with window 3
(file `adcensus_util.cpp` is absent from the sources); per the spec it is
a "3×3 median on `DL` in place (ignoring `Invalid_Float` semantics — the
filter operates on raw values)" with double-buffered reads, so each output
pixel is the middle element of its sorted clipped window of input
values. -/
def medianFilter3 (m : DispMap) (w h : ℤ) : DispMap :=
  fun y x =>
    if 0 ≤ y ∧ y < h ∧ 0 ≤ x ∧ x < w then
      let vals := sortQ (window3 m w h y x)
      vals.getD (vals.length / 2) 0
    else m y x

/-- `MultiStepRefiner::Refine` (`multistep_refiner.cpp:62-90`): the guard,
the four optional steps in order, then the always-run median filter. -/
def refine (imgL : Img) (rayPos : ℕ → ℕ → ℤ → ℤ → ℤ × ℤ) (cost : Vol)
    (arms : ℤ → ℤ → CrossArm) (w h minD maxD : ℤ) (irv_ts : ℤ)
    (irv_th lrthres : ℚ) (doLR doVote doInterp doAdjust : Bool)
    (DL DR : DispMap) : DispMap :=
  if w ≤ 0 ∨ h ≤ 0 then DL
  else
    let st0 : RefinerState := ⟨DL, [], []⟩
    let st1 := if doLR then outlierDetection w h DR lrthres st0 else st0
    let st2 := if doVote then iterativeRegionVoting minD maxD irv_ts irv_th arms st1
               else st1
    let st3 := if doInterp then properInterpolation imgL rayPos w h minD maxD st2
               else st2
    let D4 := if doAdjust
              then depthDiscontinuityAdjustment cost minD maxD w h st3.dispLeft
              else st3.dispLeft
    medianFilter3 D4 w h

/-- The disparity map written out by a successful `ADCensusStereo::Match`
(`ADCensusStereo.cpp:80-134` with `MultiStepRefine`, lines 179-188, which
passes `option_.do_filling` for both `do_region_voting` and
`do_interpolating`).  The initial cost volume `C0` models the output of
the cost computer (file `cost_computer.cpp` is absent from the sources),
`rayPos` models the floating-point ray geometry of the interpolator, and
`DL0`/`DR0` model the freshly allocated (uninitialised) disparity
buffers, which the pickers leave untouched when the disparity range is
empty. -/
def adMatch (imgL imgR : Img) (rayPos : ℕ → ℕ → ℤ → ℤ → ℤ × ℤ)
    (w h : ℤ) (opt : ADCensusOption) (C0 : Vol) (DL0 DR0 : DispMap) : DispMap :=
  let arms := buildArms imgL w h opt.cross_L1 opt.cross_L2 opt.cross_t1 opt.cross_t2
  let aggVol := aggregate arms opt.min_disparity opt.max_disparity 4 C0
  let soVol := scanlineOptimize imgL imgR w h opt.min_disparity opt.max_disparity
    opt.so_p1 opt.so_p2 opt.so_tso aggVol
  let DL := if 0 < opt.max_disparity - opt.min_disparity
            then computeDisparity opt.min_disparity opt.max_disparity soVol else DL0
  let DR := if 0 < opt.max_disparity - opt.min_disparity
            then computeDisparityRight w opt.min_disparity opt.max_disparity soVol
            else DR0
  refine imgL rayPos soVol arms w h opt.min_disparity opt.max_disparity
    opt.irv_ts opt.irv_th opt.lrcheck_thres
    opt.do_lr_check opt.do_filling opt.do_filling opt.do_discontinuity_adjustment
    DL DR

/-- The range predicate of the amended claim C1: a final disparity entry
is the invalid sentinel, the value-initialised fill `0`, or lies strictly
inside `(min_disparity − 1/2, max_disparity − 1/2)`. -/
def C1Ok (minD maxD : ℤ) (v : ℚ) : Prop :=
  v = Invalid_Float ∨ v = 0 ∨
    ((minD : ℚ) - 1/2 < v ∧ v < (maxD : ℚ) - 1/2)

section RangeLemmas

lemma foldl_preserve {α β : Type} (P : α → Prop) (f : α → β → α) :
    ∀ (l : List β) (a : α), P a → (∀ a b, P a → P (f a b)) → P (l.foldl f a) := by
  intro l
  induction l with
  | nil => intro a ha _; exact ha
  | cons b t ih =>
    intro a ha hstep
    exact ih (f a b) (hstep a b ha) hstep

lemma armSum_le_armSum {α : Type} [OrderedAddCommMonoid α] (a b : ℕ)
    (f g : ℤ → α) (h : ∀ t, f t ≤ g t) : armSum a b f ≤ armSum a b g :=
  List.sum_le_sum (fun i _ => h _)

lemma armSum_const {α : Type} [AddCommMonoid α] (a b : ℕ) (c : α) :
    armSum a b (fun _ => c) = (a + b + 1) • c := by
  simp [armSum, List.map_const']

lemma armSum_constQ (a b : ℕ) (c : ℚ) :
    armSum a b (fun _ => c) = ((a + b + 1 : ℕ) : ℚ) * c := by
  rw [armSum_const, nsmul_eq_mul]

lemma armSum_one_int (a b : ℕ) :
    armSum a b (fun _ => (1 : ℤ)) = ((a + b + 1 : ℕ) : ℤ) := by
  rw [armSum_const, nsmul_eq_mul, mul_one]

lemma armSum_nonnegQ (a b : ℕ) (f : ℤ → ℚ) (h : ∀ t, 0 ≤ f t) :
    0 ≤ armSum a b f := by
  have := armSum_le_armSum a b (fun _ => (0 : ℚ)) f h
  rwa [armSum_constQ, mul_zero] at this

lemma armSum_mulQ (a b : ℕ) (c : ℚ) (f : ℤ → ℚ) :
    armSum a b (fun t => c * f t) = c * armSum a b f := by
  simp only [armSum, ← List.sum_map_mul_left, List.map_map, Function.comp_def]

lemma supCountPass1_pos (arms : ℤ → ℤ → CrossArm) (hf : Bool) (y x : ℤ) :
    1 ≤ supCountPass1 arms hf y x := by
  cases hf <;>
    simp only [supCountPass1, if_true, if_false, Bool.false_eq_true,
      armSum_one_int] <;>
    push_cast <;> omega

lemma supCount_pos (arms : ℤ → ℤ → CrossArm) (hf : Bool) (y x : ℤ) :
    1 ≤ supCount arms hf y x := by
  cases hf with
  | false =>
    simp only [supCount, Bool.false_eq_true, if_false]
    calc (1 : ℤ) ≤ (((arms y x).left + (arms y x).right + 1 : ℕ) : ℤ) := by
          push_cast; omega
      _ = armSum (arms y x).left (arms y x).right (fun _ => (1 : ℤ)) :=
          (armSum_one_int _ _).symm
      _ ≤ _ := armSum_le_armSum _ _ _ _
          (fun t => supCountPass1_pos arms false y (x + t))
  | true =>
    simp only [supCount, if_true]
    calc (1 : ℤ) ≤ (((arms y x).top + (arms y x).bottom + 1 : ℕ) : ℤ) := by
          push_cast; omega
      _ = armSum (arms y x).top (arms y x).bottom (fun _ => (1 : ℤ)) :=
          (armSum_one_int _ _).symm
      _ ≤ _ := armSum_le_armSum _ _ _ _
          (fun t => supCountPass1_pos arms true (y + t) x)

lemma aggPass2_aggPass1_bound (arms : ℤ → ℤ → CrossArm) (hf : Bool)
    (S : ℤ → ℤ → ℚ) (hS : ∀ y x, 0 ≤ S y x ∧ S y x ≤ 2) (y x : ℤ) :
    0 ≤ aggPass2 arms hf (aggPass1 arms hf S) y x ∧
      aggPass2 arms hf (aggPass1 arms hf S) y x ≤
        2 * ((supCount arms hf y x : ℤ) : ℚ) := by
  have hones : (fun _ : ℤ => ((1 : ℤ) : ℚ)) = (fun _ : ℤ => (1 : ℚ)) := rfl
  have hP1 : ∀ y' x', 0 ≤ aggPass1 arms hf S y' x' ∧
      aggPass1 arms hf S y' x' ≤ 2 * ((supCountPass1 arms hf y' x' : ℤ) : ℚ) := by
    intro y' x'
    cases hf with
    | false =>
      simp only [aggPass1, supCountPass1, Bool.false_eq_true, if_false]
      refine ⟨armSum_nonnegQ _ _ _ (fun t => (hS _ _).1), ?_⟩
      rw [armSum_cast, hones, armSum_constQ]
      calc armSum (arms y' x').top (arms y' x').bottom (fun t => S (y' + t) x')
          ≤ armSum (arms y' x').top (arms y' x').bottom (fun _ => (2 : ℚ)) :=
            armSum_le_armSum _ _ _ _ (fun t => (hS _ _).2)
        _ = 2 * ((((arms y' x').top + (arms y' x').bottom + 1 : ℕ) : ℚ) * 1) := by
            rw [armSum_constQ]; ring
    | true =>
      simp only [aggPass1, supCountPass1, if_true]
      refine ⟨armSum_nonnegQ _ _ _ (fun t => (hS _ _).1), ?_⟩
      rw [armSum_cast, hones, armSum_constQ]
      calc armSum (arms y' x').left (arms y' x').right (fun t => S y' (x' + t))
          ≤ armSum (arms y' x').left (arms y' x').right (fun _ => (2 : ℚ)) :=
            armSum_le_armSum _ _ _ _ (fun t => (hS _ _).2)
        _ = 2 * ((((arms y' x').left + (arms y' x').right + 1 : ℕ) : ℚ) * 1) := by
            rw [armSum_constQ]; ring
  cases hf with
  | false =>
    simp only [aggPass2, Bool.false_eq_true, if_false]
    refine ⟨armSum_nonnegQ _ _ _ (fun t => (hP1 _ _).1), ?_⟩
    have hcnt : ((supCount arms false y x : ℤ) : ℚ) =
        armSum (arms y x).left (arms y x).right
          (fun t => ((supCountPass1 arms false y (x + t) : ℤ) : ℚ)) := by
      simp only [supCount, Bool.false_eq_true, if_false]
      rw [armSum_cast]
    rw [hcnt, ← armSum_mulQ]
    exact armSum_le_armSum _ _ _ _ (fun t => (hP1 _ _).2)
  | true =>
    simp only [aggPass2, if_true]
    refine ⟨armSum_nonnegQ _ _ _ (fun t => (hP1 _ _).1), ?_⟩
    have hcnt : ((supCount arms true y x : ℤ) : ℚ) =
        armSum (arms y x).top (arms y x).bottom
          (fun t => ((supCountPass1 arms true (y + t) x : ℤ) : ℚ)) := by
      simp only [supCount, if_true]
      rw [armSum_cast]
    rw [hcnt, ← armSum_mulQ]
    exact armSum_le_armSum _ _ _ _ (fun t => (hP1 _ _).2)

/-- The bound invariant threaded through the cost stages. -/
def VolIn02 (vol : Vol) : Prop := ∀ y x d, 0 ≤ vol y x d ∧ vol y x d ≤ 2

lemma aggregateInArms_pres (arms : ℤ → ℤ → CrossArm) (minD maxD d : ℤ)
    (hf : Bool) (vol : Vol) (hv : VolIn02 vol) :
    VolIn02 (aggregateInArms arms minD maxD d hf vol) := by
  intro y x dd
  unfold aggregateInArms
  by_cases hg : d < minD ∨ maxD ≤ d ∨ maxD - minD ≤ 0
  · rw [if_pos hg]; exact hv y x dd
  · rw [if_neg hg]
    by_cases hdd : dd = d - minD
    · simp only [if_pos hdd]
      have hcnt : (0 : ℚ) < ((supCount arms hf y x : ℤ) : ℚ) := by
        have := supCount_pos arms hf y x
        exact_mod_cast lt_of_lt_of_le Int.zero_lt_one (by exact_mod_cast this)
      have hb := aggPass2_aggPass1_bound arms hf
        (fun y' x' => vol y' x' (d - minD)) (fun y' x' => hv y' x' (d - minD)) y x
      constructor
      · exact div_nonneg hb.1 (le_of_lt hcnt)
      · rw [div_le_iff hcnt]
        linarith [hb.2]
    · simp only [if_neg hdd]
      exact hv y x dd

lemma aggregate_pres (arms : ℤ → ℤ → CrossArm) (minD maxD : ℤ) (numIters : ℕ)
    (costInit : Vol) (hv : VolIn02 costInit) :
    VolIn02 (aggregate arms minD maxD numIters costInit) := by
  unfold aggregate
  have := foldl_preserve (fun st : Vol × Bool => VolIn02 st.1)
    (fun (st : Vol × Bool) _ =>
      (((List.range (maxD - minD).toNat).foldl
        (fun v (dIdx : ℕ) =>
          aggregateInArms arms minD maxD (minD + (dIdx : ℤ)) st.2 v) st.1),
       !st.2))
    (List.range numIters) (costInit, true) hv ?_
  · exact this
  · intro st _ hst
    exact foldl_preserve VolIn02 _ (List.range (maxD - minD).toNat) st.1 hst
      (fun v i hvv => aggregateInArms_pres arms minD maxD (minD + (i : ℤ)) st.2 v hvv)

lemma soPenalty_nonneg (p : ℚ) (hp : 0 ≤ p) (tso d1 d2 : ℤ) :
    0 ≤ soPenalty p tso d1 d2 := by
  unfold soPenalty
  split_ifs <;> linarith

/-- The per-row bound invariant of the scanline recurrence. -/
def Row02 (r : ℤ → ℚ) : Prop := ∀ k, 0 ≤ r k ∧ r k ≤ 2

lemma soPad_nonneg (dr : ℕ) (prev : ℤ → ℚ) (hprev : ∀ k, 0 ≤ prev k) (k : ℤ) :
    0 ≤ soPad dr prev k := by
  unfold soPad
  split_ifs
  · norm_num [Large_Float]
  · exact hprev k

lemma soStepGo_pres (w minD : ℤ) (p1 p2 : ℚ) (tso : ℤ) (x : ℤ) (d1 : ℤ)
    (d2At : ℤ → ℤ) (dr : ℕ) (srcAt prev : ℤ → ℚ) (mprev : ℚ)
    (hp1 : 0 ≤ p1) (hp2 : 0 ≤ p2) (hsrc : ∀ d', 0 ≤ srcAt d' ∧ srcAt d' ≤ 2)
    (hprev : Row02 prev) (hm : 0 ≤ mprev) (st : ℤ × ℚ × (ℤ → ℚ)) (dn : ℕ)
    (hst : (∀ k, 0 ≤ st.2.2 k ∧ st.2.2 k ≤ 2) ∧ 0 ≤ st.2.1) :
    (∀ k, 0 ≤ (soStepGo w minD p1 p2 tso x d1 d2At dr srcAt prev mprev st dn).2.2 k ∧
        (soStepGo w minD p1 p2 tso x d1 d2At dr srcAt prev mprev st dn).2.2 k ≤ 2) ∧
      0 ≤ (soStepGo w minD p1 p2 tso x d1 d2At dr srcAt prev mprev st dn).2.1 := by
  unfold soStepGo
  dsimp only
  set d2 := if 0 < x - (dn : ℤ) - minD ∧ x - (dn : ℤ) - minD < w - 1
    then d2At (x - (dn : ℤ) - minD) else st.1 with hd2
  have hP1 := soPenalty_nonneg p1 hp1 tso d1 d2
  have hP2 := soPenalty_nonneg p2 hp2 tso d1 d2
  have hpad1 := soPad_nonneg dr prev (fun k => (hprev k).1) ((dn : ℤ) - 1)
  have hpad2 := soPad_nonneg dr prev (fun k => (hprev k).1) ((dn : ℤ) + 1)
  have hmin_lb : 0 ≤ min (min (prev (dn : ℤ)) (soPad dr prev ((dn : ℤ) - 1) +
      soPenalty p1 tso d1 d2)) (min (soPad dr prev ((dn : ℤ) + 1) +
      soPenalty p1 tso d1 d2) (mprev + soPenalty p2 tso d1 d2)) := by
    apply le_min (le_min (hprev _).1 (by linarith)) (le_min (by linarith) (by linarith))
  have hmin_ub : min (min (prev (dn : ℤ)) (soPad dr prev ((dn : ℤ) - 1) +
      soPenalty p1 tso d1 d2)) (min (soPad dr prev ((dn : ℤ) + 1) +
      soPenalty p1 tso d1 d2) (mprev + soPenalty p2 tso d1 d2)) ≤ 2 :=
    le_trans (le_trans (min_le_left _ _) (min_le_left _ _)) (hprev _).2
  have hcost_lb : 0 ≤ (srcAt (dn : ℤ) + min (min (prev (dn : ℤ))
      (soPad dr prev ((dn : ℤ) - 1) + soPenalty p1 tso d1 d2))
      (min (soPad dr prev ((dn : ℤ) + 1) + soPenalty p1 tso d1 d2)
        (mprev + soPenalty p2 tso d1 d2))) / 2 := by
    apply div_nonneg _ (by norm_num)
    linarith [(hsrc (dn : ℤ)).1]
  have hcost_ub : (srcAt (dn : ℤ) + min (min (prev (dn : ℤ))
      (soPad dr prev ((dn : ℤ) - 1) + soPenalty p1 tso d1 d2))
      (min (soPad dr prev ((dn : ℤ) + 1) + soPenalty p1 tso d1 d2)
        (mprev + soPenalty p2 tso d1 d2))) / 2 ≤ 2 := by
    rw [div_le_iff (by norm_num : (0:ℚ) < 2)]
    linarith [(hsrc (dn : ℤ)).2]
  refine ⟨?_, le_min hst.2 hcost_lb⟩
  intro k
  by_cases hk : k = (dn : ℤ)
  · rw [if_pos hk]
    exact ⟨hcost_lb, hcost_ub⟩
  · rw [if_neg hk]
    exact hst.1 k

lemma soStep_pres (w minD : ℤ) (p1 p2 : ℚ) (tso : ℤ) (x : ℤ) (d1 : ℤ)
    (d2At : ℤ → ℤ) (dr : ℕ) (srcAt prev : ℤ → ℚ) (mprev : ℚ)
    (hp1 : 0 ≤ p1) (hp2 : 0 ≤ p2) (hsrc : ∀ d', 0 ≤ srcAt d' ∧ srcAt d' ≤ 2)
    (hprev : Row02 prev) (hm : 0 ≤ mprev) :
    Row02 (soStep w minD p1 p2 tso x d1 d2At dr srcAt prev mprev).1 ∧
      0 ≤ (soStep w minD p1 p2 tso x d1 d2At dr srcAt prev mprev).2 := by
  unfold soStep
  dsimp only
  have := foldl_preserve
    (fun st : ℤ × ℚ × (ℤ → ℚ) => (∀ k, 0 ≤ st.2.2 k ∧ st.2.2 k ≤ 2) ∧ 0 ≤ st.2.1)
    (soStepGo w minD p1 p2 tso x d1 d2At dr srcAt prev mprev)
    (List.range dr) (d1, Large_Float, fun _ => (0 : ℚ))
    ⟨fun k => by norm_num, by norm_num [Large_Float]⟩
    (fun a b ha => soStepGo_pres w minD p1 p2 tso x d1 d2At dr srcAt prev mprev
      hp1 hp2 hsrc hprev hm a b ha)
  exact ⟨this.1, this.2⟩

lemma pathMinInit_nonneg (L0 : ℤ → ℚ) (dr : ℕ) (hL0 : ∀ k, 0 ≤ L0 k) :
    0 ≤ pathMinInit L0 dr := by
  unfold pathMinInit
  apply foldl_preserve (fun m : ℚ => 0 ≤ m) _ _ _ (by norm_num [Large_Float])
  intro m i hmi
  apply le_min hmi
  split_ifs
  · norm_num [Large_Float]
  · exact hL0 _

lemma soPathGen_pres (w minD : ℤ) (p1 p2 : ℚ) (tso : ℤ) (dr : ℕ) (seed : ℤ → ℚ)
    (X D1 : ℕ → ℤ) (D2At : ℕ → ℤ → ℤ) (SRC : ℕ → ℤ → ℚ)
    (hp1 : 0 ≤ p1) (hp2 : 0 ≤ p2) (hseed : Row02 seed)
    (hSRC : ∀ j d', 0 ≤ SRC j d' ∧ SRC j d' ≤ 2) :
    ∀ j : ℕ, Row02 (soPathGen w minD p1 p2 tso dr seed X D1 D2At SRC j).1 ∧
      0 ≤ (soPathGen w minD p1 p2 tso dr seed X D1 D2At SRC j).2 := by
  intro j
  induction j with
  | zero =>
    exact ⟨hseed, pathMinInit_nonneg seed dr (fun k => (hseed k).1)⟩
  | succ j ih =>
    show Row02 (soStep w minD p1 p2 tso (X (j + 1)) (D1 (j + 1)) (D2At (j + 1)) dr
        (SRC (j + 1)) (soPathGen w minD p1 p2 tso dr seed X D1 D2At SRC j).1
        (soPathGen w minD p1 p2 tso dr seed X D1 D2At SRC j).2).1 ∧ _
    exact soStep_pres w minD p1 p2 tso (X (j + 1)) (D1 (j + 1)) (D2At (j + 1)) dr
      (SRC (j + 1)) _ _ hp1 hp2 (fun d' => hSRC (j + 1) d') ih.1 ih.2

lemma sweepLR_pres (imgL imgR : Img) (w minD maxD : ℤ) (p1 p2 : ℚ) (tso : ℤ)
    (fw : Bool) (src : Vol) (hp1 : 0 ≤ p1) (hp2 : 0 ≤ p2) (hv : VolIn02 src) :
    VolIn02 (sweepLR imgL imgR w minD maxD p1 p2 tso fw src) := by
  intro y x d
  unfold sweepLR lrPath
  dsimp only
  exact (soPathGen_pres _ _ _ _ _ _ _ _ _ _ _ hp1 hp2
    (fun k => hv y _ k) (fun j d' => hv y _ d') _).1 d

lemma sweepUD_pres (imgL imgR : Img) (w h minD maxD : ℤ) (p1 p2 : ℚ) (tso : ℤ)
    (fw : Bool) (src : Vol) (hp1 : 0 ≤ p1) (hp2 : 0 ≤ p2) (hv : VolIn02 src) :
    VolIn02 (sweepUD imgL imgR w h minD maxD p1 p2 tso fw src) := by
  intro y x d
  unfold sweepUD udPath
  dsimp only
  exact (soPathGen_pres _ _ _ _ _ _ _ _ _ _ _ hp1 hp2
    (fun k => hv _ x k) (fun j d' => hv _ x d') _).1 d

lemma scanlineOptimize_pres (imgL imgR : Img) (w h minD maxD : ℤ) (p1 p2 : ℚ)
    (tso : ℤ) (src : Vol) (hp1 : 0 ≤ p1) (hp2 : 0 ≤ p2) (hv : VolIn02 src) :
    VolIn02 (scanlineOptimize imgL imgR w h minD maxD p1 p2 tso src) := by
  unfold scanlineOptimize
  exact sweepUD_pres _ _ _ _ _ _ _ _ _ _ _ hp1 hp2
    (sweepUD_pres _ _ _ _ _ _ _ _ _ _ _ hp1 hp2
      (sweepLR_pres _ _ _ _ _ _ _ _ _ _ hp1 hp2
        (sweepLR_pres _ _ _ _ _ _ _ _ _ _ hp1 hp2 hv)))

lemma computeDispPixel_range (minD maxD : ℤ) (costRow : ℤ → ℚ)
    (hn : 0 < maxD - minD)
    (hc : ∀ i : ℕ, i < (maxD - minD).toNat → costRow i < Large_Float) :
    computeDispPixel minD maxD costRow = Invalid_Float ∨
      ((minD : ℚ) - 1/2 < computeDispPixel minD maxD costRow ∧
        computeDispPixel minD maxD costRow < (maxD : ℚ) - 1/2) := by
  have hn' : 0 < (maxD - minD).toNat := by omega
  simp only [computeDispPixel]
  rw [wtaFold_eq costRow minD ((maxD - minD).toNat) hn' hc]
  set ds := argminSpec costRow ((maxD - minD).toNat) with hds
  have hdslt : ds < (maxD - minD).toNat := argminSpec_lt _ _ hn'
  have hball := argminSpec_ball costRow ((maxD - minD).toNat) hn'
  dsimp only
  by_cases hb : minD + (ds : ℤ) = minD ∨ minD + (ds : ℤ) = maxD - 1
  · rw [if_pos hb]
    exact Or.inl rfl
  · rw [if_neg hb]
    right
    have hds1 : 1 ≤ (ds : ℤ) := by omega
    have hds2 : (ds : ℤ) ≤ maxD - minD - 2 := by omega
    have h1 : minD + (ds : ℤ) - 1 - minD = (((ds - 1 : ℕ) : ℤ)) := by omega
    have h2 : minD + (ds : ℤ) + 1 - minD = (((ds + 1 : ℕ) : ℤ)) := by omega
    rw [h1, h2]
    have hc1 : costRow ds ≤ costRow ((ds - 1 : ℕ) : ℤ) := hball (ds - 1) (by omega)
    have hc2 : costRow ds ≤ costRow ((ds + 1 : ℕ) : ℤ) := hball (ds + 1) (by omega)
    set c1 := costRow ((ds - 1 : ℕ) : ℤ)
    set c2 := costRow ((ds + 1 : ℕ) : ℤ)
    set cmin := costRow ds
    have hbq1 : (minD : ℚ) + 1 ≤ ((minD + (ds : ℤ) : ℤ) : ℚ) := by
      push_cast; have : (1 : ℚ) ≤ (ds : ℚ) := by exact_mod_cast hds1
      linarith
    have hbq2 : ((minD + (ds : ℤ) : ℤ) : ℚ) ≤ (maxD : ℚ) - 2 := by
      push_cast
      have : ((ds : ℤ) : ℚ) ≤ ((maxD - minD - 2 : ℤ) : ℚ) := by exact_mod_cast hds2
      push_cast at this
      linarith
    by_cases hden : c1 + c2 - 2 * cmin ≠ 0
    · rw [if_pos hden]
      have hdpos : 0 < c1 + c2 - 2 * cmin := by
        rcases lt_or_eq_of_le (by linarith : (0 : ℚ) ≤ c1 + c2 - 2 * cmin) with h | h
        · exact h
        · exact absurd h.symm hden
      have hoff1 : (c1 - c2) / ((c1 + c2 - 2 * cmin) * 2) ≤ 1/2 := by
        rw [div_le_iff (by linarith)]
        linarith
      have hoff2 : -(1/2 : ℚ) ≤ (c1 - c2) / ((c1 + c2 - 2 * cmin) * 2) := by
        rw [le_div_iff (by linarith)]
        linarith
      constructor
      · linarith
      · linarith
    · rw [if_neg hden]
      constructor
      · linarith
      · linarith

/-- Pointwise range invariant of a disparity map. -/
def DLOk (minD maxD : ℤ) (D : DispMap) : Prop :=
  ∀ y x : ℤ, C1Ok minD maxD (D y x)

lemma C1Ok_invalid (minD maxD : ℤ) : C1Ok minD maxD Invalid_Float := Or.inl rfl

lemma C1Ok_zero (minD maxD : ℤ) : C1Ok minD maxD 0 := Or.inr (Or.inl rfl)

lemma C1Ok_intCast (minD maxD k : ℤ) (h1 : minD ≤ k) (h2 : k ≤ maxD - 1) :
    C1Ok minD maxD ((k : ℤ) : ℚ) := by
  refine Or.inr (Or.inr ⟨?_, ?_⟩)
  · have : (minD : ℚ) ≤ (k : ℚ) := by exact_mod_cast h1
    linarith
  · have : (k : ℚ) ≤ ((maxD - 1 : ℤ) : ℚ) := by exact_mod_cast h2
    push_cast at this
    linarith

lemma setDL_pres (minD maxD : ℤ) (D : DispMap) (y x : ℤ) (v : ℚ)
    (hv : C1Ok minD maxD v) (hD : DLOk minD maxD D) :
    DLOk minD maxD (setDL D y x v) := by
  intro yy xx
  unfold setDL
  split_ifs
  · exact hv
  · exact hD yy xx

lemma outlierDetection_pres (minD maxD w h : ℤ) (DR : DispMap) (thres : ℚ)
    (st : RefinerState) (hst : DLOk minD maxD st.dispLeft) :
    DLOk minD maxD (outlierDetection w h DR thres st).dispLeft := by
  unfold outlierDetection
  apply foldl_preserve (fun s : RefinerState => DLOk minD maxD s.dispLeft)
    (outlierStep w DR thres) (rowMajorPixels w h)
    { st with occlusions := [], mismatches := [] } hst
  intro a p ha
  unfold outlierStep
  dsimp only
  split_ifs <;>
    first
      | exact ha
      | exact setDL_pres minD maxD a.dispLeft p.2 p.1 Invalid_Float
          (C1Ok_invalid minD maxD) ha

lemma foldl_preserve_mem {α β : Type} (P : α → Prop) (f : α → β → α) :
    ∀ (l : List β) (a : α), P a → (∀ a b, b ∈ l → P a → P (f a b)) →
      P (l.foldl f a) := by
  intro l
  induction l with
  | nil => intro a ha _; exact ha
  | cons b t ih =>
    intro a ha hstep
    exact ih (f a b) (hstep a b (List.mem_cons_self b t) ha)
      (fun a' b' hb' ha' => hstep a' b' (List.mem_cons_of_mem b hb') ha')

lemma voteScan_best_range (hist : ℤ → ℤ) (n : ℕ) (hn : 0 < n) :
    0 ≤ (voteScan hist n).1 ∧ (voteScan hist n).1 < (n : ℤ) := by
  unfold voteScan
  apply foldl_preserve_mem
    (fun st : ℤ × ℤ × ℤ => 0 ≤ st.1 ∧ st.1 < (n : ℤ)) _ (List.range n) (0, 0, 0)
    ⟨le_refl 0, by show (0 : ℤ) < (n : ℤ); exact_mod_cast hn⟩
  intro a d hd ha
  dsimp only
  split_ifs
  · have hdn : d < n := List.mem_range.mp hd
    exact ⟨Int.natCast_nonneg d, by show (d : ℤ) < (n : ℤ); exact_mod_cast hdn⟩
  · exact ha

lemma votePixel_pres (minD maxD : ℤ) (irv_ts : ℤ) (irv_th : ℚ)
    (arms : ℤ → ℤ → CrossArm) (D : DispMap) (p : ℤ × ℤ)
    (hdr : 0 < maxD - minD) (hD : DLOk minD maxD D) :
    DLOk minD maxD (votePixel minD maxD irv_ts irv_th arms D p) := by
  unfold votePixel
  dsimp only
  have hn : 0 < (maxD - minD).toNat := by omega
  have hbest := voteScan_best_range
    (voteHist minD arms D p.1 p.2) ((maxD - minD).toNat) hn
  split_ifs
  · exact hD
  · apply setDL_pres minD maxD D p.2 p.1 _ _ hD
    apply C1Ok_intCast
    · omega
    · omega
  · exact hD
  · exact hD

lemma votePass_pres (minD maxD : ℤ) (irv_ts : ℤ) (irv_th : ℚ)
    (arms : ℤ → ℤ → CrossArm) (trg : List (ℤ × ℤ)) (D : DispMap)
    (hdr : 0 < maxD - minD) (hD : DLOk minD maxD D) :
    DLOk minD maxD (votePass minD maxD irv_ts irv_th arms trg D) := by
  unfold votePass
  exact foldl_preserve (DLOk minD maxD) _ trg D hD
    (fun a b ha => votePixel_pres minD maxD irv_ts irv_th arms a b hdr ha)

lemma iterativeRegionVoting_pres (minD maxD : ℤ) (irv_ts : ℤ) (irv_th : ℚ)
    (arms : ℤ → ℤ → CrossArm) (st : RefinerState)
    (hst : DLOk minD maxD st.dispLeft) :
    DLOk minD maxD (iterativeRegionVoting minD maxD irv_ts irv_th arms st).dispLeft := by
  unfold iterativeRegionVoting
  split_ifs with hg
  · exact hst
  · have hdr : 0 < maxD - minD := by omega
    apply foldl_preserve (fun s : RefinerState => DLOk minD maxD s.dispLeft)
      _ (List.range 5) st hst
    intro a _ ha
    unfold regionVotingIter
    dsimp only
    exact votePass_pres minD maxD irv_ts irv_th arms a.occlusions _ hdr
      (votePass_pres minD maxD irv_ts irv_th arms a.mismatches _ hdr ha)

lemma rayScan_some (w h : ℤ) (DL : DispMap) (pos : ℕ → ℤ × ℤ) :
    ∀ (l : List ℕ) (c : (ℤ × ℤ) × ℚ), rayScan w h DL pos l = some c →
      c.2 = DL c.1.2 c.1.1 ∧ c.2 ≠ Invalid_Float := by
  intro l
  induction l with
  | nil => intro c hc; exact absurd hc (by simp [rayScan])
  | cons m ms ih =>
    intro c hc
    unfold rayScan at hc
    dsimp only at hc
    split_ifs at hc with h1 h2
    · injection hc with hceq
      rw [← hceq]
      exact ⟨rfl, h2⟩
    · exact ih c hc

lemma collectCands_mem (rayPos : ℕ → ℕ → ℤ → ℤ → ℤ × ℤ) (w h : ℤ)
    (DL : DispMap) (msl : ℕ) (x y : ℤ) (c : (ℤ × ℤ) × ℚ)
    (hc : c ∈ collectCands rayPos w h DL msl x y) :
    c.2 = DL c.1.2 c.1.1 ∧ c.2 ≠ Invalid_Float := by
  unfold collectCands at hc
  obtain ⟨s, _, hsc⟩ := List.mem_filterMap.mp hc
  exact rayScan_some w h DL _ _ c hsc

lemma chooseMismatch_cases (imgL : Img) (x y : ℤ) (cands : List ((ℤ × ℤ) × ℚ)) :
    chooseMismatch imgL x y cands = 0 ∨
      ∃ c ∈ cands, chooseMismatch imgL x y cands = c.2 := by
  unfold chooseMismatch
  dsimp only
  apply foldl_preserve_mem
    (fun st : ℤ × ℚ => st.2 = 0 ∨ ∃ c ∈ cands, st.2 = c.2) _ cands (9999, 0)
    (Or.inl rfl)
  intro a b hb ha
  dsimp only
  split_ifs
  · exact Or.inr ⟨b, hb, rfl⟩
  · exact ha

lemma chooseOcclusion_cases (cands : List ((ℤ × ℤ) × ℚ)) :
    chooseOcclusion cands = Large_Float ∨
      ∃ c ∈ cands, chooseOcclusion cands = c.2 := by
  unfold chooseOcclusion
  apply foldl_preserve_mem
    (fun m : ℚ => m = Large_Float ∨ ∃ c ∈ cands, m = c.2) _ cands Large_Float
    (Or.inl rfl)
  intro a b hb ha
  rcases min_cases a b.2 with ⟨hm, _⟩ | ⟨hm, _⟩
  · rw [hm]; exact ha
  · rw [hm]; exact Or.inr ⟨b, hb, rfl⟩

lemma foldlMin_le_mem :
    ∀ (l : List ((ℤ × ℤ) × ℚ)) (a : ℚ),
      (∀ c ∈ l, l.foldl (fun m dc => min m dc.2) a ≤ c.2) ∧
        l.foldl (fun m dc => min m dc.2) a ≤ a := by
  intro l
  induction l with
  | nil => intro a; exact ⟨fun c hc => absurd hc (by simp), le_refl a⟩
  | cons b t ih =>
    intro a
    rw [List.foldl_cons]
    refine ⟨?_, le_trans (ih (min a b.2)).2 (min_le_left a b.2)⟩
    intro c hc
    rcases List.mem_cons.mp hc with hcb | hct
    · rw [hcb]
      exact le_trans (ih (min a b.2)).2 (min_le_right a b.2)
    · exact (ih (min a b.2)).1 c hct

lemma chooseOcclusion_le (cands : List ((ℤ × ℤ) × ℚ)) (c : (ℤ × ℤ) × ℚ)
    (hc : c ∈ cands) : chooseOcclusion cands ≤ c.2 :=
  (foldlMin_le_mem cands Large_Float).1 c hc

lemma interpFill_ok (minD maxD : ℤ) (imgL : Img)
    (rayPos : ℕ → ℕ → ℤ → ℤ → ℤ × ℤ) (w h : ℤ) (msl : ℕ) (k0 : Bool)
    (D : DispMap) (p : ℤ × ℤ) (hmax : maxD ≤ 99999) (hD : DLOk minD maxD D) :
    C1Ok minD maxD (interpFill imgL rayPos w h msl k0 D p) := by
  unfold interpFill
  dsimp only
  split_ifs with hemp hk
  · exact C1Ok_zero minD maxD
  · rcases chooseMismatch_cases imgL p.1 p.2
        (collectCands rayPos w h D msl p.1 p.2) with h0 | ⟨c, hcmem, hval⟩
    · rw [h0]; exact C1Ok_zero minD maxD
    · rw [hval, (collectCands_mem rayPos w h D msl p.1 p.2 c hcmem).1]
      exact hD _ _
  · rcases chooseOcclusion_cases
        (collectCands rayPos w h D msl p.1 p.2) with hLF | ⟨c, hcmem, hval⟩
    · exfalso
      have hne : collectCands rayPos w h D msl p.1 p.2 ≠ [] := by
        simpa [List.isEmpty_iff] using hemp
      obtain ⟨c0, hc0⟩ := List.exists_mem_of_ne_nil _ hne
      have hle := chooseOcclusion_le _ c0 hc0
      rw [hLF] at hle
      have hc0p := collectCands_mem rayPos w h D msl p.1 p.2 c0 hc0
      have hC := hD c0.1.2 c0.1.1
      rw [← hc0p.1] at hC
      rcases hC with hcase | hcase | hcase
      · exact hc0p.2 hcase
      · rw [hcase] at hle
        norm_num [Large_Float] at hle
      · have hq : (maxD : ℚ) ≤ 99999 := by exact_mod_cast hmax
        have := hcase.2
        rw [show Large_Float = (99999 : ℚ) from rfl] at hle
        linarith
    · rw [hval, (collectCands_mem rayPos w h D msl p.1 p.2 c hcmem).1]
      exact hD _ _

lemma properInterpolation_pres (minD maxD : ℤ) (imgL : Img)
    (rayPos : ℕ → ℕ → ℤ → ℤ → ℤ × ℤ) (w h : ℤ) (st : RefinerState)
    (hmax : maxD ≤ 99999) (hst : DLOk minD maxD st.dispLeft) :
    DLOk minD maxD (properInterpolation imgL rayPos w h minD maxD st).dispLeft := by
  unfold properInterpolation
  dsimp only
  have hDL1 : DLOk minD maxD
      (interpPass imgL rayPos w h (maxSearchLength minD maxD) true
        st.mismatches st.dispLeft) := by
    intro y x
    rw [interpPass_eval]
    split_ifs
    · exact interpFill_ok minD maxD imgL rayPos w h _ true _ _ hmax hst
    · exact hst y x
  intro y x
  rw [interpPass_eval]
  split_ifs
  · exact interpFill_ok minD maxD imgL rayPos w h _ false _ _ hmax hDL1
  · exact hDL1 y x

lemma ddaStep_pres (minD maxD : ℤ) (cost : Vol) (edge : ℤ → ℤ → Bool)
    (D : DispMap) (p : ℤ × ℤ) (hD : DLOk minD maxD D) :
    DLOk minD maxD (ddaStep cost edge D p) := by
  unfold ddaStep
  dsimp only
  split_ifs <;>
    first
      | exact hD
      | exact setDL_pres minD maxD D p.2 p.1 _ (hD _ _) hD

lemma depthDiscontinuityAdjustment_pres (minD maxD w h : ℤ) (cost : Vol)
    (D : DispMap) (hD : DLOk minD maxD D) :
    DLOk minD maxD (depthDiscontinuityAdjustment cost minD maxD w h D) := by
  unfold depthDiscontinuityAdjustment
  split_ifs
  · exact hD
  · exact foldl_preserve (DLOk minD maxD) _ (ddaPixels w h) D hD
      (fun a b ha => ddaStep_pres minD maxD cost _ a b ha)

lemma insertSorted_mem (a : ℚ) :
    ∀ (l : List ℚ) (v : ℚ), v ∈ insertSorted a l → v = a ∨ v ∈ l := by
  intro l
  induction l with
  | nil =>
    intro v hv
    simp only [insertSorted, List.mem_singleton] at hv
    exact Or.inl hv
  | cons b t ih =>
    intro v hv
    unfold insertSorted at hv
    split_ifs at hv
    · rcases List.mem_cons.mp hv with hva | hvt
      · exact Or.inl hva
      · exact Or.inr hvt
    · rcases List.mem_cons.mp hv with hvb | hvt
      · exact Or.inr (List.mem_cons.mpr (Or.inl hvb))
      · rcases ih v hvt with hva | hvt'
        · exact Or.inl hva
        · exact Or.inr (List.mem_cons.mpr (Or.inr hvt'))

lemma sortQ_mem : ∀ (l : List ℚ) (v : ℚ), v ∈ sortQ l → v ∈ l := by
  intro l
  induction l with
  | nil => intro v hv; exact absurd hv (by simp [sortQ])
  | cons b t ih =>
    intro v hv
    unfold sortQ at hv
    rcases insertSorted_mem b (sortQ t) v hv with hvb | hvt
    · exact List.mem_cons.mpr (Or.inl hvb)
    · exact List.mem_cons.mpr (Or.inr (ih v hvt))

lemma getD_mem_or (l : List ℚ) (i : ℕ) : l.getD i 0 ∈ l ∨ l.getD i 0 = 0 := by
  by_cases hi : i < l.length
  · left
    rw [List.getD_eq_getElem l 0 hi]
    exact List.getElem_mem hi
  · right
    exact List.getD_eq_default l 0 (le_of_not_lt hi)

lemma window3_mem (m : DispMap) (w h y x : ℤ) (v : ℚ)
    (hv : v ∈ window3 m w h y x) : ∃ yy xx, v = m yy xx := by
  unfold window3 at hv
  obtain ⟨rc, _, hrc⟩ := List.mem_filterMap.mp hv
  split_ifs at hrc
  exact ⟨y + rc.1, x + rc.2, (Option.some.inj hrc).symm⟩

lemma medianFilter3_pres (minD maxD w h : ℤ) (m : DispMap)
    (hm : DLOk minD maxD m) : DLOk minD maxD (medianFilter3 m w h) := by
  intro y x
  unfold medianFilter3
  dsimp only
  split_ifs
  · rcases getD_mem_or (sortQ (window3 m w h y x))
        ((sortQ (window3 m w h y x)).length / 2) with hmem | h0
    · obtain ⟨yy, xx, hv⟩ := window3_mem m w h y x _ (sortQ_mem _ _ hmem)
      rw [hv]
      exact hm yy xx
    · rw [h0]
      exact C1Ok_zero minD maxD
  · exact hm y x

lemma refine_pres (minD maxD : ℤ) (imgL : Img)
    (rayPos : ℕ → ℕ → ℤ → ℤ → ℤ × ℤ) (cost : Vol) (arms : ℤ → ℤ → CrossArm)
    (w h : ℤ) (irv_ts : ℤ) (irv_th lrthres : ℚ)
    (doLR doVote doInterp doAdjust : Bool) (DL DR : DispMap)
    (hmax : maxD ≤ 99999) (hDL : DLOk minD maxD DL) :
    DLOk minD maxD (refine imgL rayPos cost arms w h minD maxD irv_ts irv_th
      lrthres doLR doVote doInterp doAdjust DL DR) := by
  unfold refine
  by_cases hg : w ≤ 0 ∨ h ≤ 0
  · rw [if_pos hg]
    exact hDL
  · rw [if_neg hg]
    dsimp only
    have h1 : DLOk minD maxD
        (if doLR then outlierDetection w h DR lrthres ⟨DL, [], []⟩
         else ⟨DL, [], []⟩).dispLeft := by
      split_ifs
      · exact outlierDetection_pres minD maxD w h DR lrthres ⟨DL, [], []⟩ hDL
      · exact hDL
    have h2 : DLOk minD maxD
        (if doVote then iterativeRegionVoting minD maxD irv_ts irv_th arms
           (if doLR then outlierDetection w h DR lrthres ⟨DL, [], []⟩
            else ⟨DL, [], []⟩)
         else (if doLR then outlierDetection w h DR lrthres ⟨DL, [], []⟩
            else ⟨DL, [], []⟩)).dispLeft := by
      by_cases hv : doVote = true
      · rw [if_pos hv]
        exact iterativeRegionVoting_pres minD maxD irv_ts irv_th arms _ h1
      · rw [if_neg hv]
        exact h1
    have h3 : DLOk minD maxD
        (if doInterp then properInterpolation imgL rayPos w h minD maxD
           (if doVote then iterativeRegionVoting minD maxD irv_ts irv_th arms
              (if doLR then outlierDetection w h DR lrthres ⟨DL, [], []⟩
               else ⟨DL, [], []⟩)
            else (if doLR then outlierDetection w h DR lrthres ⟨DL, [], []⟩
               else ⟨DL, [], []⟩))
         else (if doVote then iterativeRegionVoting minD maxD irv_ts irv_th arms
              (if doLR then outlierDetection w h DR lrthres ⟨DL, [], []⟩
               else ⟨DL, [], []⟩)
            else (if doLR then outlierDetection w h DR lrthres ⟨DL, [], []⟩
               else ⟨DL, [], []⟩))).dispLeft := by
      by_cases hi : doInterp = true
      · rw [if_pos hi]
        exact properInterpolation_pres minD maxD imgL rayPos w h _ hmax h2
      · rw [if_neg hi]
        exact h2
    apply medianFilter3_pres
    by_cases ha : doAdjust = true
    · rw [if_pos ha]
      exact depthDiscontinuityAdjustment_pres minD maxD w h cost _ h3
    · rw [if_neg ha]
      exact h3

lemma computeDisparity_ok (minD maxD : ℤ) (cost : Vol) (hdr : 0 < maxD - minD)
    (hc : VolIn02 cost) : DLOk minD maxD (computeDisparity minD maxD cost) := by
  intro y x
  unfold computeDisparity
  rcases computeDispPixel_range minD maxD (fun dIdx => cost y x dIdx) hdr
      (fun i _ => lt_of_le_of_lt (hc y x i).2 (by norm_num [Large_Float])) with
    hcase | hcase
  · exact Or.inl hcase
  · exact Or.inr (Or.inr hcase)

lemma adInitialize_true_dims (s : ADStereoState) (w h : ℤ) (opt : ADCensusOption)
    (hok : (adInitialize s w h opt).1 = true) :
    0 < w ∧ 0 < h ∧ 0 < opt.max_disparity - opt.min_disparity := by
  unfold adInitialize at hok
  split_ifs at hok with h1 h2 h3 h4 h5 <;>
    first
      | (exfalso; revert hok; simp; done)
      | exact ⟨by omega, by omega, by omega⟩

end RangeLemmas

/-- C1 (amended): for every successfully initialized configuration, every
initial cost volume with entries in `[0, 2]` (the range of the AD-Census
cost `ρ`), nonnegative scanline penalties, and `max_disparity ≤ 99999`,
every entry of the disparity map produced by a successful `Match` is the
sentinel `Invalid_Float`, the value-initialised fill `0.0`, or lies
strictly inside `(min_disparity − 1/2, max_disparity − 1/2)` — across all
combinations of the `do_lr_check` / `do_filling` /
`do_discontinuity_adjustment` toggles (the claim as stated omits the
`0.0` fill value; see the counterexample). -/
theorem claim_C1_disparity_range_amended (imgL imgR : Img)
    (rayPos : ℕ → ℕ → ℤ → ℤ → ℤ × ℤ) (s : ADStereoState) (w h : ℤ)
    (opt : ADCensusOption) (C0 : Vol) (DL0 DR0 : DispMap)
    (hinit : (adInitialize s w h opt).1 = true)
    (hC0 : VolIn02 C0) (hp1 : 0 ≤ opt.so_p1) (hp2 : 0 ≤ opt.so_p2)
    (hmax : opt.max_disparity ≤ 99999) :
    ∀ y x : ℤ, C1Ok opt.min_disparity opt.max_disparity
      (adMatch imgL imgR rayPos w h opt C0 DL0 DR0 y x) := by
  have hdims := adInitialize_true_dims s w h opt hinit
  have hcond : 0 < opt.max_disparity - opt.min_disparity := hdims.2.2
  intro y x
  simp only [adMatch]
  rw [if_pos hcond]
  have hagg := aggregate_pres
    (buildArms imgL w h opt.cross_L1 opt.cross_L2 opt.cross_t1 opt.cross_t2)
    opt.min_disparity opt.max_disparity 4 C0 hC0
  have hso := scanlineOptimize_pres imgL imgR w h opt.min_disparity
    opt.max_disparity opt.so_p1 opt.so_p2 opt.so_tso _ hp1 hp2 hagg
  exact refine_pres opt.min_disparity opt.max_disparity imgL rayPos _ _ w h
    opt.irv_ts opt.irv_th opt.lrcheck_thres opt.do_lr_check opt.do_filling
    opt.do_filling opt.do_discontinuity_adjustment _ _ hmax
    (computeDisparity_ok opt.min_disparity opt.max_disparity _ hcond hso) y x

/-- Witness for the amended C1: the default configuration on a `3 × 3`
image with the constant initial cost volume `1`; the theorem applies and
bounds the output entry at the origin. -/
theorem claim_C1_witness :
    ((adInitialize ⟨0, 0, defaultOption, false⟩ 3 3 defaultOption).1 = true ∧
     (0 : ℚ) ≤ defaultOption.so_p1 ∧ (0 : ℚ) ≤ defaultOption.so_p2 ∧
     defaultOption.max_disparity ≤ 99999) ∧
    C1Ok defaultOption.min_disparity defaultOption.max_disparity
      (adMatch flatGrey flatGrey rayPosTriv 3 3 defaultOption
        (fun _ _ _ => 1) (fun _ _ => 0) (fun _ _ => 0) 0 0) :=
  ⟨⟨by decide, by norm_num [defaultOption], by norm_num [defaultOption],
    by decide⟩,
   claim_C1_disparity_range_amended flatGrey flatGrey rayPosTriv
     ⟨0, 0, defaultOption, false⟩ 3 3 defaultOption
     (fun _ _ _ => 1) (fun _ _ => 0) (fun _ _ => 0)
     (by decide) (fun y x d => by norm_num)
     (by norm_num [defaultOption]) (by norm_num [defaultOption])
     (by decide) 0 0⟩

/-- The configuration of the C1 counterexample: the default options with
the disparity window moved to `[1, 2)` (and the discontinuity adjustment
left off, as shipped). -/
def ceOpt : ADCensusOption :=
  { min_disparity := 1, max_disparity := 2, lambda_ad := 10, lambda_census := 30,
    cross_L1 := 34, cross_L2 := 17, cross_t1 := 20, cross_t2 := 6,
    so_p1 := 1, so_p2 := 3, so_tso := 15, irv_ts := 20, irv_th := 2/5,
    lrcheck_thres := 1, do_lr_check := true, do_filling := true,
    do_discontinuity_adjustment := false }

/-- Counterexample to C1 as stated: a successfully initialized `1 × 1`
instance with `min_disparity = 1`, `max_disparity = 2`.  The lone pixel is
a WTA boundary, so the picker invalidates it; the LR check lists it as a
mismatch; region voting finds an empty histogram and leaves it; proper
interpolation finds no ray candidate and writes the value-initialised fill
`0.0`; the median filter keeps `0.0`.  The final entry `0.0` is not
`Invalid_Float`, yet lies outside `(min_disparity − 1/2, max_disparity −
1/2) = (1/2, 3/2)`. -/
theorem claim_C1_counterexample :
    (adInitialize ⟨0, 0, defaultOption, false⟩ 1 1 ceOpt).1 = true ∧
    adMatch flatGrey flatGrey rayPosTriv 1 1 ceOpt (fun _ _ _ => 1)
      (fun _ _ => 0) (fun _ _ => 0) 0 0 = 0 ∧
    (0 : ℚ) ≠ Invalid_Float ∧
    ¬((ceOpt.min_disparity : ℚ) - 1/2 < 0 ∧
      (0 : ℚ) < (ceOpt.max_disparity : ℚ) - 1/2) := by
  refine ⟨by decide, ?_, by norm_num [Invalid_Float], by norm_num [ceOpt]⟩
  have harm : buildArms flatGrey 1 1 34 17 20 6 0 0 =
      (⟨0, 0, 0, 0⟩ : CrossArm) := by decide
  simp only [adMatch, ceOpt]
  rw [if_pos (by norm_num : (0:ℤ) < 2 - 1)]
  set A := buildArms flatGrey 1 1 34 17 20 6 with hA
  set SO := scanlineOptimize flatGrey flatGrey 1 1 1 2 1 3 15
    (aggregate A 1 2 4 (fun _ _ _ => 1)) with hSOdef
  set DL := computeDisparity 1 2 SO with hDLdef
  set DR := computeDisparityRight 1 1 2 SO with hDRdef
  unfold refine
  rw [if_neg (by norm_num : ¬ ((1:ℤ) ≤ 0 ∨ (1:ℤ) ≤ 0))]
  simp only [if_true]
  rw [if_neg (by simp : ¬ (false = true))]
  rw [if_pos (by norm_num : (0:ℤ) < 2 - 1)]
  have hswLR : ∀ (fw : Bool) (src : Vol) (d : ℤ),
      sweepLR flatGrey flatGrey 1 1 2 1 3 15 fw src 0 0 d = src 0 0 d := by
    intro fw src d
    cases fw <;> norm_num [sweepLR, lrPath, soPathGen]
  have hswUD : ∀ (fw : Bool) (src : Vol) (d : ℤ),
      sweepUD flatGrey flatGrey 1 1 1 2 1 3 15 fw src 0 0 d = src 0 0 d := by
    intro fw src d
    cases fw <;> norm_num [sweepUD, udPath, soPathGen]
  have hagg1 : ∀ (hf : Bool) (v : Vol), v 0 0 0 = 1 →
      aggregateInArms A 1 2 1 hf v 0 0 0 = 1 := by
    intro hf v hv
    cases hf <;>
      norm_num [aggregateInArms, aggPass1, aggPass2, supCount, supCountPass1,
        armSum, harm, hv, List.range_succ, List.range_zero]
  have hagg : aggregate A 1 2 4 (fun _ _ _ => 1) 0 0 0 = 1 := by
    have h1 := hagg1 true (fun _ _ _ => 1) rfl
    have h2 := hagg1 false _ h1
    have h3 := hagg1 true _ h2
    have h4 := hagg1 false _ h3
    norm_num [aggregate, show ((2:ℤ) - 1).toNat = 1 from rfl, List.range_succ,
      List.range_zero]
    exact h4
  have hso : SO 0 0 0 = 1 := by
    rw [hSOdef]
    unfold scanlineOptimize
    rw [hswUD, hswUD, hswLR, hswLR]
    exact hagg
  have hDL00 : DL 0 0 = Invalid_Float := by
    rw [hDLdef]
    norm_num [computeDisparity, computeDispPixel, wtaFold,
      show ((2:ℤ) - 1).toNat = 1 from rfl, List.range_succ, List.range_zero,
      hso, Large_Float]
  have hst1 : outlierDetection 1 1 DR 1 ⟨DL, [], []⟩ =
      (⟨DL, [], [((0:ℤ), (0:ℤ))]⟩ : RefinerState) := by
    norm_num [outlierDetection, rowMajorPixels, outlierStep,
      show ((1:ℤ)).toNat = 1 from rfl, List.range_succ, List.range_zero, hDL00]
  rw [hst1]
  have hiter : regionVotingIter 1 2 20 (2/5) A ⟨DL, [], [((0:ℤ), (0:ℤ))]⟩ =
      (⟨DL, [], [((0:ℤ), (0:ℤ))]⟩ : RefinerState) := by
    norm_num [regionVotingIter, votePass, votePixel, voteScan, voteHist,
      removeFilled, armSum, harm, hDL00, List.range_succ, List.range_zero,
      show ((2:ℤ) - 1).toNat = 1 from rfl]
  have hst2 : iterativeRegionVoting 1 2 20 (2/5) A ⟨DL, [], [((0:ℤ), (0:ℤ))]⟩ =
      (⟨DL, [], [((0:ℤ), (0:ℤ))]⟩ : RefinerState) := by
    norm_num [iterativeRegionVoting, List.range_succ, List.range_zero, hiter,
      -Prod.mk_zero_zero]
  rw [hst2]
  have hfill : interpFill flatGrey rayPosTriv 1 1 2 true DL ((0:ℤ), (0:ℤ)) = 0 := by
    norm_num [interpFill, collectCands, rayScan, rayPosTriv, hDL00,
      List.range_succ, List.range_zero,
      show List.range' 1 (2 - 1) = [1] from rfl]
  have hst3 : (properInterpolation flatGrey rayPosTriv 1 1 1 2
      ⟨DL, [], [((0:ℤ), (0:ℤ))]⟩).dispLeft 0 0 = 0 := by
    norm_num [properInterpolation, interpPass_eval, hfill,
      show maxSearchLength 1 2 = 2 from rfl, -Prod.mk_zero_zero]
  norm_num [medianFilter3, window3, sortQ, insertSorted, List.range_succ,
    List.range_zero, hst3, -Prod.mk_zero_zero]

end ADCensus
